import Mathlib

/-!
# Apicurio Registry operator: control functions

A shallow embedding of the control functions of the operator
(`controllers/cf/cf_labels.go`, `controllers/cf/cf_https.go`) and of the
properties stated for them.

Conventions of the embedding:

* a Go `map[string]string` is `GoMap`: `none` is the nil map, `some a` an allocated
  map whose association list `a` lists the entries in the order in which a `range`
  loop visits them.  Go leaves that order unspecified, so a statement quantified
  over every `GoMap` covers every visiting order;
* a run-time panic is an `Except.error`; code that cannot panic is a plain function;
* a method with receiver `this` takes the receiver as an argument and returns the
  updated receiver.
-/

namespace Operator

/-! ## Go run time -/

/-- The run-time panics that the embedded code can raise. -/
inductive GoPanic where
  | nilMapAssignment
  | indexOutOfRange
  | nilDereference
  | interfaceConversion
  deriving DecidableEq, Repr

/-- A computation that either panics or returns. -/
abbrev Go (α : Type) := Except GoPanic α

/-- One `key: value` entry of a string map. -/
abbrev Entry := Sigma (fun _ : String => String)

/-- An allocated string map. -/
abbrev StrMap := AList (fun _ : String => String)

/-- A Go value of type `map[string]string`; `none` is the nil map. -/
abbrev GoMap := Option StrMap

namespace GoMap

/-- The value stored under `k`, if any.  Reading a nil map finds nothing. -/
def get? (m : GoMap) (k : String) : Option String :=
  match m with
  | none => none
  | some a => a.lookup k

/-- The two-result index expression `v, ok := m[k]`: the zero value `""` and `false`
when the key is absent. -/
def index (m : GoMap) (k : String) : String × Bool :=
  match m.get? k with
  | some v => (v, true)
  | none => ("", false)

/-- The assignment `m[k] = v`; it panics on the nil map. -/
def assign (m : GoMap) (k v : String) : Go GoMap :=
  match m with
  | none => .error .nilMapAssignment
  | some a => .ok (some (a.insert k v))

/-- The entries that `for k, v := range m` visits, in visiting order. -/
def range (m : GoMap) : List Entry :=
  match m with
  | none => []
  | some a => a.entries

/-- Whether `k` is a key of `m`. -/
def hasKey (m : GoMap) (k : String) : Bool := (m.get? k).isSome

end GoMap

/-! ## `cf_labels.go`: label helpers -/

/-- The loop of `LabelsEqual` over the entries still to visit. -/
def LabelsEqual.loop (target : GoMap) : List Entry → Bool
  | [] => true
  | e :: rest =>
    let targetValue := (target.index e.1).1
    let targetExists := (target.index e.1).2
    if !targetExists || e.2 != targetValue then false
    else LabelsEqual.loop target rest

/-- The function `LabelsEqual(target, source)`. -/
def LabelsEqual (target source : GoMap) : Bool :=
  LabelsEqual.loop target source.range

/-- The loop of `LabelsUpdate` over the entries still to visit; the first argument is
the current content of `target`. -/
def LabelsUpdate.loop : GoMap → List Entry → Go GoMap
  | target, [] => .ok target
  | target, e :: rest =>
    let targetValue := (target.index e.1).1
    let targetExists := (target.index e.1).2
    if !targetExists || e.2 != targetValue then
      match target.assign e.1 e.2 with
      | .error p => .error p
      | .ok target' => LabelsUpdate.loop target' rest
    else LabelsUpdate.loop target rest

/-- The function `LabelsUpdate(target, source)`: the result is the content of `target` after the
call, or the panic raised. -/
def LabelsUpdate (target source : GoMap) : Go GoMap :=
  LabelsUpdate.loop target source.range

/-! ## Kubernetes objects

Only the fields that the control functions read or write are kept. -/

/-- The type `intstr.IntOrString`. -/
inductive IntOrString where
  | int (intVal : Int)
  | str (strVal : String)
  deriving DecidableEq, Repr

/-- The value of a non-empty run of decimal digits, most significant first. -/
def digitsValue : List Char → Nat → Option Nat
  | [], acc => some acc
  | c :: cs, acc => if c.isDigit then digitsValue cs (10 * acc + (c.toNat - 48)) else none

/-- The function `strconv.Atoi` with the error dropped, as `IntOrString.IntValue` uses it: an optional
sign and decimal digits, clamped to the 64-bit range; `0` for anything else. -/
def atoi (s : String) : Int :=
  let clamp (i : Int) : Int := max (-(2 : Int) ^ 63) (min i ((2 : Int) ^ 63 - 1))
  let digits (ds : List Char) (neg : Bool) : Int :=
    match ds with
    | [] => 0
    | _ :: _ =>
      match digitsValue ds 0 with
      | some n => clamp (if neg then -(n : Int) else (n : Int))
      | none => 0
  match s.data with
  | '-' :: ds => digits ds true
  | '+' :: ds => digits ds false
  | ds => digits ds false

/-- The method `(*IntOrString).IntValue()` on a non-nil receiver. -/
def IntOrString.IntValue : IntOrString → Int
  | .int v => v
  | .str s => atoi s

/-- The type `core.VolumeSource`, reduced to the secret source the operator writes. -/
inductive VolumeSource where
  | secret (secretName : String)
  | other (description : String)
  deriving DecidableEq, Repr

/-- The type `core.Volume`. -/
structure Volume where
  name : String
  volumeSource : VolumeSource
  deriving DecidableEq, Repr

/-- The type `core.VolumeMount`. -/
structure VolumeMount where
  name : String
  mountPath : String
  readOnly : Bool
  deriving DecidableEq, Repr

/-- The type `core.ContainerPort`. -/
structure ContainerPort where
  name : String := ""
  containerPort : Int
  protocol : String := ""
  deriving DecidableEq, Repr

/-- The type `core.EnvVar`. -/
structure EnvVar where
  name : String
  value : String
  deriving DecidableEq, Repr

/-- The type `core.Container`. -/
structure Container where
  name : String
  ports : List ContainerPort
  volumeMounts : List VolumeMount
  env : List EnvVar
  deriving DecidableEq, Repr

/-- The type `apps.Deployment`: `labels` is `.Labels`, `templateLabels` is `.Spec.Template.Labels`,
`volumes` and `containers` are those of `.Spec.Template.Spec`. -/
structure Deployment where
  name : String
  labels : GoMap
  templateLabels : GoMap
  volumes : List Volume
  containers : List Container

/-- The type `core.ServicePort`. -/
structure ServicePort where
  name : String
  protocol : String
  port : Int
  targetPort : IntOrString
  deriving DecidableEq, Repr

/-- The type `core.Service`. -/
structure Service where
  labels : GoMap
  ports : List ServicePort

/-- The type `networking.NetworkPolicyPort`; both fields are pointers, `none` is nil. -/
structure NetworkPolicyPort where
  protocol : Option String
  port : Option IntOrString
  deriving DecidableEq, Repr

/-- The type `networking.NetworkPolicyIngressRule`; the peers of `From` are kept as names. -/
structure NetworkPolicyIngressRule where
  ports : List NetworkPolicyPort
  peers : List String := []
  deriving DecidableEq, Repr

/-- The type `networking.NetworkPolicy`. -/
structure NetworkPolicy where
  labels : GoMap
  ingress : List NetworkPolicyIngressRule

/-- The type `networking.Ingress`. -/
structure Ingress where
  labels : GoMap

/-- The types `policy/v1` and `policy/v1beta1` `PodDisruptionBudget`. -/
structure PodDisruptionBudget where
  labels : GoMap

/-- The type `ar.ApicurioRegistry`: `secretName` and `disableHttp` are
`.Spec.Configuration.Security.Https.SecretName` and `.DisableHttp`, `deploymentLabels` is
`.Spec.Deployment.Metadata.Labels`. -/
structure ApicurioRegistry where
  secretName : String
  disableHttp : Bool
  deploymentLabels : GoMap

/-- The type `core.Secret`: the named byte fields of `.Data`, by name. -/
structure Secret where
  fields : List String
  deriving DecidableEq, Repr

/-! ## Resource cache -/

/-- Modelled from the spec: `resources.ResourceCacheEntry` is not part of the sources.
An entry holds the last snapshot and the patches queued against it; `GetValue` reads the
snapshot, `ApplyPatch` queues a patch `(old) -> new`, and the queued patches are applied
in enqueue order before the next cluster write. -/
structure ResourceCacheEntry (α : Type) where
  name : String
  value : α
  patches : List (α → Go α)

namespace ResourceCacheEntry

/-- The method `entry.GetValue()`. -/
def GetValue {α : Type} (e : ResourceCacheEntry α) : α := e.value

/-- The method `entry.ApplyPatch(fn)`. -/
def ApplyPatch {α : Type} (e : ResourceCacheEntry α) (fn : α → Go α) : ResourceCacheEntry α :=
  { e with patches := e.patches ++ [fn] }

/-- The queued patches applied to a snapshot, in enqueue order. -/
def runPatches {α : Type} : List (α → Go α) → α → Go α
  | [], v => .ok v
  | fn :: fns, v =>
    match fn v with
    | .error p => .error p
    | .ok v' => runPatches fns v'

/-- The entry once its queued patches are applied. -/
def flush {α : Type} (e : ResourceCacheEntry α) : Go (ResourceCacheEntry α) :=
  match runPatches e.patches e.value with
  | .error p => .error p
  | .ok v => .ok { e with value := v, patches := [] }

end ResourceCacheEntry

/-- Modelled from the spec: `resources.ResourceCache` is not part of the sources.  One slot
per key; `Get(key)` returns the entry and whether it was found. -/
structure ResourceCache where
  spec : Option (ResourceCacheEntry ApicurioRegistry) := none
  deployment : Option (ResourceCacheEntry Deployment) := none
  service : Option (ResourceCacheEntry Service) := none
  networkPolicy : Option (ResourceCacheEntry NetworkPolicy) := none
  ingress : Option (ResourceCacheEntry Ingress) := none
  pdbV1beta1 : Option (ResourceCacheEntry PodDisruptionBudget) := none
  pdbV1 : Option (ResourceCacheEntry PodDisruptionBudget) := none

/-- The slot once its entry, if any, has its queued patches applied. -/
def flushSlot {α : Type} : Option (ResourceCacheEntry α) → Go (Option (ResourceCacheEntry α))
  | none => .ok none
  | some e =>
    match e.flush with
    | .error p => .error p
    | .ok e' => .ok (some e')

/-- The cache once every queued patch is applied. -/
def ResourceCache.flush (c : ResourceCache) : Go ResourceCache :=
  (flushSlot c.spec).bind fun sp =>
  (flushSlot c.deployment).bind fun d =>
  (flushSlot c.service).bind fun s =>
  (flushSlot c.networkPolicy).bind fun n =>
  (flushSlot c.ingress).bind fun i =>
  (flushSlot c.pdbV1beta1).bind fun b =>
  (flushSlot c.pdbV1).bind fun v =>
  .ok { spec := sp, deployment := d, service := s, networkPolicy := n, ingress := i,
        pdbV1beta1 := b, pdbV1 := v }

/-! ## `cf_labels.go`: `LabelsCF` -/

/-- The fields of `LabelsCF`.  The `...Entry` fields are references to the entries of the
resource cache and are read through the cache. -/
structure LabelsCF where
  caLabels : GoMap := none
  deploymentIsCached : Bool := false
  deploymentLabels : GoMap := none
  deploymentPodLabels : GoMap := none
  additionalDeploymentPodLabels : GoMap := none
  targetDeploymentPodLabels : GoMap := none
  updateDeployment : Bool := false
  updateDeploymentPod : Bool := false
  serviceIsCached : Bool := false
  serviceLabels : GoMap := none
  updateService : Bool := false
  ingressIsCached : Bool := false
  ingressLabels : GoMap := none
  updateIngress : Bool := false
  pdbV1beta1IsCached : Bool := false
  pdbV1beta1Labels : GoMap := none
  updatePdbV1beta1 : Bool := false
  pdbV1IsCached : Bool := false
  pdbV1Labels : GoMap := none
  updatePdbV1 : Bool := false

namespace LabelsCF

/-- The constructor `NewLabelsCF`: every field has its zero value. -/
def new : LabelsCF := {}

/-- The method `LabelsCF.Sense`. -/
def Sense (cache : ResourceCache) (this : LabelsCF) : LabelsCF :=
  -- Observation #1: Deployment & Deployment Pod Template
  let this := { this with deploymentIsCached := cache.deployment.isSome }
  let this :=
    match cache.deployment with
    | some entry =>
      { this with deploymentLabels := entry.GetValue.labels,
                  deploymentPodLabels := entry.GetValue.templateLabels }
    | none => this
  let this :=
    match cache.spec with
    | some specEntry =>
      { this with additionalDeploymentPodLabels := specEntry.GetValue.deploymentLabels }
    | none => this
  -- Observation #2: Service
  let this := { this with serviceIsCached := cache.service.isSome }
  let this :=
    match cache.service with
    | some entry => { this with serviceLabels := entry.GetValue.labels }
    | none => this
  -- Observation #3: Ingress
  let this := { this with ingressIsCached := cache.ingress.isSome }
  let this :=
    match cache.ingress with
    | some entry => { this with ingressLabels := entry.GetValue.labels }
    | none => this
  -- Observation #4: PodDisruptionBudget
  let this := { this with pdbV1beta1IsCached := cache.pdbV1beta1.isSome }
  let this :=
    match cache.pdbV1beta1 with
    | some entry => { this with pdbV1beta1Labels := entry.GetValue.labels }
    | none => this
  let this := { this with pdbV1IsCached := cache.pdbV1.isSome }
  match cache.pdbV1 with
  | some entry => { this with pdbV1Labels := entry.GetValue.labels }
  | none => this

/-- The method `LabelsCF.GetCommonApplicationLabels`: the labels of the Kubernetes factory, whose
`GetLabels` is not part of the sources and is taken as the parameter `factoryLabels`. -/
def GetCommonApplicationLabels (factoryLabels : GoMap) (_this : LabelsCF) : GoMap :=
  factoryLabels

/-- The method `LabelsCF.GetTargetDeploymentPodLabels`. -/
def GetTargetDeploymentPodLabels (factoryLabels : GoMap) (this : LabelsCF) : Go GoMap :=
  let targetDeploymentPodLabels : GoMap := some ∅
  match LabelsUpdate targetDeploymentPodLabels (this.GetCommonApplicationLabels factoryLabels) with
  | .error p => .error p
  | .ok targetDeploymentPodLabels =>
    LabelsUpdate targetDeploymentPodLabels this.additionalDeploymentPodLabels

/-- The method `LabelsCF.Compare`: the updated receiver and the returned value. -/
def Compare (factoryLabels : GoMap) (this : LabelsCF) : Go (LabelsCF × Bool) :=
  let this := { this with caLabels := this.GetCommonApplicationLabels factoryLabels }
  let this := { this with
    updateDeployment := this.deploymentIsCached && !LabelsEqual this.deploymentLabels this.caLabels }
  match this.GetTargetDeploymentPodLabels factoryLabels with
  | .error p => .error p
  | .ok target =>
    let this := { this with targetDeploymentPodLabels := target }
    let this := { this with
      updateDeploymentPod :=
        this.deploymentIsCached &&
          !LabelsEqual this.deploymentPodLabels this.targetDeploymentPodLabels }
    let this := { this with
      updateService := this.serviceIsCached && !LabelsEqual this.serviceLabels this.caLabels }
    let this := { this with
      updateIngress := this.ingressIsCached && !LabelsEqual this.ingressLabels this.caLabels }
    let this := { this with
      updatePdbV1beta1 :=
        this.pdbV1beta1IsCached && !LabelsEqual this.pdbV1beta1Labels this.caLabels }
    let this := { this with
      updatePdbV1 := this.pdbV1IsCached && !LabelsEqual this.pdbV1Labels this.caLabels }
    .ok (this, this.updateDeployment || this.updateDeploymentPod || this.updateService ||
      this.updateIngress || this.updatePdbV1beta1 || this.updatePdbV1)

/-- The patch of Response #1. -/
def Respond.deploymentPatch (this : LabelsCF) (value : Deployment) : Go Deployment :=
  let deployment := value
  match LabelsUpdate deployment.labels this.caLabels with
  | .error p => .error p
  | .ok labels => .ok { deployment with labels := labels }

/-- The patch of Response #2. -/
def Respond.deploymentPodPatch (this : LabelsCF) (value : Deployment) : Go Deployment :=
  let deployment := value
  match LabelsUpdate deployment.templateLabels this.targetDeploymentPodLabels with
  | .error p => .error p
  | .ok labels => .ok { deployment with templateLabels := labels }

/-- The patch of Response #3. -/
def Respond.servicePatch (this : LabelsCF) (value : Service) : Go Service :=
  let service := value
  match LabelsUpdate service.labels this.caLabels with
  | .error p => .error p
  | .ok labels => .ok { service with labels := labels }

/-- The patch of Response #4. -/
def Respond.ingressPatch (this : LabelsCF) (value : Ingress) : Go Ingress :=
  let ingress := value
  match LabelsUpdate ingress.labels this.caLabels with
  | .error p => .error p
  | .ok labels => .ok { ingress with labels := labels }

/-- The patch of Response #5, the same for both API variants. -/
def Respond.pdbPatch (this : LabelsCF) (value : PodDisruptionBudget) : Go PodDisruptionBudget :=
  let pdb := value
  match LabelsUpdate pdb.labels this.caLabels with
  | .error p => .error p
  | .ok labels => .ok { pdb with labels := labels }

/-- The method `entry.ApplyPatch(fn)` under the guard `update`, on the slot the entry was read from. -/
def Respond.applyIf {α : Type} (update : Bool) (fn : α → Go α) :
    Option (ResourceCacheEntry α) → Option (ResourceCacheEntry α)
  | some entry => if update then some (entry.ApplyPatch fn) else some entry
  | none => none

/-- The method `LabelsCF.Respond`: the resource cache with the patches queued. -/
def Respond (this : LabelsCF) (cache : ResourceCache) : ResourceCache :=
  let cache := { cache with
    deployment := Respond.applyIf this.updateDeployment (Respond.deploymentPatch this) cache.deployment }
  let cache := { cache with
    deployment :=
      Respond.applyIf this.updateDeploymentPod (Respond.deploymentPodPatch this) cache.deployment }
  let cache := { cache with
    service := Respond.applyIf this.updateService (Respond.servicePatch this) cache.service }
  let cache := { cache with
    ingress := Respond.applyIf this.updateIngress (Respond.ingressPatch this) cache.ingress }
  let cache := { cache with
    pdbV1beta1 := Respond.applyIf this.updatePdbV1beta1 (Respond.pdbPatch this) cache.pdbV1beta1 }
  { cache with
    pdbV1 := Respond.applyIf this.updatePdbV1 (Respond.pdbPatch this) cache.pdbV1 }

/-- The method `LabelsCF.Cleanup`. -/
def Cleanup (_this : LabelsCF) : Bool := true

/-- One pass of the control loop over `LabelsCF`: `Sense`, `Compare`, `Respond` when
`Compare` returned true, then the queued patches applied. -/
def tick (factoryLabels : GoMap) (cache : ResourceCache) (this : LabelsCF) :
    Go (LabelsCF × ResourceCache) :=
  match Compare factoryLabels (Sense cache this) with
  | .error p => .error p
  | .ok (this, true) =>
    match (Respond this cache).flush with
    | .error p => .error p
    | .ok cache => .ok (this, cache)
  | .ok (this, false) => .ok (this, cache)

end LabelsCF

/-! ## `cf_https.go`: collaborators of `HttpsCF` -/

/-- The constant `TlsCertMountPath`. -/
def TlsCertMountPath : String := "/certs"

/-- The constant `HttpsPort`. -/
def HttpsPort : Int := 8443

/-- The constant `HttpPort`. -/
def HttpPort : Int := 8080

/-- The calls that `HttpsCF.Sense` makes on its collaborators, in call order:
`svcClients.Kube().GetSecret`, `GetConfigurationErrorCondition().TransitionInvalid`,
`GetReadyCondition().TransitionError` and `ctx.SetRequeueDelaySec`. -/
inductive Effect where
  | getSecret (name : String)
  | transitionInvalid (value fieldPath : String)
  | transitionError
  | setRequeueDelaySec (delay : Nat)
  deriving DecidableEq, Repr

/-- The cluster client: the result of `GetSecret` in the application namespace, `none`
when the call returns an error. -/
abbrev Kube := String → Option Secret

/-- Modelled from the spec: `common.SecretHasField` is not part of the sources.  A secret
exposes named byte fields; the field is present when the secret has a field of that name. -/
def SecretHasField (secret : Secret) (field : String) : Bool :=
  secret.fields.contains field

/-- The loop context as `HttpsCF` uses it.  Modelled from the spec: `env.ParseJavaOptionsMap`
and `env.SaveJavaOptionsMap` are not part of the sources; the operator-managed launch
options of the Env Cache are held as the mapping they parse to, an allocated map, so that
parsing returns what was saved. -/
structure LoopContext where
  resourceCache : ResourceCache := {}
  javaOptions : StrMap := ∅
  effects : List Effect := []

/-- The function `env.ParseJavaOptionsMap(envCache)`. -/
def ParseJavaOptionsMap (ctx : LoopContext) : StrMap := ctx.javaOptions

/-- The function `env.SaveJavaOptionsMap(envCache, javaOptions)`. -/
def SaveJavaOptionsMap (ctx : LoopContext) (javaOptions : StrMap) : LoopContext :=
  { ctx with javaOptions := javaOptions }

/-- The edit helpers of package `common` that `HttpsCF.Respond` calls.  They are not part
of the sources and enter as parameters. -/
structure Common where
  SetVolumeInDeployment : Deployment → Volume → Deployment
  RemoveVolumeFromDeployment : Deployment → Volume → Deployment
  AddVolumeMountToContainer : Container → VolumeMount → Container
  RemoveVolumeMountFromContainer : Container → VolumeMount → Container
  AddPortToContainer : Container → ContainerPort → Container
  RemovePortFromContainer : Container → ContainerPort → Container
  AddPortToService : Service → ServicePort → Service
  RemovePortFromService : Service → ServicePort → Service
  AddRuleToNetworkPolicy : NetworkPolicy → NetworkPolicyIngressRule → NetworkPolicy
  RemoveRuleFromNetworkPolicy : NetworkPolicy → NetworkPolicyIngressRule → NetworkPolicy

/-! ### What `Sense` looks for in a resource -/

/-- The volume loop of Observation #4. -/
def Deployment.hasVolume (d : Deployment) (name : String) : Bool :=
  d.volumes.any fun volume => volume.name == name

/-- The volume mount loop of Observation #4. -/
def Container.hasVolumeMount (c : Container) (name : String) : Bool :=
  c.volumeMounts.any fun mount => mount.name == name

/-- The container port loop of Observation #4, for one port number. -/
def Container.hasPort (c : Container) (n : Int) : Bool :=
  c.ports.any fun port => port.containerPort == n

/-- The service port loop of Observation #3, for one port number. -/
def Service.hasPort (s : Service) (n : Int) : Bool :=
  s.ports.any fun port => port.port == n

/-- The condition `*port.Protocol == "TCP" && int(port.Port.IntValue()) == n` of
Observation #6; it dereferences `Protocol`, and `Port` when the protocol is TCP. -/
def NetworkPolicyPort.isTcp (port : NetworkPolicyPort) (n : Int) : Go Bool :=
  match port.protocol with
  | none => .error .nilDereference
  | some protocol =>
    if protocol == "TCP" then
      match port.port with
      | none => .error .nilDereference
      | some p => .ok (p.IntValue == n)
    else .ok false

/-- The inner loop of Observation #6 over the ports of one rule; the pair holds
`networkPolicyHttpsPortExists` and `networkPolicyHttpPortExists`. -/
def scanPorts : List NetworkPolicyPort → Bool × Bool → Go (Bool × Bool)
  | [], flags => .ok flags
  | port :: ports, flags =>
    match port.isTcp HttpsPort with
    | .error p => .error p
    | .ok isHttps =>
      match port.isTcp HttpPort with
      | .error p => .error p
      | .ok isHttp => scanPorts ports (flags.1 || isHttps, flags.2 || isHttp)

/-- The outer loop of Observation #6 over the ingress rules. -/
def scanRules : List NetworkPolicyIngressRule → Bool × Bool → Go (Bool × Bool)
  | [], flags => .ok flags
  | rule :: rules, flags =>
    match scanPorts rule.ports flags with
    | .error p => .error p
    | .ok flags' => scanRules rules flags'

/-- The two facets that Observation #6 reads from a network policy. -/
def NetworkPolicy.tcpFacets (policy : NetworkPolicy) : Go (Bool × Bool) :=
  scanRules policy.ingress (false, false)

/-! ## `cf_https.go`: `HttpsCF` -/

/-- The fields of `HttpsCF`.  `javaOptions` is read only after `Sense` has stored the
parsed launch options in it. -/
structure HttpsCF where
  httpsEnabled : Bool := false
  secretExists : Bool := false
  targetSecretName : String := ""
  previousSecretName : String := ""
  networkPolicyHttpsPortExists : Bool := false
  javaOptions : StrMap := ∅
  targetJavaOptions : StrMap := ∅
  javaOptionsExists : Bool := false
  serviceHttpsPortExists : Bool := false
  secretVolumeExists : Bool := false
  secretVolumeMountExists : Bool := false
  containerHttpsPortExists : Bool := false
  networkPolicyExists : Bool := false
  httpEnabled : Bool := false
  serviceHttpPortExists : Bool := false
  containerHttpPortExists : Bool := false
  networkPolicyHttpPortExists : Bool := false

/-- The map literal that Observation #5 stores in `targetJavaOptions`. -/
def targetJavaOptionsLiteral : StrMap :=
  List.toAList
    [⟨"-Dquarkus.http.ssl.certificate.file", "/certs/tls.crt"⟩,
     ⟨"-Dquarkus.http.ssl.certificate.key-file", "/certs/tls.key"⟩]

/-- The order in which one `range` loop visits `targetJavaOptions`: the order of the
literal, or the other way round when `flip` is set. -/
def visit (flip : Bool) (m : StrMap) : List Entry :=
  if flip then m.entries.reverse else m.entries

/-- The visiting orders that the run time picks for the three `range` loops over
`targetJavaOptions`: in `Sense`, and in the two loops of `Respond`. -/
structure RangeOrders where
  sense : Bool := false
  respondAdd : Bool := false
  respondDelete : Bool := false

namespace HttpsCF

/-- The constructor `NewHttpsCF`: every field has its zero value. -/
def new : HttpsCF := {}

/-- Observation #1: read config values from the Apicurio custom resource. -/
def Sense.observation1 (cache : ResourceCache) (this : HttpsCF) : HttpsCF :=
  let this := { this with targetSecretName := "", httpEnabled := true }
  match cache.spec with
  | some entry =>
    let spec := entry.GetValue
    { this with targetSecretName := spec.secretName, httpEnabled := !spec.disableHttp }
  | none => this

/-- The three calls that report an unusable secret. -/
def Sense.secretFailure (this : HttpsCF) : List Effect :=
  [.transitionInvalid this.targetSecretName "spec.configuration.security.https.secretName",
   .transitionError,
   .setRequeueDelaySec 10]

/-- Observation #2: get the Secret containing the certificate and key. -/
def Sense.observation2 (kube : Kube) (ctx : LoopContext) (this : HttpsCF) :
    HttpsCF × LoopContext :=
  let this := { this with secretExists := false }
  if this.targetSecretName != "" then
    let ctx := { ctx with effects := ctx.effects ++ [.getSecret this.targetSecretName] }
    match kube this.targetSecretName with
    | some secret =>
      if !SecretHasField secret "tls.crt" || !SecretHasField secret "tls.key" then
        (this, { ctx with effects := ctx.effects ++ Sense.secretFailure this })
      else
        ({ this with secretExists := true }, ctx)
    | none =>
      (this, { ctx with effects := ctx.effects ++ Sense.secretFailure this })
  else (this, ctx)

/-- Observation #3: the ports of the cached service. -/
def Sense.observation3 (cache : ResourceCache) (this : HttpsCF) : HttpsCF :=
  let this := { this with serviceHttpsPortExists := false, serviceHttpPortExists := false }
  match cache.service with
  | some entry =>
    let service := entry.GetValue
    { this with serviceHttpsPortExists := service.hasPort HttpsPort,
                serviceHttpPortExists := service.hasPort HttpPort }
  | none => this

/-- Observation #4: volume, volume mount and ports of the cached deployment.  The index
expression `Containers[0]` panics when the pod has no container; it is evaluated for the
port loop whatever the secret name is. -/
def Sense.observation4 (cache : ResourceCache) (this : HttpsCF) : Go HttpsCF :=
  let this := { this with secretVolumeExists := false, secretVolumeMountExists := false,
                          containerHttpsPortExists := false, containerHttpPortExists := false }
  match cache.deployment with
  | some entry =>
    let deployment := entry.GetValue
    match deployment.containers with
    | [] => .error .indexOutOfRange
    | container0 :: _ =>
      let this :=
        if this.targetSecretName != "" then
          { this with secretVolumeExists := deployment.hasVolume this.targetSecretName,
                      secretVolumeMountExists := container0.hasVolumeMount this.targetSecretName }
        else this
      .ok { this with containerHttpsPortExists := container0.hasPort HttpsPort,
                      containerHttpPortExists := container0.hasPort HttpPort }
  | none => .ok this

/-- The loop of Observation #5 over the entries of `targetJavaOptions` still to visit;
the last argument is the current `javaOptionsExists`. -/
def Sense.javaOptionsLoop (javaOptions : GoMap) : List Entry → Bool → Bool
  | [], javaOptionsExists => javaOptionsExists
  | e :: rest, javaOptionsExists =>
    let vold := (javaOptions.index e.1).1
    let found := (javaOptions.index e.1).2
    Sense.javaOptionsLoop javaOptions rest (javaOptionsExists && found && e.2 == vold)

/-- Observation #5: find out if the launch options are set. -/
def Sense.observation5 (flip : Bool) (ctx : LoopContext) (this : HttpsCF) : HttpsCF :=
  let this := { this with targetJavaOptions := targetJavaOptionsLiteral }
  let this := { this with javaOptions := ParseJavaOptionsMap ctx }
  { this with
    javaOptionsExists :=
      Sense.javaOptionsLoop (some this.javaOptions) (visit flip this.targetJavaOptions) true }

/-- Observation #6: the ports of the cached network policy. -/
def Sense.observation6 (cache : ResourceCache) (this : HttpsCF) : Go HttpsCF :=
  let this := { this with networkPolicyHttpsPortExists := false,
                          networkPolicyHttpPortExists := false,
                          networkPolicyExists := false }
  match cache.networkPolicy with
  | some entry =>
    let policy := entry.GetValue
    let this := { this with networkPolicyExists := true }
    match policy.tcpFacets with
    | .error p => .error p
    | .ok flags =>
      .ok { this with networkPolicyHttpsPortExists := flags.1,
                      networkPolicyHttpPortExists := flags.2 }
  | none => .ok this

/-- The method `HttpsCF.Sense`: the updated receiver and loop context, or the panic raised. -/
def Sense (kube : Kube) (flip : Bool) (ctx : LoopContext) (this : HttpsCF) :
    Go (HttpsCF × LoopContext) :=
  let this := Sense.observation1 ctx.resourceCache this
  let r := Sense.observation2 kube ctx this
  let this := r.1
  let ctx := r.2
  let this := Sense.observation3 ctx.resourceCache this
  match Sense.observation4 ctx.resourceCache this with
  | .error p => .error p
  | .ok this =>
    let this := Sense.observation5 flip ctx this
    match Sense.observation6 ctx.resourceCache this with
    | .error p => .error p
    | .ok this => .ok (this, ctx)

/-- The effective-HTTP value `!this.httpsEnabled || this.httpEnabled`. -/
def effectiveHttp (this : HttpsCF) : Bool := !this.httpsEnabled || this.httpEnabled

/-- The method `HttpsCF.Compare`: the updated receiver and the returned value. -/
def Compare (this : HttpsCF) : HttpsCF × Bool :=
  let this := { this with httpsEnabled := this.targetSecretName != "" && this.secretExists }
  (this,
    (this.targetSecretName != this.previousSecretName) ||
    (this.httpsEnabled != this.serviceHttpsPortExists) ||
    (this.httpsEnabled != this.secretVolumeExists) ||
    (this.httpsEnabled != this.secretVolumeMountExists) ||
    (this.httpsEnabled != this.containerHttpsPortExists) ||
    (this.httpsEnabled != this.javaOptionsExists) ||
    (this.networkPolicyExists && this.httpsEnabled != this.networkPolicyHttpsPortExists) ||
    ((!this.httpsEnabled || this.httpEnabled) != this.serviceHttpPortExists) ||
    ((!this.httpsEnabled || this.httpEnabled) != this.containerHttpPortExists) ||
    (this.networkPolicyExists &&
      (!this.httpsEnabled || this.httpEnabled) != this.networkPolicyHttpPortExists))

end HttpsCF

/-- The edit `f` made through the pointer `&deployment.Spec.Template.Spec.Containers[0]`. -/
def Deployment.editFirstContainer (d : Deployment) (f : Container → Container) : Deployment :=
  match d.containers with
  | [] => d
  | c :: cs => { d with containers := f c :: cs }

/-- The network policy rule for one TCP port that `Respond` builds. -/
def tcpRule (n : Int) : NetworkPolicyIngressRule :=
  { ports := [{ protocol := some "TCP", port := some (.int n) }] }

namespace HttpsCF

/-- The patch that `Respond` queues on the cached deployment.  The closure reads the fields
of `this`; the helpers that take the deployment edit its volumes, those that take
`apicurioContainer` edit the first container in place. -/
def Respond.deploymentPatch (H : Common) (this : HttpsCF) (value : Deployment) : Go Deployment :=
  let deployment := value
  match deployment.containers with
  | [] => .error .indexOutOfRange
  | _ :: _ =>
    let volume : Volume :=
      { name := this.targetSecretName, volumeSource := .secret this.targetSecretName }
    let volumeMount : VolumeMount :=
      { name := this.targetSecretName, mountPath := TlsCertMountPath, readOnly := true }
    let httpsPort : ContainerPort := { containerPort := HttpsPort }
    let httpPort : ContainerPort := { containerPort := HttpPort }
    let deployment :=
      if this.httpsEnabled && !this.secretVolumeExists then
        H.SetVolumeInDeployment deployment volume
      else deployment
    let deployment :=
      if !this.httpsEnabled && this.secretVolumeExists then
        H.RemoveVolumeFromDeployment deployment volume
      else deployment
    let deployment :=
      if this.httpsEnabled && !this.secretVolumeMountExists then
        deployment.editFirstContainer fun c => H.AddVolumeMountToContainer c volumeMount
      else deployment
    let deployment :=
      if !this.httpsEnabled && this.secretVolumeMountExists then
        deployment.editFirstContainer fun c => H.RemoveVolumeMountFromContainer c volumeMount
      else deployment
    let deployment :=
      if this.httpsEnabled && !this.containerHttpsPortExists then
        deployment.editFirstContainer fun c => H.AddPortToContainer c httpsPort
      else deployment
    let deployment :=
      if !this.httpsEnabled && this.containerHttpsPortExists then
        deployment.editFirstContainer fun c => H.RemovePortFromContainer c httpsPort
      else deployment
    -- HTTP port
    let deployment :=
      if (!this.httpsEnabled || this.httpEnabled) && !this.containerHttpPortExists then
        deployment.editFirstContainer fun c => H.AddPortToContainer c httpPort
      else deployment
    let deployment :=
      if this.httpsEnabled && !this.httpEnabled && this.containerHttpPortExists then
        deployment.editFirstContainer fun c => H.RemovePortFromContainer c httpPort
      else deployment
    .ok deployment

/-- The loop `for k, v := range this.targetJavaOptions { this.javaOptions[k] = v }`. -/
def Respond.addOptions : List Entry → StrMap → StrMap
  | [], javaOptions => javaOptions
  | e :: rest, javaOptions => Respond.addOptions rest (javaOptions.insert e.1 e.2)

/-- The loop that deletes the keys of `targetJavaOptions` from `javaOptions`; the pair
holds `javaOptions` and `changed`. -/
def Respond.deleteOptions : List Entry → StrMap × Bool → StrMap × Bool
  | [], acc => acc
  | e :: rest, (javaOptions, changed) =>
    if (javaOptions.lookup e.1).isSome then
      Respond.deleteOptions rest (javaOptions.erase e.1, true)
    else Respond.deleteOptions rest (javaOptions, changed)

/-- The launch-options part of `Respond`. -/
def Respond.javaOptionsStep (flipAdd flipDelete : Bool) (ctx : LoopContext) (this : HttpsCF) :
    HttpsCF × LoopContext :=
  let r : HttpsCF × LoopContext :=
    if this.httpsEnabled && !this.javaOptionsExists then
      let this :=
        { this with
          javaOptions := Respond.addOptions (visit flipAdd this.targetJavaOptions) this.javaOptions }
      (this, SaveJavaOptionsMap ctx this.javaOptions)
    else (this, ctx)
  let this := r.1
  let ctx := r.2
  if !this.httpsEnabled && this.javaOptionsExists then
    let d := Respond.deleteOptions (visit flipDelete this.targetJavaOptions) (this.javaOptions, false)
    let this := { this with javaOptions := d.1 }
    let changed := d.2
    if changed then (this, SaveJavaOptionsMap ctx this.javaOptions) else (this, ctx)
  else (this, ctx)

/-- The patch that `Respond` queues on the cached service. -/
def Respond.servicePatch (H : Common) (this : HttpsCF) (value : Service) : Go Service :=
  let service := value
  let httpsPort : ServicePort :=
    { name := "https", protocol := "TCP", port := HttpsPort, targetPort := .int HttpsPort }
  let httpPort : ServicePort :=
    { name := "http", protocol := "TCP", port := HttpPort, targetPort := .int HttpPort }
  let service :=
    if this.httpsEnabled && !this.serviceHttpsPortExists then H.AddPortToService service httpsPort
    else service
  let service :=
    if !this.httpsEnabled && this.serviceHttpsPortExists then
      H.RemovePortFromService service httpsPort
    else service
  -- HTTP port
  let service :=
    if (!this.httpsEnabled || this.httpEnabled) && !this.serviceHttpPortExists then
      H.AddPortToService service httpPort
    else service
  let service :=
    if this.httpsEnabled && !this.httpEnabled && this.serviceHttpPortExists then
      H.RemovePortFromService service httpPort
    else service
  .ok service

/-- The patch that `Respond` queues on the cached network policy. -/
def Respond.networkPolicyPatch (H : Common) (this : HttpsCF) (value : NetworkPolicy) :
    Go NetworkPolicy :=
  let policy := value
  let httpsRule := tcpRule HttpsPort
  let httpRule := tcpRule HttpPort
  let policy :=
    if this.httpsEnabled && !this.networkPolicyHttpsPortExists then
      H.AddRuleToNetworkPolicy policy httpsRule
    else policy
  let policy :=
    if !this.httpsEnabled && this.networkPolicyHttpsPortExists then
      H.RemoveRuleFromNetworkPolicy policy httpsRule
    else policy
  -- HTTP port
  let policy :=
    if (!this.httpsEnabled || this.httpEnabled) && !this.networkPolicyHttpPortExists then
      H.AddRuleToNetworkPolicy policy httpRule
    else policy
  let policy :=
    if this.httpsEnabled && !this.httpEnabled && this.networkPolicyHttpPortExists then
      H.RemoveRuleFromNetworkPolicy policy httpRule
    else policy
  .ok policy

/-- The method `entry.ApplyPatch(fn)` on the entry that `Get` found, if any. -/
def Respond.queue {α : Type} (fn : α → Go α) :
    Option (ResourceCacheEntry α) → Option (ResourceCacheEntry α)
  | some entry => some (entry.ApplyPatch fn)
  | none => none

/-- The method `HttpsCF.Respond`: the updated receiver, and the loop context with the patches queued
and the launch options saved. -/
def Respond (H : Common) (flipAdd flipDelete : Bool) (ctx : LoopContext) (this : HttpsCF) :
    HttpsCF × LoopContext :=
  let sensed := this
  let cache := ctx.resourceCache
  let cache := { cache with
    deployment := Respond.queue (Respond.deploymentPatch H sensed) cache.deployment }
  let ctx := { ctx with resourceCache := cache }
  -- Java Options
  let r := Respond.javaOptionsStep flipAdd flipDelete ctx this
  let this := r.1
  let ctx := r.2
  let cache := ctx.resourceCache
  let cache := { cache with
    service := Respond.queue (Respond.servicePatch H sensed) cache.service }
  let cache := { cache with
    networkPolicy := Respond.queue (Respond.networkPolicyPatch H sensed) cache.networkPolicy }
  let ctx := { ctx with resourceCache := cache }
  ({ this with previousSecretName := this.targetSecretName }, ctx)

/-- The method `HttpsCF.Cleanup`. -/
def Cleanup (_this : HttpsCF) : Bool := true

/-- The phases `Sense`, `Compare` and `Respond` run once, then the queued patches applied. -/
def round (H : Common) (kube : Kube) (o : RangeOrders) (ctx : LoopContext) (this : HttpsCF) :
    Go (HttpsCF × LoopContext) :=
  match Sense kube o.sense ctx this with
  | .error p => .error p
  | .ok (this, ctx) =>
    let r := Respond H o.respondAdd o.respondDelete ctx (Compare this).1
    match r.2.resourceCache.flush with
    | .error p => .error p
    | .ok cache => .ok (r.1, { r.2 with resourceCache := cache })

/-- One pass of the control loop over `HttpsCF`: as `round`, with `Respond` run only when
`Compare` returned true. -/
def tick (H : Common) (kube : Kube) (o : RangeOrders) (ctx : LoopContext) (this : HttpsCF) :
    Go (HttpsCF × LoopContext) :=
  match Sense kube o.sense ctx this with
  | .error p => .error p
  | .ok (this, ctx) =>
    if (Compare this).2 then
      let r := Respond H o.respondAdd o.respondDelete ctx (Compare this).1
      match r.2.resourceCache.flush with
      | .error p => .error p
      | .ok cache => .ok (r.1, { r.2 with resourceCache := cache })
    else .ok ((Compare this).1, ctx)

/-- The phases `Sense` then `Compare`: the value that `Compare` returns. -/
def senseCompare (kube : Kube) (flip : Bool) (ctx : LoopContext) (this : HttpsCF) : Go Bool :=
  match Sense kube flip ctx this with
  | .error p => .error p
  | .ok (this, _) => .ok (Compare this).2

end HttpsCF

/-! ### The helpers of package `common`, modelled -/

/-- Modelled from the spec: `common.SetVolumeInDeployment` is not part of the sources.  An
additive edit of the volumes: the volume replaces the one of the same name, or is appended. -/
def SetVolumeInDeployment (d : Deployment) (v : Volume) : Deployment :=
  if d.hasVolume v.name then
    { d with volumes := d.volumes.map fun w => if w.name == v.name then v else w }
  else { d with volumes := d.volumes ++ [v] }

/-- Modelled from the spec: `common.RemoveVolumeFromDeployment` is not part of the sources.
A subtractive edit of the volumes: the volumes of that name are removed. -/
def RemoveVolumeFromDeployment (d : Deployment) (v : Volume) : Deployment :=
  { d with volumes := d.volumes.filter fun w => w.name != v.name }

/-- Modelled from the spec: `common.AddVolumeMountToContainer` is not part of the sources.
An additive edit of the volume mounts: the mount replaces the one of the same name, or is
appended. -/
def AddVolumeMountToContainer (c : Container) (m : VolumeMount) : Container :=
  if c.hasVolumeMount m.name then
    { c with volumeMounts := c.volumeMounts.map fun w => if w.name == m.name then m else w }
  else { c with volumeMounts := c.volumeMounts ++ [m] }

/-- Modelled from the spec: `common.RemoveVolumeMountFromContainer` is not part of the
sources.  A subtractive edit of the volume mounts: the mounts of that name are removed. -/
def RemoveVolumeMountFromContainer (c : Container) (m : VolumeMount) : Container :=
  { c with volumeMounts := c.volumeMounts.filter fun w => w.name != m.name }

/-- Modelled from the spec: `common.AddPortToContainer` is not part of the sources.  An
additive edit of the container ports: the port is appended unless its number is declared. -/
def AddPortToContainer (c : Container) (p : ContainerPort) : Container :=
  if c.hasPort p.containerPort then c else { c with ports := c.ports ++ [p] }

/-- Modelled from the spec: `common.RemovePortFromContainer` is not part of the sources.  A
subtractive edit of the container ports: the ports of that number are removed. -/
def RemovePortFromContainer (c : Container) (p : ContainerPort) : Container :=
  { c with ports := c.ports.filter fun q => q.containerPort != p.containerPort }

/-- Modelled from the spec: `common.AddPortToService` is not part of the sources.  An
additive edit of the service ports: the port is appended unless its number is declared. -/
def AddPortToService (s : Service) (p : ServicePort) : Service :=
  if s.hasPort p.port then s else { s with ports := s.ports ++ [p] }

/-- Modelled from the spec: `common.RemovePortFromService` is not part of the sources.  A
subtractive edit of the service ports: the ports of that number are removed. -/
def RemovePortFromService (s : Service) (p : ServicePort) : Service :=
  { s with ports := s.ports.filter fun q => q.port != p.port }

/-- Modelled from the spec: `common.AddRuleToNetworkPolicy` is not part of the sources.  An
additive edit of the ingress rules: the rule is appended. -/
def AddRuleToNetworkPolicy (policy : NetworkPolicy) (rule : NetworkPolicyIngressRule) :
    NetworkPolicy :=
  { policy with ingress := policy.ingress ++ [rule] }

/-- Whether a port of a policy rule is one of the ports of `rule`: same protocol, same
port value. -/
def portOf (rule : NetworkPolicyIngressRule) (port : NetworkPolicyPort) : Bool :=
  rule.ports.any fun r =>
    r.protocol.isSome && r.protocol == port.protocol &&
      r.port.isSome && r.port.map IntOrString.IntValue == port.port.map IntOrString.IntValue

/-- Modelled from the spec: `common.RemoveRuleFromNetworkPolicy` is not part of the sources.
A subtractive edit of the ingress rules, after which `Sense` no longer finds the ports of
the rule: those ports are deleted from each ingress rule, and an ingress rule left without
ports by that is dropped. -/
def RemoveRuleFromNetworkPolicy (policy : NetworkPolicy) (rule : NetworkPolicyIngressRule) :
    NetworkPolicy :=
  { policy with
    ingress :=
      policy.ingress.filterMap fun r =>
        if !r.ports.isEmpty && (r.ports.filter fun port => !portOf rule port).isEmpty then none
        else some { r with ports := r.ports.filter fun port => !portOf rule port } }

/-- The modelled helpers, bundled. -/
def Common.model : Common where
  SetVolumeInDeployment := Operator.SetVolumeInDeployment
  RemoveVolumeFromDeployment := Operator.RemoveVolumeFromDeployment
  AddVolumeMountToContainer := Operator.AddVolumeMountToContainer
  RemoveVolumeMountFromContainer := Operator.RemoveVolumeMountFromContainer
  AddPortToContainer := Operator.AddPortToContainer
  RemovePortFromContainer := Operator.RemovePortFromContainer
  AddPortToService := Operator.AddPortToService
  RemovePortFromService := Operator.RemovePortFromService
  AddRuleToNetworkPolicy := Operator.AddRuleToNetworkPolicy
  RemoveRuleFromNetworkPolicy := Operator.RemoveRuleFromNetworkPolicy

/-! ## Concrete inputs used by the witnesses -/

/-- The panic of a computation, if it panics. -/
def panicOf {α : Type} : Go α → Option GoPanic
  | .error p => some p
  | .ok _ => none

/-- The canonical labels of Scenario 4. -/
def canonicalLabels : GoMap :=
  some (List.toAList [⟨"app", "registry"⟩, ⟨"managed-by", "operator"⟩])

/-- The labels of the live Service of Scenario 4. -/
def liveServiceLabels : GoMap :=
  some (List.toAList [⟨"app", "registry"⟩, ⟨"team", "x"⟩])

/-- The labels of the Service of Scenario 4 once patched. -/
def patchedServiceLabels : StrMap :=
  List.toAList [⟨"app", "registry"⟩, ⟨"managed-by", "operator"⟩, ⟨"team", "x"⟩]

/-- A resource cache that holds one Service without labels: `.Labels` is the nil map. -/
def unlabelledServiceCache : ResourceCache :=
  { service := some { name := "registry-service", value := { labels := none, ports := [] },
                      patches := [] } }

/-! ## Vocabulary of the statements about `HttpsCF` -/

/-- Whether Observation #6 can read a port of a policy rule without a nil dereference:
`Protocol` is set, and `Port` is set when the protocol is TCP. -/
def NetworkPolicyPort.readable (port : NetworkPolicyPort) : Bool :=
  match port.protocol with
  | none => false
  | some protocol => if protocol == "TCP" then port.port.isSome else true

/-- Whether a port of a policy rule allows TCP traffic on port number `n`. -/
def NetworkPolicyPort.isTcpPort (port : NetworkPolicyPort) (n : Int) : Bool :=
  port.protocol == some "TCP" && port.port.map IntOrString.IntValue == some n

/-- Whether Observation #6 can read every port of every ingress rule. -/
def NetworkPolicy.readable (policy : NetworkPolicy) : Bool :=
  policy.ingress.all fun rule => rule.ports.all NetworkPolicyPort.readable

/-- Whether some ingress rule has a port that allows TCP traffic on port number `n`. -/
def NetworkPolicy.allows (policy : NetworkPolicy) (n : Int) : Bool :=
  policy.ingress.any fun rule => rule.ports.any fun port => port.isTcpPort n

/-- Whether Observation #4 can read the cached deployment, if any: it has a first
container. -/
def ResourceCache.deploymentReadable (cache : ResourceCache) : Bool :=
  match cache.deployment with
  | some entry => !entry.value.containers.isEmpty
  | none => true

/-- Whether Observation #6 can read the cached network policy, if any. -/
def ResourceCache.policyReadable (cache : ResourceCache) : Bool :=
  match cache.networkPolicy with
  | some entry => entry.value.readable
  | none => true

/-- Whether `HttpsCF.Sense` can read the cached resources without a panic: a cached
deployment has a first container, and every port of a cached network policy is readable. -/
def ResourceCache.readable (cache : ResourceCache) : Bool :=
  cache.deploymentReadable && cache.policyReadable

/-- Whether no patch is queued on the entry of a slot, if any. -/
def slotClean {α : Type} (slot : Option (ResourceCacheEntry α)) : Bool :=
  match slot with
  | some entry => entry.patches.isEmpty
  | none => true

/-- Whether no patch is queued on any entry of the cache. -/
def ResourceCache.committed (cache : ResourceCache) : Bool :=
  slotClean cache.spec && slotClean cache.deployment && slotClean cache.service &&
    slotClean cache.networkPolicy && slotClean cache.ingress && slotClean cache.pdbV1beta1 &&
    slotClean cache.pdbV1

/-- The secret name that the cached spec declares; the empty name without a cached spec. -/
def ResourceCache.declaredSecretName (cache : ResourceCache) : String :=
  match cache.spec with
  | some entry => entry.value.secretName
  | none => ""

/-- Whether the cached spec leaves HTTP enabled; true without a cached spec. -/
def ResourceCache.declaredHttpEnabled (cache : ResourceCache) : Bool :=
  match cache.spec with
  | some entry => !entry.value.disableHttp
  | none => true

/-- Whether the fetch of the secret `name` succeeds and the secret has both the `tls.crt`
and the `tls.key` field. -/
def secretUsable (kube : Kube) (name : String) : Bool :=
  match kube name with
  | some secret => SecretHasField secret "tls.crt" && SecretHasField secret "tls.key"
  | none => false

/-- Whether a launch-options map has both target keys with the exact expected values. -/
def hasTargetJavaOptions (javaOptions : StrMap) : Bool :=
  javaOptions.lookup "-Dquarkus.http.ssl.certificate.file" == some "/certs/tls.crt" &&
    javaOptions.lookup "-Dquarkus.http.ssl.certificate.key-file" == some "/certs/tls.key"

/-- The contract of the edit helpers of package `common`, in the words of the spec: an
additive or subtractive edit of one facet.  After an add `Sense` finds the facet, after a
remove it does not, and whatever else `Sense` looks for is as it was. -/
structure Common.Lawful (H : Common) : Prop where
  setVolume_containers : ∀ d v, (H.SetVolumeInDeployment d v).containers = d.containers
  setVolume_mem : ∀ d v, d.hasVolume v.name = false → v ∈ (H.SetVolumeInDeployment d v).volumes
  setVolume_hasVolume : ∀ d v n,
    (H.SetVolumeInDeployment d v).hasVolume n = (d.hasVolume n || n == v.name)
  removeVolume_containers : ∀ d v, (H.RemoveVolumeFromDeployment d v).containers = d.containers
  removeVolume_hasVolume : ∀ d v n,
    (H.RemoveVolumeFromDeployment d v).hasVolume n = (d.hasVolume n && n != v.name)
  addMount_ports : ∀ c m, (H.AddVolumeMountToContainer c m).ports = c.ports
  addMount_mem : ∀ c m, c.hasVolumeMount m.name = false →
    m ∈ (H.AddVolumeMountToContainer c m).volumeMounts
  addMount_hasVolumeMount : ∀ c m n,
    (H.AddVolumeMountToContainer c m).hasVolumeMount n = (c.hasVolumeMount n || n == m.name)
  removeMount_ports : ∀ c m, (H.RemoveVolumeMountFromContainer c m).ports = c.ports
  removeMount_hasVolumeMount : ∀ c m n,
    (H.RemoveVolumeMountFromContainer c m).hasVolumeMount n =
      (c.hasVolumeMount n && n != m.name)
  addPort_volumeMounts : ∀ c p, (H.AddPortToContainer c p).volumeMounts = c.volumeMounts
  addPort_hasPort : ∀ c p n,
    (H.AddPortToContainer c p).hasPort n = (c.hasPort n || n == p.containerPort)
  removePort_volumeMounts : ∀ c p, (H.RemovePortFromContainer c p).volumeMounts = c.volumeMounts
  removePort_hasPort : ∀ c p n,
    (H.RemovePortFromContainer c p).hasPort n = (c.hasPort n && n != p.containerPort)
  addServicePort_hasPort : ∀ s p n,
    (H.AddPortToService s p).hasPort n = (s.hasPort n || n == p.port)
  removeServicePort_hasPort : ∀ s p n,
    (H.RemovePortFromService s p).hasPort n = (s.hasPort n && n != p.port)
  addRule_readable : ∀ policy n, policy.readable = true →
    (H.AddRuleToNetworkPolicy policy (tcpRule n)).readable = true
  addRule_allows : ∀ policy n m,
    (H.AddRuleToNetworkPolicy policy (tcpRule n)).allows m = (policy.allows m || m == n)
  removeRule_readable : ∀ policy n, policy.readable = true →
    (H.RemoveRuleFromNetworkPolicy policy (tcpRule n)).readable = true
  removeRule_allows : ∀ policy n m,
    (H.RemoveRuleFromNetworkPolicy policy (tcpRule n)).allows m = (policy.allows m && m != n)

/-! ### Concrete inputs -/

/-- A cluster without secrets: every fetch fails. -/
def noSecrets : Kube := fun _ => none

/-- A cluster in which every secret exists and has both fields. -/
def validSecrets : Kube := fun _ => some { fields := ["tls.crt", "tls.key"] }

/-- A cluster in which every secret exists and lacks the key field. -/
def keylessSecrets : Kube := fun _ => some { fields := ["tls.crt"] }

/-- A spec entry. -/
def specEntry (secretName : String) (disableHttp : Bool) : ResourceCacheEntry ApicurioRegistry :=
  { name := "registry",
    value := { secretName := secretName, disableHttp := disableHttp, deploymentLabels := none },
    patches := [] }

/-- A deployment that serves HTTP only. -/
def httpDeployment : Deployment :=
  { name := "registry-deployment", labels := none, templateLabels := none, volumes := [],
    containers := [{ name := "registry", ports := [{ containerPort := 8080 }],
                     volumeMounts := [], env := [] }] }

/-- A service that exposes HTTP only. -/
def httpService : Service :=
  { labels := none,
    ports := [{ name := "http", protocol := "TCP", port := 8080, targetPort := .int 8080 }] }

/-- A network policy that allows HTTP only. -/
def httpPolicy : NetworkPolicy :=
  { labels := none, ingress := [tcpRule 8080] }

/-- A cache entry without queued patches. -/
def entryOf {α : Type} (name : String) (value : α) : ResourceCacheEntry α :=
  { name := name, value := value, patches := [] }

/-- HTTP-only deployment and service, no secret declared, the network policy not yet in
the cache. -/
def httpOnlyContext : LoopContext :=
  { resourceCache :=
      { spec := some (specEntry "" false),
        deployment := some (entryOf "registry-deployment" httpDeployment),
        service := some (entryOf "registry-service" httpService) } }

/-- HTTP-only service and network policy, no secret declared, the deployment not yet in
the cache. -/
def noDeploymentContext : LoopContext :=
  { resourceCache :=
      { spec := some (specEntry "" false),
        service := some (entryOf "registry-service" httpService),
        networkPolicy := some (entryOf "registry-policy" httpPolicy) } }

/-- A container that serves HTTP and HTTPS with the certificate mounted from `old`. -/
def oldSecretContainer : Container :=
  { name := "registry",
    ports := [{ containerPort := 8080 }, { containerPort := 8443 }],
    volumeMounts := [{ name := "old", mountPath := "/certs", readOnly := true }],
    env := [] }

/-- A deployment that serves HTTP and HTTPS with the certificate of the secret `old`. -/
def oldSecretDeployment : Deployment :=
  { name := "registry-deployment", labels := none, templateLabels := none,
    volumes := [{ name := "old", volumeSource := .secret "old" }],
    containers := [oldSecretContainer] }

/-- The spec names the secret `new`; the deployment still carries volume and mount `old`. -/
def renameContext : LoopContext :=
  { resourceCache :=
      { spec := some (specEntry "new" false),
        deployment := some (entryOf "registry-deployment" oldSecretDeployment) } }

/-- The receiver after a tick that configured the secret `old`. -/
def afterOld : HttpsCF := { HttpsCF.new with previousSecretName := "old" }

/-- The spec names the secret `tls-secret`. -/
def declaredSecretContext : LoopContext :=
  { resourceCache := { spec := some (specEntry "tls-secret" false) } }

/-- The first container of the cached deployment, if there is one. -/
def ResourceCache.firstContainer (cache : ResourceCache) : Option Container :=
  match cache.deployment with
  | some entry => entry.value.containers.head?
  | none => none

/-- Whether the cached service, if any, declares port number `n`. -/
def ResourceCache.serviceHasPort (cache : ResourceCache) (n : Int) : Bool :=
  match cache.service with
  | some entry => entry.value.hasPort n
  | none => false

/-- Whether the cached deployment, if any, has a volume of that name. -/
def ResourceCache.hasVolume (cache : ResourceCache) (name : String) : Bool :=
  match cache.deployment with
  | some entry => entry.value.hasVolume name
  | none => false

/-- Whether the first container of the cached deployment, if any, has a volume mount of that
name. -/
def ResourceCache.hasVolumeMount (cache : ResourceCache) (name : String) : Bool :=
  match cache.firstContainer with
  | some container0 => container0.hasVolumeMount name
  | none => false

/-- Whether the first container of the cached deployment, if any, declares port number
`n`. -/
def ResourceCache.containerHasPort (cache : ResourceCache) (n : Int) : Bool :=
  match cache.firstContainer with
  | some container0 => container0.hasPort n
  | none => false

/-- Whether the cached network policy, if any, allows TCP traffic on port number `n`. -/
def ResourceCache.policyAllows (cache : ResourceCache) (n : Int) : Bool :=
  match cache.networkPolicy with
  | some entry => entry.value.allows n
  | none => false

/-- The calls that Observation #2 makes for the declared secret name. -/
def secretEffects (kube : Kube) (name : String) : List Effect :=
  if name != "" then
    .getSecret name ::
      (if secretUsable kube name then []
       else [.transitionInvalid name "spec.configuration.security.https.secretName",
             .transitionError, .setRequeueDelaySec 10])
  else []

/-- The receiver that `Sense` leaves when it returns, field by field. -/
def HttpsCF.observed (kube : Kube) (ctx : LoopContext) (this : HttpsCF) : HttpsCF :=
  { httpsEnabled := this.httpsEnabled
    secretExists :=
      ctx.resourceCache.declaredSecretName != "" &&
        secretUsable kube ctx.resourceCache.declaredSecretName
    targetSecretName := ctx.resourceCache.declaredSecretName
    previousSecretName := this.previousSecretName
    networkPolicyHttpsPortExists := ctx.resourceCache.policyAllows HttpsPort
    javaOptions := ctx.javaOptions
    targetJavaOptions := targetJavaOptionsLiteral
    javaOptionsExists := hasTargetJavaOptions ctx.javaOptions
    serviceHttpsPortExists := ctx.resourceCache.serviceHasPort HttpsPort
    secretVolumeExists :=
      ctx.resourceCache.declaredSecretName != "" &&
        ctx.resourceCache.hasVolume ctx.resourceCache.declaredSecretName
    secretVolumeMountExists :=
      ctx.resourceCache.declaredSecretName != "" &&
        ctx.resourceCache.hasVolumeMount ctx.resourceCache.declaredSecretName
    containerHttpsPortExists := ctx.resourceCache.containerHasPort HttpsPort
    networkPolicyExists := ctx.resourceCache.networkPolicy.isSome
    httpEnabled := ctx.resourceCache.declaredHttpEnabled
    serviceHttpPortExists := ctx.resourceCache.serviceHasPort HttpPort
    containerHttpPortExists := ctx.resourceCache.containerHasPort HttpPort
    networkPolicyHttpPortExists := ctx.resourceCache.policyAllows HttpPort }

/-- The two volume edits of the deployment patch of `HttpsCF.Respond`, in order. -/
def HttpsCF.Respond.editVolumes (H : Common) (this : HttpsCF) (d : Deployment) : Deployment :=
  let volume : Volume :=
    { name := this.targetSecretName, volumeSource := .secret this.targetSecretName }
  let d := if this.httpsEnabled && !this.secretVolumeExists then H.SetVolumeInDeployment d volume else d
  if !this.httpsEnabled && this.secretVolumeExists then H.RemoveVolumeFromDeployment d volume else d

/-- The two volume mount edits of the deployment patch of `HttpsCF.Respond`, in order. -/
def HttpsCF.Respond.editMounts (H : Common) (this : HttpsCF) (c : Container) : Container :=
  let volumeMount : VolumeMount :=
    { name := this.targetSecretName, mountPath := TlsCertMountPath, readOnly := true }
  let c :=
    if this.httpsEnabled && !this.secretVolumeMountExists then
      H.AddVolumeMountToContainer c volumeMount
    else c
  if !this.httpsEnabled && this.secretVolumeMountExists then
    H.RemoveVolumeMountFromContainer c volumeMount
  else c

/-- The four port edits of the deployment patch of `HttpsCF.Respond`, in order. -/
def HttpsCF.Respond.editPorts (H : Common) (this : HttpsCF) (c : Container) : Container :=
  let httpsPort : ContainerPort := { containerPort := HttpsPort }
  let httpPort : ContainerPort := { containerPort := HttpPort }
  let c :=
    if this.httpsEnabled && !this.containerHttpsPortExists then H.AddPortToContainer c httpsPort
    else c
  let c :=
    if !this.httpsEnabled && this.containerHttpsPortExists then H.RemovePortFromContainer c httpsPort
    else c
  let c :=
    if (!this.httpsEnabled || this.httpEnabled) && !this.containerHttpPortExists then
      H.AddPortToContainer c httpPort
    else c
  if this.httpsEnabled && !this.httpEnabled && this.containerHttpPortExists then
    H.RemovePortFromContainer c httpPort
  else c

/-- A receiver on which `Compare` returns false: HTTP only, no network policy seen. -/
def httpOnlyState : HttpsCF :=
  { HttpsCF.new with
    httpEnabled := true, serviceHttpPortExists := true, containerHttpPortExists := true }

/-- Whether the label map of the entry of a slot, if any, is allocated. -/
def slotLabelled {α : Type} (labels : α → GoMap) (slot : Option (ResourceCacheEntry α)) : Bool :=
  match slot with
  | some entry => (labels entry.value).isSome
  | none => true

/-- Whether every label map that `LabelsCF` patches is allocated: the labels of the cached
Deployment, of its pod template, of the Service, of the Ingress and of both
PodDisruptionBudget variants. -/
def ResourceCache.labelsAllocated (cache : ResourceCache) : Bool :=
  slotLabelled Deployment.labels cache.deployment &&
    slotLabelled Deployment.templateLabels cache.deployment &&
    slotLabelled Service.labels cache.service &&
    slotLabelled Ingress.labels cache.ingress &&
    slotLabelled PodDisruptionBudget.labels cache.pdbV1beta1 &&
    slotLabelled PodDisruptionBudget.labels cache.pdbV1

/-- The labels of the entry of a slot; the nil map for an empty slot. -/
def slotLabels {α : Type} (labels : α → GoMap) (slot : Option (ResourceCacheEntry α)) : GoMap :=
  match slot with
  | some entry => labels entry.value
  | none => none

/-- The value that `LabelsCF.Compare` returns after `Sense`, slot by slot. -/
def LabelsCF.pending (factoryLabels target : GoMap) (cache : ResourceCache) : Bool :=
  (cache.deployment.isSome &&
      !LabelsEqual (slotLabels Deployment.labels cache.deployment) factoryLabels) ||
    (cache.deployment.isSome &&
      !LabelsEqual (slotLabels Deployment.templateLabels cache.deployment) target) ||
    (cache.service.isSome &&
      !LabelsEqual (slotLabels Service.labels cache.service) factoryLabels) ||
    (cache.ingress.isSome &&
      !LabelsEqual (slotLabels Ingress.labels cache.ingress) factoryLabels) ||
    (cache.pdbV1beta1.isSome &&
      !LabelsEqual (slotLabels PodDisruptionBudget.labels cache.pdbV1beta1) factoryLabels) ||
    (cache.pdbV1.isSome &&
      !LabelsEqual (slotLabels PodDisruptionBudget.labels cache.pdbV1) factoryLabels)

/-- The receiver that `LabelsCF.Compare` leaves, given the pod-template target it computed. -/
def LabelsCF.compared (factoryLabels target : GoMap) (this : LabelsCF) : LabelsCF :=
  { this with
    caLabels := factoryLabels
    targetDeploymentPodLabels := target
    updateDeployment :=
      this.deploymentIsCached && !LabelsEqual this.deploymentLabels factoryLabels
    updateDeploymentPod :=
      this.deploymentIsCached && !LabelsEqual this.deploymentPodLabels target
    updateService := this.serviceIsCached && !LabelsEqual this.serviceLabels factoryLabels
    updateIngress := this.ingressIsCached && !LabelsEqual this.ingressLabels factoryLabels
    updatePdbV1beta1 :=
      this.pdbV1beta1IsCached && !LabelsEqual this.pdbV1beta1Labels factoryLabels
    updatePdbV1 := this.pdbV1IsCached && !LabelsEqual this.pdbV1Labels factoryLabels }

/-! ## Package `pkg/controller/apicurioregistry`: collaborators of `EnvCF` and `ProfileCF`

The older package has its own resource cache and loop context; its control functions use
the deployment entry and the Env Cache only. -/

namespace Apicurioregistry

/-- Modelled from the spec: the constant `RC_EMPTY_NAME` is not part of the sources; it is
the name of no resource. -/
def RC_EMPTY_NAME : String := ""

/-- The constant `ENV_QUARKUS_PROFILE`. -/
def ENV_QUARKUS_PROFILE : String := "QUARKUS_PROFILE"

/-- Modelled from the spec: `EnvCacheEntry` is not part of the sources.  An entry holds one
environment variable, whose name is the name of the entry, and the managed flag. -/
structure EnvCacheEntry where
  value : EnvVar
  managed : Bool
  deriving DecidableEq, Repr

namespace EnvCacheEntry

/-- The method `entry.GetName()`. -/
def GetName (e : EnvCacheEntry) : String := e.value.name

/-- The method `entry.IsManaged()`. -/
def IsManaged (e : EnvCacheEntry) : Bool := e.managed

end EnvCacheEntry

/-- Modelled from the spec: `NewSimpleEnvCacheEntry` is not part of the sources; it builds
an operator-owned (managed) entry from a name and a value. -/
def NewSimpleEnvCacheEntry (name value : String) : EnvCacheEntry :=
  { value := { name := name, value := value }, managed := true }

/-- Modelled from the spec: `NewEnvCacheEntryUnmanaged` is not part of the sources; it
builds an entry for a variable discovered on the live object. -/
def NewEnvCacheEntryUnmanaged (e : EnvVar) : EnvCacheEntry :=
  { value := e, managed := false }

/-- Modelled from the spec: `EnvCache` is not part of the sources.  A store of entries with
unique names and a dirty flag.  The list `entries` holds the entries in the order in which
their names were first stored; in which order `GetSorted` returns them is not fixed here.
The list `setCalls` records the entries passed to `Set`, in call order. -/
structure EnvCache where
  entries : List EnvCacheEntry := []
  changed : Bool := false
  setCalls : List EnvCacheEntry := []
  deriving DecidableEq, Repr

namespace EnvCache

/-- The method `Get(name)`: the entry of that name, if found. -/
def Get (c : EnvCache) (name : String) : Option EnvCacheEntry :=
  c.entries.find? fun x => x.GetName == name

/-- The stored entries once `entry` is stored: it takes the place of the entry of the same
name, or is recorded after the names stored before it when the name is new. -/
def store (entry : EnvCacheEntry) : List EnvCacheEntry → List EnvCacheEntry
  | [] => [entry]
  | x :: xs => if x.GetName == entry.GetName then entry :: xs else x :: store entry xs

/-- The method `Set(entry)`: the dirty flag is raised when the content changes. -/
def Set (c : EnvCache) (entry : EnvCacheEntry) : EnvCache :=
  { entries := store entry c.entries
    changed := c.changed || decide (c.Get entry.GetName ≠ some entry)
    setCalls := c.setCalls ++ [entry] }

/-- The method `GetSorted()`.  Its code is not part of the sources: the list it returns is
computed from the stored entries by the parameter `sorted`, which stands for the order of
the Env Cache. -/
def GetSorted (sorted : List EnvCacheEntry → List EnvVar) (c : EnvCache) : List EnvVar :=
  sorted c.entries

/-- The method `IsChanged()`. -/
def IsChanged (c : EnvCache) : Bool := c.changed

/-- The method `ResetChanged()`: the content stays. -/
def ResetChanged (c : EnvCache) : EnvCache := { c with changed := false }

/-- Whether the cache has an entry of that name that is flagged managed. -/
def managed (c : EnvCache) (name : String) : Bool :=
  match c.Get name with
  | some v => v.IsManaged
  | none => false

end EnvCache

/-- Modelled from the spec: the `ResourceCacheEntry` of this package is not part of the
sources.  An entry has a name, a snapshot and the patches queued against it; `GetValue`
returns nil for an entry without snapshot.  A queued patch runs later and may read the Env
Cache at that time. -/
structure ResourceCacheEntry where
  name : String
  value : Option Deployment
  patches : List (EnvCache → Deployment → Deployment) := []

namespace ResourceCacheEntry

/-- The method `entry.GetName()`. -/
def GetName (e : ResourceCacheEntry) : String := e.name

/-- The method `entry.GetValue()`; `none` is the nil value. -/
def GetValue (e : ResourceCacheEntry) : Option Deployment := e.value

/-- The method `entry.ApplyPatch(fn)`. -/
def ApplyPatch (e : ResourceCacheEntry) (fn : EnvCache → Deployment → Deployment) :
    ResourceCacheEntry :=
  { e with patches := e.patches ++ [fn] }

/-- The snapshot once the queued patches are applied in enqueue order, the Env Cache being
`envCache` at that time. -/
def patched (e : ResourceCacheEntry) (envCache : EnvCache) : Option Deployment :=
  e.value.map fun d => e.patches.foldl (fun d fn => fn envCache d) d

end ResourceCacheEntry

/-- An entry named `RC_EMPTY_NAME` without snapshot. -/
def emptyEntry : ResourceCacheEntry := { name := RC_EMPTY_NAME, value := none }

/-- Modelled from the spec: the `ResourceCache` of this package is not part of the sources;
only the slot of `RC_KEY_DEPLOYMENT` is used here.  The spec gives `Get(key)->(entry,found)`
and does not say which entry comes with `found = false`: it is the field `miss`, `none` for
the nil entry. -/
structure ResourceCache where
  deployment : Option ResourceCacheEntry
  miss : Option ResourceCacheEntry

/-- The method `Get(RC_KEY_DEPLOYMENT)`: the entry, `none` when it is nil, and whether it
was found. -/
def ResourceCache.Get (c : ResourceCache) : Option ResourceCacheEntry × Bool :=
  match c.deployment with
  | some entry => (some entry, true)
  | none => (c.miss, false)

/-- The services that `loop.ControlLoopContext` hands out: the resource cache, the Env Cache
with the order of its `GetSorted`, and the application name of the configuration
(`GetAppName`). -/
structure ControlLoopContext where
  resourceCache : ResourceCache
  envCache : EnvCache := {}
  sorted : List EnvCacheEntry → List EnvVar
  appName : String

/-! ## `cf_env.go`: `EnvCF` -/

/-- The fields of `EnvCF`.  The field `deploymentEntry` is a reference to the entry of the
resource cache and is read through the cache. -/
structure EnvCF where
  deploymentExists : Bool := false
  deploymentName : String := RC_EMPTY_NAME
  envCacheUpdated : Bool := false
  lastDeploymentName : String := RC_EMPTY_NAME
  deriving DecidableEq, Repr

namespace EnvCF

/-- The constructor `NewEnvCF`. -/
def new : EnvCF := {}

/-- The method `EnvCF.Sense`: the updated receiver, or the panic of `GetName()` called on
a nil entry. -/
def Sense (ctx : ControlLoopContext) (this : EnvCF) : Go EnvCF :=
  -- Observation #1
  let deploymentEntry := ctx.resourceCache.Get.1
  let deploymentExists := ctx.resourceCache.Get.2
  let this := { this with deploymentExists := deploymentExists }
  match deploymentEntry with
  | none => .error .nilDereference
  | some entry =>
    let this := { this with deploymentName := entry.GetName }
    -- Observation #2
    .ok { this with envCacheUpdated := ctx.envCache.IsChanged }

/-- The method `EnvCF.Compare`. -/
def Compare (this : EnvCF) : Bool :=
  (this.envCacheUpdated || this.deploymentName != this.lastDeploymentName) &&
    this.deploymentExists

/-- The inner loop of Response #1 over the variables of one container still to read. -/
def Respond.readEnv (envCache : EnvCache) : List EnvVar → EnvCache
  | [] => envCache
  | e :: rest =>
    match envCache.Get e.name with
    | some v =>
      if !v.IsManaged then
        Respond.readEnv (envCache.Set (NewEnvCacheEntryUnmanaged e)) rest
      else Respond.readEnv envCache rest
    | none => Respond.readEnv (envCache.Set (NewEnvCacheEntryUnmanaged e)) rest

/-- The outer loop of Response #1 over the containers still to visit. -/
def Respond.readContainers (appName : String) (envCache : EnvCache) :
    List Container → EnvCache
  | [] => envCache
  | c :: cs =>
    if c.name == appName then
      Respond.readContainers appName (Respond.readEnv envCache c.env) cs
    else Respond.readContainers appName envCache cs

/-- The patch of Response #2; it reads the sorted variables when it runs. -/
def Respond.patch (appName : String) (sorted : List EnvCacheEntry → List EnvVar)
    (envCache : EnvCache) (value : Deployment) : Deployment :=
  let deployment := value
  { deployment with
    containers := deployment.containers.map fun c =>
      if c.name == appName then { c with env := envCache.GetSorted sorted } else c }

/-- The method `EnvCF.Respond`: the updated receiver and loop context, or the panic of
`GetValue()` called on a nil entry, or that of the type assertion on a nil value. -/
def Respond (ctx : ControlLoopContext) (this : EnvCF) : Go (EnvCF × ControlLoopContext) :=
  match ctx.resourceCache.Get.1 with
  | none => .error .nilDereference
  | some deploymentEntry =>
    match deploymentEntry.GetValue with
    | none => .error .interfaceConversion
    | some deployment =>
      -- Response #1
      let envCache := Respond.readContainers ctx.appName ctx.envCache deployment.containers
      -- Response #2
      let resourceCache : ResourceCache :=
        { ctx.resourceCache with
          deployment := ctx.resourceCache.deployment.map fun entry =>
            entry.ApplyPatch (Respond.patch ctx.appName ctx.sorted) }
      -- Response #3
      let envCache := envCache.ResetChanged
      .ok ({ this with lastDeploymentName := this.deploymentName },
           { ctx with resourceCache := resourceCache, envCache := envCache })

/-- The method `EnvCF.Cleanup`. -/
def Cleanup (_this : EnvCF) : Bool := true

end EnvCF

/-! ## `cf_profile.go`: `ProfileCF` -/

/-- The fields of `ProfileCF`. -/
structure ProfileCF where
  profileSet : Bool := false
  deriving DecidableEq, Repr

namespace ProfileCF

/-- The constructor `NewProfileCF`. -/
def new : ProfileCF := { profileSet := false }

/-- The method `ProfileCF.Sense`. -/
def Sense (ctx : ControlLoopContext) (this : ProfileCF) : ProfileCF :=
  { this with profileSet := (ctx.envCache.Get ENV_QUARKUS_PROFILE).isSome }

/-- The method `ProfileCF.Compare`. -/
def Compare (this : ProfileCF) : Bool := !this.profileSet

/-- The method `ProfileCF.Respond`. -/
def Respond (ctx : ControlLoopContext) (_this : ProfileCF) : ControlLoopContext :=
  { ctx with envCache := ctx.envCache.Set (NewSimpleEnvCacheEntry ENV_QUARKUS_PROFILE "prod") }

/-- The method `ProfileCF.Cleanup`. -/
def Cleanup (_this : ProfileCF) : Bool := true

end ProfileCF

/-- The variables that Response #1 of `EnvCF` reads: those of the containers named
`appName`, in container order. -/
def liveEnv (appName : String) : List Container → List EnvVar
  | [] => []
  | c :: cs => if c.name == appName then c.env ++ liveEnv appName cs else liveEnv appName cs

end Apicurioregistry


namespace Apicurioregistry

/-- The variable of that name, with the name as its value. -/
def var (name : String) : EnvVar := { name := name, value := name }

/-- A Deployment of that name with one container `registry` carrying these variables and a
side container `proxy` carrying the variable `P`. -/
def deploymentWith (env : List EnvVar) : Deployment :=
  { name := "registry-deployment", labels := none, templateLabels := none, volumes := [],
    containers :=
      [{ name := "registry", ports := [], volumeMounts := [], env := env },
       { name := "proxy", ports := [], volumeMounts := [], env := [var "P"] }] }

/-- The order in which the names were first stored. -/
def storedOrder (entries : List EnvCacheEntry) : List EnvVar := entries.map fun x => x.value

/-- The unmanaged entries in the order in which their names were first stored, then the
managed ones. -/
def unmanagedFirst (entries : List EnvCacheEntry) : List EnvVar :=
  ((entries.filter fun x => !x.IsManaged) ++ entries.filter fun x => x.IsManaged).map
    fun x => x.value

/-- The entry of the order scenario: the live application container has the variables `A`,
`B`, `C`; no patch is queued. -/
def orderEntry : ResourceCacheEntry :=
  { name := "registry-deployment", value := some (deploymentWith [var "A", var "B", var "C"]) }

/-- The context of the order scenario for an Env Cache of the order `sorted`: the entry
`orderEntry` is cached and the Env Cache holds the one managed entry `D`. -/
def orderContext (sorted : List EnvCacheEntry → List EnvVar) : ControlLoopContext :=
  { resourceCache := { deployment := some orderEntry, miss := none }
    envCache := { entries := [NewSimpleEnvCacheEntry "D" "D"] }
    sorted := sorted
    appName := "registry" }

/-- An entry whose live application container has the variable `D` with a value edited by
hand, the variable `U` with a new value, and a new variable `N`. -/
def mergeEntry : ResourceCacheEntry :=
  { name := "registry-deployment",
    value := some (deploymentWith
      [{ name := "D", value := "edited" }, { name := "U", value := "new" }, var "N"]) }

/-- A context in which `mergeEntry` is cached and the Env Cache holds `D` as managed and
`U` as unmanaged with an old value. -/
def mergeContext : ControlLoopContext :=
  { resourceCache := { deployment := some mergeEntry, miss := none }
    envCache := { entries := [NewSimpleEnvCacheEntry "D" "D",
                              NewEnvCacheEntryUnmanaged { name := "U", value := "old" }] }
    sorted := storedOrder
    appName := "registry" }

/-- A context whose resource cache does not hold the Deployment and answers a miss with the
entry `miss`. -/
def missContext (miss : Option ResourceCacheEntry) : ControlLoopContext :=
  { resourceCache := { deployment := none, miss := miss }
    sorted := storedOrder
    appName := "registry" }

end Apicurioregistry

/-- A receiver for which the spec disables HTTP while HTTPS is off, and `Sense` found no
HTTP facet. -/
def httpDisabledState : HttpsCF := { HttpsCF.new with httpEnabled := false }

/-- A deployment whose container declares no port. -/
def bareDeployment : Deployment :=
  { name := "registry-deployment", labels := none, templateLabels := none, volumes := [],
    containers := [{ name := "registry", ports := [], volumeMounts := [], env := [] }] }

/-- A service without ports. -/
def bareService : Service := { labels := none, ports := [] }

/-- A network policy without rules. -/
def barePolicy : NetworkPolicy := { labels := none, ingress := [] }

/-- The spec names no secret; the deployment still carries the volume and the mount of the
secret `old`. -/
def removedSecretContext : LoopContext :=
  { resourceCache :=
      { spec := some (specEntry "" false),
        deployment := some (entryOf "registry-deployment" oldSecretDeployment) } }

/-- A network policy with one rule for all TCP ports: the protocol is set, the port is
not. -/
def allTcpPolicy : NetworkPolicy :=
  { labels := none, ingress := [{ ports := [{ protocol := some "TCP", port := none }] }] }

/-- The network policy `allTcpPolicy` is the one entry of the cache. -/
def allTcpPolicyContext : LoopContext :=
  { resourceCache := { networkPolicy := some (entryOf "registry-policy" allTcpPolicy) } }

/-! ## Theorems: string maps -/

theorem GoMap.index_fst (m : GoMap) (k : String) : (m.index k).1 = (m.get? k).getD "" := by
  unfold GoMap.index; cases m.get? k <;> rfl

theorem GoMap.index_snd (m : GoMap) (k : String) : (m.index k).2 = (m.get? k).isSome := by
  unfold GoMap.index; cases m.get? k <;> rfl

/-- The guard of both label loops fails exactly when the target has the entry. -/
theorem GoMap.guard_eq_false (target : GoMap) (e : Entry) :
    (!(target.index e.1).2 || e.2 != (target.index e.1).1) = false ↔
      target.get? e.1 = some e.2 := by
  rw [GoMap.index_fst, GoMap.index_snd]
  cases h : target.get? e.1 with
  | none => simp
  | some v =>
    simp only [Option.isSome_some, Bool.not_true, Bool.false_or, Option.getD_some,
      Option.some.injEq]
    constructor
    · intro hne
      by_contra hc
      have : (e.2 != v) = true := by simpa [bne_iff_ne] using fun h' => hc h'.symm
      rw [this] at hne
      exact Bool.noConfusion hne
    · intro hv
      subst hv
      simp

theorem GoMap.mem_range (source : GoMap) (e : Entry) :
    e ∈ source.range ↔ source.get? e.1 = some e.2 := by
  cases source with
  | none => simp [GoMap.range, GoMap.get?]
  | some a =>
    obtain ⟨k, v⟩ := e
    simp only [GoMap.range, GoMap.get?]
    exact AList.mem_lookup_iff.symm

theorem GoMap.range_nodupKeys (source : GoMap) : source.range.NodupKeys := by
  cases source with
  | none => simp [GoMap.range]
  | some a => exact a.nodupKeys

theorem GoMap.dlookup_range (source : GoMap) (k : String) :
    source.range.dlookup k = source.get? k := by
  cases source with
  | none => simp [GoMap.range, GoMap.get?]
  | some a => rfl

/-! ## Theorems: `LabelsEqual` -/

theorem LabelsEqual.loop_eq_true (target : GoMap) (es : List Entry) :
    LabelsEqual.loop target es = true ↔ ∀ e ∈ es, target.get? e.1 = some e.2 := by
  induction es with
  | nil => simp [LabelsEqual.loop]
  | cons e rest ih =>
    simp only [LabelsEqual.loop, List.mem_cons, forall_eq_or_imp]
    by_cases hg : (!(target.index e.1).2 || e.2 != (target.index e.1).1) = false
    · rw [hg]
      simp only [Bool.false_eq_true, ↓reduceIte, ih]
      exact ⟨fun h => ⟨(GoMap.guard_eq_false target e).1 hg, h⟩, fun h => h.2⟩
    · have hg' : (!(target.index e.1).2 || e.2 != (target.index e.1).1) = true :=
        Bool.eq_true_of_not_eq_false hg
      rw [hg']
      simp only [↓reduceIte, Bool.false_eq_true, false_iff, not_and]
      intro h
      exact absurd ((GoMap.guard_eq_false target e).2 h) hg

theorem LabelsEqual_eq_true (target source : GoMap) :
    LabelsEqual target source = true ↔
      ∀ k v, source.get? k = some v → target.get? k = some v := by
  unfold LabelsEqual
  rw [LabelsEqual.loop_eq_true]
  constructor
  · intro h k v hk
    exact h ⟨k, v⟩ ((GoMap.mem_range source ⟨k, v⟩).2 hk)
  · intro h e he
    exact h e.1 e.2 ((GoMap.mem_range source e).1 he)

/-! ## Theorems: `LabelsUpdate` -/

/-- On an allocated target the loop of `LabelsUpdate` returns, and the target then holds the
visited entries over its former content. -/
theorem LabelsUpdate.loop_allocated (es : List Entry) (hnd : es.NodupKeys) (t : StrMap) :
    ∃ t' : StrMap, LabelsUpdate.loop (some t) es = .ok (some t') ∧
      ∀ k, t'.lookup k = match es.dlookup k with
        | some v => some v
        | none => t.lookup k := by
  induction es generalizing t with
  | nil => exact ⟨t, rfl, fun k => by simp⟩
  | cons e rest ih =>
    obtain ⟨hk, hrest⟩ := List.nodupKeys_cons.1 hnd
    have hnone : rest.dlookup e.1 = none := List.dlookup_eq_none.2 hk
    have key : ∀ t1 : StrMap, (∀ k, t1.lookup k = if k = e.1 then some e.2 else t.lookup k) →
        LabelsUpdate.loop (some t1) rest = LabelsUpdate.loop (some t) (e :: rest) →
        ∃ t' : StrMap, LabelsUpdate.loop (some t) (e :: rest) = .ok (some t') ∧
          ∀ k, t'.lookup k = match (e :: rest).dlookup k with
            | some v => some v
            | none => t.lookup k := by
      intro t1 h1 hloop
      obtain ⟨t', ht', hl⟩ := ih hrest t1
      refine ⟨t', hloop ▸ ht', fun k => ?_⟩
      rw [hl k, h1 k]
      by_cases hke : k = e.1
      · subst hke
        obtain ⟨ek, ev⟩ := e
        simp [hnone, List.dlookup_cons_eq]
      · have : (e :: rest).dlookup k = rest.dlookup k := by
          obtain ⟨ek, ev⟩ := e
          exact List.dlookup_cons_ne rest ⟨ek, ev⟩ hke
        rw [this]
        simp [hke]
    by_cases hg : (!(GoMap.index (some t) e.1).2 || e.2 != (GoMap.index (some t) e.1).1) = false
    · refine key t (fun k => ?_) ?_
      · by_cases hke : k = e.1
        · subst hke
          simpa [GoMap.get?] using (GoMap.guard_eq_false (some t) e).1 hg
        · simp [hke]
      · simp only [LabelsUpdate.loop, hg, Bool.false_eq_true, ↓reduceIte]
    · have hg' := Bool.eq_true_of_not_eq_false hg
      refine key (t.insert e.1 e.2) (fun k => ?_) ?_
      · by_cases hke : k = e.1
        · subst hke
          simp
        · simp [hke, AList.lookup_insert_ne hke]
      · simp only [LabelsUpdate.loop, hg', ↓reduceIte, GoMap.assign]

/-- The function `LabelsUpdate` on an allocated target returns an allocated map in which a key of the
source carries the source value and every other key is as it was. -/
theorem LabelsUpdate_allocated (t : StrMap) (source : GoMap) :
    ∃ t' : StrMap, LabelsUpdate (some t) source = .ok (some t') ∧
      (∀ k v, source.get? k = some v → t'.lookup k = some v) ∧
      (∀ k, source.get? k = none → t'.lookup k = t.lookup k) := by
  obtain ⟨t', ht', hl⟩ := LabelsUpdate.loop_allocated source.range source.range_nodupKeys t
  refine ⟨t', ht', fun k v hk => ?_, fun k hk => ?_⟩
  · rw [hl k, GoMap.dlookup_range, hk]
  · rw [hl k, GoMap.dlookup_range, hk]

/-- The function `LabelsUpdate` on the nil target panics at the first entry of the source; it returns
only when the source has no entry. -/
theorem LabelsUpdate_nil (source : GoMap) :
    LabelsUpdate none source =
      if source.range = [] then .ok none else .error .nilMapAssignment := by
  unfold LabelsUpdate
  cases source.range with
  | nil => rfl
  | cons e rest => rfl

/-- After `LabelsUpdate` on an allocated target, `LabelsEqual` holds. -/
theorem LabelsEqual_after_LabelsUpdate (t : StrMap) (source : GoMap) :
    ∃ t' : StrMap, LabelsUpdate (some t) source = .ok (some t') ∧
      LabelsEqual (some t') source = true := by
  obtain ⟨t', ht', hs, _⟩ := LabelsUpdate_allocated t source
  exact ⟨t', ht', (LabelsEqual_eq_true _ _).2 fun k v hk => hs k v hk⟩

/-- C2: `LabelsEqual(target, source)` returns true exactly when every key of `source` is
present in `target` with the identical value; replacing `target` by a map that agrees with
it on the keys of `source` does not change the result; and the result is true when the
source has no entry (the nil map or an empty map). -/
theorem LabelsEqual_subset_equality (target source : GoMap) :
    (LabelsEqual target source = true ↔
      ∀ k v, source.get? k = some v → target.get? k = some v) ∧
    (∀ target' : GoMap, (∀ k, source.hasKey k = true → target'.get? k = target.get? k) →
      LabelsEqual target' source = LabelsEqual target source) ∧
    (source.range = [] → LabelsEqual target source = true) := by
  refine ⟨LabelsEqual_eq_true target source, fun target' hagree => ?_, fun hempty => ?_⟩
  · rw [Bool.eq_iff_iff, LabelsEqual_eq_true, LabelsEqual_eq_true]
    have hk : ∀ k v, source.get? k = some v → target'.get? k = target.get? k := by
      intro k v hv
      exact hagree k (by simp [GoMap.hasKey, hv])
    constructor
    · intro h k v hv
      rw [← hk k v hv]
      exact h k v hv
    · intro h k v hv
      rw [hk k v hv]
      exact h k v hv
  · unfold LabelsEqual
    rw [hempty]
    rfl

/-- C3, at the failing input: `LabelsUpdate` with the canonical labels on the labels of a
resource that has none (the nil map) panics with "assignment to entry in nil map", so no key
of the source is written; on the nil target it returns only for a source without entries. -/
theorem LabelsUpdate_nil_target_panics :
    LabelsUpdate none canonicalLabels = .error .nilMapAssignment ∧
    ∀ source : GoMap,
      LabelsUpdate none source =
        if source.range = [] then .ok none else .error .nilMapAssignment :=
  ⟨rfl, LabelsUpdate_nil⟩

/-- Scenario 4: the live Service labels are not subset-equal to the canonical labels, and
`LabelsUpdate` turns them into `app`, `managed-by` and `team` with the expected values. -/
theorem LabelsUpdate_scenario4 :
    LabelsEqual liveServiceLabels canonicalLabels = false ∧
    ∃ m : StrMap, LabelsUpdate liveServiceLabels canonicalLabels = .ok (some m) ∧
      m.entries.Perm patchedServiceLabels.entries :=
  ⟨by decide, _, rfl, by decide⟩

/-- C4, at the failing input: with a cached Service that has no labels, one pass of
`LabelsCF` (`Sense`, `Compare`, `Respond`, patches applied) panics in the Service patch, so
no second `Sense` and `Compare` take place. -/
theorem LabelsCF_tick_unlabelled_service_panics :
    (LabelsCF.Compare canonicalLabels
        (LabelsCF.Sense unlabelledServiceCache LabelsCF.new)).toOption.map Prod.snd = some true ∧
    panicOf (LabelsCF.tick canonicalLabels unlabelledServiceCache LabelsCF.new) =
      some .nilMapAssignment := by
  constructor <;> rfl

/-- The function `GetTargetDeploymentPodLabels` returns an allocated map: its target is made with `make`. -/
theorem LabelsCF.GetTargetDeploymentPodLabels_allocated (factoryLabels : GoMap)
    (this : LabelsCF) :
    ∃ m : StrMap, this.GetTargetDeploymentPodLabels factoryLabels = .ok (some m) := by
  obtain ⟨m1, h1, _⟩ := LabelsUpdate_allocated ∅ factoryLabels
  obtain ⟨m2, h2, _⟩ := LabelsUpdate_allocated m1 this.additionalDeploymentPodLabels
  refine ⟨m2, ?_⟩
  simp only [LabelsCF.GetTargetDeploymentPodLabels, LabelsCF.GetCommonApplicationLabels]
  rw [h1]
  exact h2

/-- C5: `GetTargetDeploymentPodLabels` returns an allocated map whose keys are the keys of
the canonical labels and of the extra pod labels; a key of the extra labels carries the
user's value, every other key the canonical value. -/
theorem GetTargetDeploymentPodLabels_layers (factoryLabels : GoMap) (this : LabelsCF) :
    ∃ m : StrMap,
      this.GetTargetDeploymentPodLabels factoryLabels = .ok (some m) ∧
      (∀ k, (m.lookup k).isSome = true ↔
        (factoryLabels.hasKey k = true ∨ this.additionalDeploymentPodLabels.hasKey k = true)) ∧
      (∀ k v, this.additionalDeploymentPodLabels.get? k = some v → m.lookup k = some v) ∧
      (∀ k, this.additionalDeploymentPodLabels.get? k = none →
        m.lookup k = factoryLabels.get? k) := by
  obtain ⟨m1, h1, hs1, hn1⟩ := LabelsUpdate_allocated ∅ factoryLabels
  obtain ⟨m2, h2, hs2, hn2⟩ := LabelsUpdate_allocated m1 this.additionalDeploymentPodLabels
  have hm1 : ∀ k, m1.lookup k = factoryLabels.get? k := by
    intro k
    cases hk : factoryLabels.get? k with
    | none => rw [hn1 k hk]; exact AList.lookup_empty k
    | some v => exact hs1 k v hk
  have hother : ∀ k, this.additionalDeploymentPodLabels.get? k = none →
      m2.lookup k = factoryLabels.get? k := fun k hk => by rw [hn2 k hk, hm1 k]
  refine ⟨m2, ?_, fun k => ?_, hs2, hother⟩
  · simp only [LabelsCF.GetTargetDeploymentPodLabels, LabelsCF.GetCommonApplicationLabels]
    rw [h1]
    exact h2
  · cases hk : this.additionalDeploymentPodLabels.get? k with
    | none => simp [hother k hk, GoMap.hasKey, hk]
    | some v => simp [hs2 k v hk, GoMap.hasKey, hk]

/-! ## Theorems: applying the queued patches -/

theorem flushSlot_clean {α : Type} (slot : Option (ResourceCacheEntry α))
    (h : slotClean slot = true) : flushSlot slot = .ok slot := by
  cases slot with
  | none => rfl
  | some entry =>
    obtain ⟨name, value, patches⟩ := entry
    simp only [slotClean, List.isEmpty_iff] at h
    subst h
    rfl

theorem flushSlot_queue {α : Type} (entry : ResourceCacheEntry α) (fn : α → Go α) (v : α)
    (h : entry.patches.isEmpty = true) (hfn : fn entry.value = .ok v) :
    flushSlot (HttpsCF.Respond.queue fn (some entry)) = .ok (some { entry with value := v }) := by
  obtain ⟨name, value, patches⟩ := entry
  simp only [List.isEmpty_iff] at h
  subst h
  simp only at hfn
  simp [flushSlot, HttpsCF.Respond.queue, ResourceCacheEntry.ApplyPatch,
    ResourceCacheEntry.flush, ResourceCacheEntry.runPatches, hfn]

theorem ResourceCache.committed_iff (cache : ResourceCache) :
    cache.committed = true ↔
      (slotClean cache.spec = true ∧ slotClean cache.deployment = true ∧
       slotClean cache.service = true ∧ slotClean cache.networkPolicy = true ∧
       slotClean cache.ingress = true ∧ slotClean cache.pdbV1beta1 = true ∧
       slotClean cache.pdbV1 = true) := by
  simp only [ResourceCache.committed, Bool.and_eq_true, and_assoc]

/-! ## Theorems: convergence of `LabelsCF` on allocated label maps -/

/-- One guarded label patch, applied: on an allocated label map the patch returns, the
labels then contain the source, and the slot stays clean and allocated. -/
theorem LabelsCF.slot_patched {α : Type} (get : α → GoMap) (set : α → GoMap → α)
    (hget : ∀ a m, get (set a m) = m) (src : GoMap) (u : Bool)
    (slot : Option (ResourceCacheEntry α)) (hclean : slotClean slot = true)
    (halloc : slotLabelled get slot = true)
    (hu : u = (slot.isSome && !LabelsEqual (slotLabels get slot) src)) :
    ∃ slot', flushSlot (LabelsCF.Respond.applyIf u
        (fun v => match LabelsUpdate (get v) src with
          | .error p => .error p
          | .ok labels => .ok (set v labels)) slot) = .ok slot' ∧
      slot'.isSome = slot.isSome ∧ slotClean slot' = true ∧ slotLabelled get slot' = true ∧
      (slot'.isSome && !LabelsEqual (slotLabels get slot') src) = false ∧
      (∀ f : α → GoMap, (∀ a m, f (set a m) = f a) →
        slotLabels f slot' = slotLabels f slot ∧ slotLabelled f slot' = slotLabelled f slot) := by
  cases slot with
  | none => exact ⟨none, rfl, rfl, rfl, rfl, rfl, fun _ _ => ⟨rfl, rfl⟩⟩
  | some entry =>
    obtain ⟨name, value, patches⟩ := entry
    simp only [slotClean, List.isEmpty_iff] at hclean
    subst hclean
    simp only [slotLabelled, slotLabels, Option.isSome_some, Bool.true_and] at halloc hu
    obtain ⟨t, ht⟩ := Option.isSome_iff_exists.1 halloc
    cases hle : LabelsEqual (get value) src with
    | true =>
      rw [hle] at hu
      subst hu
      refine ⟨some ⟨name, value, []⟩, rfl, rfl, rfl, halloc, ?_, fun _ _ => ⟨rfl, rfl⟩⟩
      simp [slotLabels, hle]
    | false =>
      rw [hle] at hu
      subst hu
      obtain ⟨t', ht', hs, _⟩ := LabelsUpdate_allocated t src
      rw [← ht] at ht'
      refine ⟨some ⟨name, set value (some t'), []⟩, ?_, rfl, rfl, ?_, ?_, fun f hf => ?_⟩
      · simp [LabelsCF.Respond.applyIf, flushSlot, ResourceCacheEntry.flush,
          ResourceCacheEntry.ApplyPatch, ResourceCacheEntry.runPatches, ht']
      · simp [slotLabelled, hget]
      · have := (LabelsEqual_eq_true (some t') src).2 fun k v hk => hs k v hk
        simp [slotLabels, hget, this]
      · simp [slotLabels, slotLabelled, hf]

/-- The pod-template target depends on the receiver only through the extra pod labels. -/
theorem LabelsCF.GetTargetDeploymentPodLabels_congr (factoryLabels : GoMap) (a b : LabelsCF)
    (h : a.additionalDeploymentPodLabels = b.additionalDeploymentPodLabels) :
    a.GetTargetDeploymentPodLabels factoryLabels = b.GetTargetDeploymentPodLabels factoryLabels := by
  simp only [LabelsCF.GetTargetDeploymentPodLabels, LabelsCF.GetCommonApplicationLabels, h]

/-- The method `Compare` returns once the pod-template target is computed. -/
theorem LabelsCF.Compare_eq (factoryLabels : GoMap) (this : LabelsCF) (T : StrMap)
    (hT : this.GetTargetDeploymentPodLabels factoryLabels = .ok (some T)) :
    LabelsCF.Compare factoryLabels this =
      .ok (LabelsCF.compared factoryLabels (some T) this,
        (LabelsCF.compared factoryLabels (some T) this).updateDeployment ||
        (LabelsCF.compared factoryLabels (some T) this).updateDeploymentPod ||
        (LabelsCF.compared factoryLabels (some T) this).updateService ||
        (LabelsCF.compared factoryLabels (some T) this).updateIngress ||
        (LabelsCF.compared factoryLabels (some T) this).updatePdbV1beta1 ||
        (LabelsCF.compared factoryLabels (some T) this).updatePdbV1) := by
  have hT' : ({ this with
      caLabels := this.GetCommonApplicationLabels factoryLabels,
      updateDeployment := this.deploymentIsCached &&
        !LabelsEqual this.deploymentLabels
          (this.GetCommonApplicationLabels factoryLabels) } : LabelsCF).GetTargetDeploymentPodLabels
        factoryLabels = .ok (some T) :=
    (LabelsCF.GetTargetDeploymentPodLabels_congr factoryLabels _ _ rfl).trans hT
  unfold LabelsCF.Compare
  simp only [hT']
  rfl

/-- What `Sense` leaves in the receiver, in terms of the cache. -/
theorem LabelsCF.Sense_fields (cache : ResourceCache) (this : LabelsCF) (x y : GoMap) :
    (LabelsCF.Sense cache this).additionalDeploymentPodLabels =
      (match cache.spec with
        | some specEntry => specEntry.value.deploymentLabels
        | none => this.additionalDeploymentPodLabels) ∧
    ((LabelsCF.Sense cache this).deploymentIsCached &&
        !LabelsEqual (LabelsCF.Sense cache this).deploymentLabels x) =
      (cache.deployment.isSome &&
        !LabelsEqual (slotLabels Deployment.labels cache.deployment) x) ∧
    ((LabelsCF.Sense cache this).deploymentIsCached &&
        !LabelsEqual (LabelsCF.Sense cache this).deploymentPodLabels y) =
      (cache.deployment.isSome &&
        !LabelsEqual (slotLabels Deployment.templateLabels cache.deployment) y) ∧
    ((LabelsCF.Sense cache this).serviceIsCached &&
        !LabelsEqual (LabelsCF.Sense cache this).serviceLabels x) =
      (cache.service.isSome && !LabelsEqual (slotLabels Service.labels cache.service) x) ∧
    ((LabelsCF.Sense cache this).ingressIsCached &&
        !LabelsEqual (LabelsCF.Sense cache this).ingressLabels x) =
      (cache.ingress.isSome && !LabelsEqual (slotLabels Ingress.labels cache.ingress) x) ∧
    ((LabelsCF.Sense cache this).pdbV1beta1IsCached &&
        !LabelsEqual (LabelsCF.Sense cache this).pdbV1beta1Labels x) =
      (cache.pdbV1beta1.isSome &&
        !LabelsEqual (slotLabels PodDisruptionBudget.labels cache.pdbV1beta1) x) ∧
    ((LabelsCF.Sense cache this).pdbV1IsCached &&
        !LabelsEqual (LabelsCF.Sense cache this).pdbV1Labels x) =
      (cache.pdbV1.isSome &&
        !LabelsEqual (slotLabels PodDisruptionBudget.labels cache.pdbV1) x) := by
  unfold LabelsCF.Sense
  cases cache.spec <;> cases cache.deployment <;> cases cache.service <;> cases cache.ingress <;>
    cases cache.pdbV1beta1 <;> cases cache.pdbV1 <;>
    exact ⟨rfl, rfl, rfl, rfl, rfl, rfl, rfl⟩

/-- Two guarded patches queued on a clean slot apply one after the other. -/
theorem LabelsCF.flushSlot_two {α : Type} (u1 u2 : Bool) (p1 p2 : α → Go α)
    (slot : Option (ResourceCacheEntry α)) (hclean : slotClean slot = true) :
    flushSlot (LabelsCF.Respond.applyIf u2 p2 (LabelsCF.Respond.applyIf u1 p1 slot)) =
      (flushSlot (LabelsCF.Respond.applyIf u1 p1 slot)).bind fun slot1 =>
        flushSlot (LabelsCF.Respond.applyIf u2 p2 slot1) := by
  cases slot with
  | none => rfl
  | some entry =>
    obtain ⟨name, value, patches⟩ := entry
    simp only [slotClean, List.isEmpty_iff] at hclean
    subst hclean
    cases u1 <;> cases u2 <;>
      simp only [LabelsCF.Respond.applyIf, flushSlot, ResourceCacheEntry.flush,
        ResourceCacheEntry.ApplyPatch, ResourceCacheEntry.runPatches, List.nil_append,
        Except.bind, ↓reduceIte, Bool.false_eq_true]
    · cases p1 value <;> rfl
    · cases p1 value <;> rfl

/-- Once nothing is pending on a cache with the same spec entry, `Sense` then `Compare`
returns false. -/
theorem LabelsCF.Compare_false_of_not_pending (factoryLabels : GoMap)
    (cache cache' : ResourceCache) (this this' : LabelsCF) (T : StrMap)
    (hT : (LabelsCF.Sense cache this).GetTargetDeploymentPodLabels factoryLabels = .ok (some T))
    (hspec : cache'.spec = cache.spec)
    (hadd : this'.additionalDeploymentPodLabels =
      (LabelsCF.Sense cache this).additionalDeploymentPodLabels)
    (hp : LabelsCF.pending factoryLabels (some T) cache' = false) :
    ∃ this'', LabelsCF.Compare factoryLabels (LabelsCF.Sense cache' this') =
      .ok (this'', false) := by
  have h1 := (LabelsCF.Sense_fields cache this none none).1
  obtain ⟨h2, f1, f2, f3, f4, f5, f6⟩ :=
    LabelsCF.Sense_fields cache' this' factoryLabels (some T)
  have hsame : (LabelsCF.Sense cache' this').additionalDeploymentPodLabels =
      (LabelsCF.Sense cache this).additionalDeploymentPodLabels := by
    rw [h2, hspec]
    cases hs : cache.spec with
    | none => simpa using hadd
    | some e => rw [h1, hs]
  have hT' := (LabelsCF.GetTargetDeploymentPodLabels_congr factoryLabels _ _ hsame).trans hT
  rw [LabelsCF.Compare_eq factoryLabels _ T hT']
  refine ⟨LabelsCF.compared factoryLabels (some T) (LabelsCF.Sense cache' this'), ?_⟩
  congr 2
  simp only [LabelsCF.compared, f1, f2, f3, f4, f5, f6]
  exact hp

/-- Convergence of `LabelsCF` on allocated label maps: on a cache without queued patches in
which every label map that `LabelsCF` patches is allocated, one pass (`Sense`, `Compare`,
`Respond` when needed, patches applied) returns, and `Sense` then `Compare` with the same
canonical labels returns false. -/
theorem LabelsCF.tick_converges (factoryLabels : GoMap) (cache : ResourceCache)
    (this : LabelsCF) (hc : cache.committed = true) (ha : cache.labelsAllocated = true) :
    ∃ this' cache', LabelsCF.tick factoryLabels cache this = .ok (this', cache') ∧
      ∃ this'', LabelsCF.Compare factoryLabels (LabelsCF.Sense cache' this') =
        .ok (this'', false) := by
  obtain ⟨T, hT⟩ :=
    LabelsCF.GetTargetDeploymentPodLabels_allocated factoryLabels (LabelsCF.Sense cache this)
  have hCmp := LabelsCF.Compare_eq factoryLabels (LabelsCF.Sense cache this) T hT
  obtain ⟨_, f1, f2, f3, f4, f5, f6⟩ :=
    LabelsCF.Sense_fields cache this factoryLabels (some T)
  generalize hC : LabelsCF.compared factoryLabels (some T) (LabelsCF.Sense cache this) = C at hCmp
  have hCadd : C.additionalDeploymentPodLabels =
      (LabelsCF.Sense cache this).additionalDeploymentPodLabels := by rw [← hC]; rfl
  have hCca : C.caLabels = factoryLabels := by rw [← hC]; rfl
  have hCt : C.targetDeploymentPodLabels = some T := by rw [← hC]; rfl
  have g1 : C.updateDeployment = (cache.deployment.isSome &&
      !LabelsEqual (slotLabels Deployment.labels cache.deployment) factoryLabels) := by
    rw [← hC]; exact f1
  have g2 : C.updateDeploymentPod = (cache.deployment.isSome &&
      !LabelsEqual (slotLabels Deployment.templateLabels cache.deployment) (some T)) := by
    rw [← hC]; exact f2
  have g3 : C.updateService = (cache.service.isSome &&
      !LabelsEqual (slotLabels Service.labels cache.service) factoryLabels) := by
    rw [← hC]; exact f3
  have g4 : C.updateIngress = (cache.ingress.isSome &&
      !LabelsEqual (slotLabels Ingress.labels cache.ingress) factoryLabels) := by
    rw [← hC]; exact f4
  have g5 : C.updatePdbV1beta1 = (cache.pdbV1beta1.isSome &&
      !LabelsEqual (slotLabels PodDisruptionBudget.labels cache.pdbV1beta1) factoryLabels) := by
    rw [← hC]; exact f5
  have g6 : C.updatePdbV1 = (cache.pdbV1.isSome &&
      !LabelsEqual (slotLabels PodDisruptionBudget.labels cache.pdbV1) factoryLabels) := by
    rw [← hC]; exact f6
  cases hr : (C.updateDeployment || C.updateDeploymentPod || C.updateService ||
      C.updateIngress || C.updatePdbV1beta1 || C.updatePdbV1) with
  | false =>
    refine ⟨C, cache, ?_, ?_⟩
    · unfold LabelsCF.tick
      rw [hCmp, hr]
    · refine LabelsCF.Compare_false_of_not_pending factoryLabels cache cache this C T hT rfl
        hCadd ?_
      rw [g1, g2, g3, g4, g5, g6] at hr
      exact hr
  | true =>
    obtain ⟨c1, c2, c3, c4, c5, c6, c7⟩ := (ResourceCache.committed_iff cache).1 hc
    simp only [ResourceCache.labelsAllocated, Bool.and_eq_true] at ha
    obtain ⟨⟨⟨⟨⟨a1, a2⟩, a3⟩, a4⟩, a5⟩, a6⟩ := ha
    obtain ⟨d1, hd1, id1, cd1, _, pd1, fd1⟩ :=
      LabelsCF.slot_patched Deployment.labels (fun d l => { d with labels := l })
        (fun _ _ => rfl) C.caLabels C.updateDeployment cache.deployment c2 a1
        (by rw [hCca]; exact g1)
    obtain ⟨ed1, ad1⟩ := fd1 Deployment.templateLabels (fun _ _ => rfl)
    obtain ⟨d2, hd2, id2, _, _, pd2, fd2⟩ :=
      LabelsCF.slot_patched Deployment.templateLabels (fun d l => { d with templateLabels := l })
        (fun _ _ => rfl) C.targetDeploymentPodLabels C.updateDeploymentPod d1 cd1
        (by rw [ad1]; exact a2) (by rw [hCt, id1, ed1]; exact g2)
    obtain ⟨ed2, _⟩ := fd2 Deployment.labels (fun _ _ => rfl)
    obtain ⟨s', hs', _, _, _, ps, _⟩ :=
      LabelsCF.slot_patched Service.labels (fun d l => { d with labels := l })
        (fun _ _ => rfl) C.caLabels C.updateService cache.service c3 a3
        (by rw [hCca]; exact g3)
    obtain ⟨i', hi', _, _, _, pi, _⟩ :=
      LabelsCF.slot_patched Ingress.labels (fun d l => { d with labels := l })
        (fun _ _ => rfl) C.caLabels C.updateIngress cache.ingress c5 a4
        (by rw [hCca]; exact g4)
    obtain ⟨b', hb', _, _, _, pb, _⟩ :=
      LabelsCF.slot_patched PodDisruptionBudget.labels (fun d l => { d with labels := l })
        (fun _ _ => rfl) C.caLabels C.updatePdbV1beta1 cache.pdbV1beta1 c6 a5
        (by rw [hCca]; exact g5)
    obtain ⟨v', hv', _, _, _, pv, _⟩ :=
      LabelsCF.slot_patched PodDisruptionBudget.labels (fun d l => { d with labels := l })
        (fun _ _ => rfl) C.caLabels C.updatePdbV1 cache.pdbV1 c7 a6
        (by rw [hCca]; exact g6)
    have hflush : (LabelsCF.Respond C cache).flush =
        .ok { spec := cache.spec, deployment := d2, service := s',
              networkPolicy := cache.networkPolicy, ingress := i', pdbV1beta1 := b',
              pdbV1 := v' } := by
      unfold ResourceCache.flush LabelsCF.Respond
      simp only [flushSlot_clean _ c1, flushSlot_clean _ c4,
        LabelsCF.flushSlot_two _ _ _ _ _ c2, Except.bind]
      have e1 : flushSlot (LabelsCF.Respond.applyIf C.updateDeployment
          (LabelsCF.Respond.deploymentPatch C) cache.deployment) = .ok d1 := hd1
      have e2 : flushSlot (LabelsCF.Respond.applyIf C.updateDeploymentPod
          (LabelsCF.Respond.deploymentPodPatch C) d1) = .ok d2 := hd2
      have e3 : flushSlot (LabelsCF.Respond.applyIf C.updateService
          (LabelsCF.Respond.servicePatch C) cache.service) = .ok s' := hs'
      have e4 : flushSlot (LabelsCF.Respond.applyIf C.updateIngress
          (LabelsCF.Respond.ingressPatch C) cache.ingress) = .ok i' := hi'
      have e5 : flushSlot (LabelsCF.Respond.applyIf C.updatePdbV1beta1
          (LabelsCF.Respond.pdbPatch C) cache.pdbV1beta1) = .ok b' := hb'
      have e6 : flushSlot (LabelsCF.Respond.applyIf C.updatePdbV1
          (LabelsCF.Respond.pdbPatch C) cache.pdbV1) = .ok v' := hv'
      simp only [e1, e2, e3, e4, e5, e6]
    refine ⟨C, ResourceCache.mk cache.spec d2 s' cache.networkPolicy i' b' v', ?_, ?_⟩
    · unfold LabelsCF.tick
      rw [hCmp, hr]
      simp only [hflush]
    · refine LabelsCF.Compare_false_of_not_pending factoryLabels cache _ this C T hT rfl
        hCadd ?_
      rw [hCca] at pd1 ps pi pb pv
      rw [hCt, id2] at pd2
      simp only [LabelsCF.pending, id2, ed2, pd1, pd2, ps, pi, pb, pv, Bool.or_self]

/-! ## Theorems: `HttpsCF.Compare` -/

/-- The value that `Compare` returns, as a disjunction over the fields it leaves. -/
theorem HttpsCF.Compare_snd_iff (this : HttpsCF) :
    (HttpsCF.Compare this).2 = true ↔
      ((HttpsCF.Compare this).1.targetSecretName ≠ (HttpsCF.Compare this).1.previousSecretName ∨
       (HttpsCF.Compare this).1.httpsEnabled ≠ (HttpsCF.Compare this).1.serviceHttpsPortExists ∨
       (HttpsCF.Compare this).1.httpsEnabled ≠ (HttpsCF.Compare this).1.secretVolumeExists ∨
       (HttpsCF.Compare this).1.httpsEnabled ≠ (HttpsCF.Compare this).1.secretVolumeMountExists ∨
       (HttpsCF.Compare this).1.httpsEnabled ≠ (HttpsCF.Compare this).1.containerHttpsPortExists ∨
       (HttpsCF.Compare this).1.httpsEnabled ≠ (HttpsCF.Compare this).1.javaOptionsExists ∨
       ((HttpsCF.Compare this).1.networkPolicyExists = true ∧
         (HttpsCF.Compare this).1.httpsEnabled ≠
           (HttpsCF.Compare this).1.networkPolicyHttpsPortExists) ∨
       (HttpsCF.Compare this).1.effectiveHttp ≠ (HttpsCF.Compare this).1.serviceHttpPortExists ∨
       (HttpsCF.Compare this).1.effectiveHttp ≠ (HttpsCF.Compare this).1.containerHttpPortExists ∨
       ((HttpsCF.Compare this).1.networkPolicyExists = true ∧
         (HttpsCF.Compare this).1.effectiveHttp ≠
           (HttpsCF.Compare this).1.networkPolicyHttpPortExists)) := by
  simp only [HttpsCF.Compare, HttpsCF.effectiveHttp, Bool.or_eq_true, Bool.and_eq_true,
    bne_iff_ne, ne_eq, or_assoc]

/-- C1: `Compare` sets `httpsEnabled` to `targetSecretName != "" && secretExists`, changes
no other field, and returns true exactly when the secret name differs from the previous
one, or `httpsEnabled` differs from one of the five HTTPS facets, or the network policy
exists and differs on its HTTPS facet, or the effective-HTTP value differs from the service
or container HTTP facet, or the network policy exists and differs on its HTTP facet. -/
theorem HttpsCF.Compare_characterisation (this : HttpsCF) :
    (HttpsCF.Compare this).1 =
      { this with httpsEnabled := (this.targetSecretName != "" && this.secretExists) } ∧
    ((HttpsCF.Compare this).2 = true ↔
      ((HttpsCF.Compare this).1.targetSecretName ≠ (HttpsCF.Compare this).1.previousSecretName ∨
       (HttpsCF.Compare this).1.httpsEnabled ≠ (HttpsCF.Compare this).1.serviceHttpsPortExists ∨
       (HttpsCF.Compare this).1.httpsEnabled ≠ (HttpsCF.Compare this).1.secretVolumeExists ∨
       (HttpsCF.Compare this).1.httpsEnabled ≠ (HttpsCF.Compare this).1.secretVolumeMountExists ∨
       (HttpsCF.Compare this).1.httpsEnabled ≠ (HttpsCF.Compare this).1.containerHttpsPortExists ∨
       (HttpsCF.Compare this).1.httpsEnabled ≠ (HttpsCF.Compare this).1.javaOptionsExists ∨
       ((HttpsCF.Compare this).1.networkPolicyExists = true ∧
         (HttpsCF.Compare this).1.httpsEnabled ≠
           (HttpsCF.Compare this).1.networkPolicyHttpsPortExists) ∨
       (HttpsCF.Compare this).1.effectiveHttp ≠ (HttpsCF.Compare this).1.serviceHttpPortExists ∨
       (HttpsCF.Compare this).1.effectiveHttp ≠ (HttpsCF.Compare this).1.containerHttpPortExists ∨
       ((HttpsCF.Compare this).1.networkPolicyExists = true ∧
         (HttpsCF.Compare this).1.effectiveHttp ≠
           (HttpsCF.Compare this).1.networkPolicyHttpPortExists))) := by
  constructor
  · rfl
  · exact HttpsCF.Compare_snd_iff this

/-- C6, as amended: when `Compare` returns false, the service HTTPS port, the secret
volume, the secret volume mount, the container HTTPS port and the launch options equal
`httpsEnabled`, the service and container HTTP ports equal the effective-HTTP value, and
the two network-policy facets equal them when the network policy exists. -/
theorem HttpsCF.Compare_false_facets (this : HttpsCF) (h : (HttpsCF.Compare this).2 = false) :
    (HttpsCF.Compare this).1.serviceHttpsPortExists = (HttpsCF.Compare this).1.httpsEnabled ∧
    (HttpsCF.Compare this).1.secretVolumeExists = (HttpsCF.Compare this).1.httpsEnabled ∧
    (HttpsCF.Compare this).1.secretVolumeMountExists = (HttpsCF.Compare this).1.httpsEnabled ∧
    (HttpsCF.Compare this).1.containerHttpsPortExists = (HttpsCF.Compare this).1.httpsEnabled ∧
    (HttpsCF.Compare this).1.javaOptionsExists = (HttpsCF.Compare this).1.httpsEnabled ∧
    (HttpsCF.Compare this).1.serviceHttpPortExists = (HttpsCF.Compare this).1.effectiveHttp ∧
    (HttpsCF.Compare this).1.containerHttpPortExists = (HttpsCF.Compare this).1.effectiveHttp ∧
    ((HttpsCF.Compare this).1.networkPolicyExists = true →
      (HttpsCF.Compare this).1.networkPolicyHttpsPortExists =
          (HttpsCF.Compare this).1.httpsEnabled ∧
        (HttpsCF.Compare this).1.networkPolicyHttpPortExists =
          (HttpsCF.Compare this).1.effectiveHttp) := by
  have hc := HttpsCF.Compare_snd_iff this
  have hn : ¬ ((HttpsCF.Compare this).2 = true) := by simp [h]
  rw [hc] at hn
  simp only [not_or, not_and, ne_eq, not_not] at hn
  obtain ⟨_, h1, h2, h3, h4, h5, h6, h7, h8, h9⟩ := hn
  exact ⟨h1.symm, h2.symm, h3.symm, h4.symm, h5.symm, h7.symm, h8.symm,
    fun hp => ⟨(h6 hp).symm, (h9 hp).symm⟩⟩

/-! ## Theorems: `HttpsCF.Sense` -/

theorem NetworkPolicyPort.isTcp_of_readable (port : NetworkPolicyPort) (n : Int)
    (h : port.readable = true) : port.isTcp n = .ok (port.isTcpPort n) := by
  obtain ⟨protocol, p⟩ := port
  cases protocol with
  | none => simp [NetworkPolicyPort.readable] at h
  | some pr =>
    by_cases hp : pr = "TCP"
    · subst hp
      cases p with
      | none => simp [NetworkPolicyPort.readable] at h
      | some v => simp [NetworkPolicyPort.isTcp, NetworkPolicyPort.isTcpPort]
    · simp [NetworkPolicyPort.isTcp, NetworkPolicyPort.isTcpPort, hp]

theorem NetworkPolicyPort.isTcp_of_not_readable (port : NetworkPolicyPort) (n : Int)
    (h : port.readable = false) : port.isTcp n = .error .nilDereference := by
  obtain ⟨protocol, p⟩ := port
  cases protocol with
  | none => rfl
  | some pr =>
    by_cases hp : pr = "TCP"
    · subst hp
      cases p with
      | none => rfl
      | some v => simp [NetworkPolicyPort.readable] at h
    · simp [NetworkPolicyPort.readable, hp] at h

theorem scanPorts_of_readable (ports : List NetworkPolicyPort) (flags : Bool × Bool)
    (h : ports.all NetworkPolicyPort.readable = true) :
    scanPorts ports flags =
      .ok (flags.1 || ports.any (fun port => port.isTcpPort HttpsPort),
           flags.2 || ports.any (fun port => port.isTcpPort HttpPort)) := by
  induction ports generalizing flags with
  | nil => simp [scanPorts]
  | cons port rest ih =>
    simp only [List.all_cons, Bool.and_eq_true] at h
    simp only [scanPorts, NetworkPolicyPort.isTcp_of_readable port _ h.1, ih _ h.2,
      List.any_cons, Bool.or_assoc]

theorem scanRules_of_readable (rules : List NetworkPolicyIngressRule) (flags : Bool × Bool)
    (h : rules.all (fun rule => rule.ports.all NetworkPolicyPort.readable) = true) :
    scanRules rules flags =
      .ok (flags.1 || rules.any (fun rule => rule.ports.any fun port => port.isTcpPort HttpsPort),
           flags.2 || rules.any (fun rule => rule.ports.any fun port => port.isTcpPort HttpPort)) := by
  induction rules generalizing flags with
  | nil => simp [scanRules]
  | cons rule rest ih =>
    simp only [List.all_cons, Bool.and_eq_true] at h
    simp only [scanRules, scanPorts_of_readable rule.ports _ h.1, ih _ h.2,
      List.any_cons, Bool.or_assoc]

/-- On a readable policy Observation #6 finds the ports that the policy allows. -/
theorem NetworkPolicy.tcpFacets_of_readable (policy : NetworkPolicy)
    (h : policy.readable = true) :
    policy.tcpFacets = .ok (policy.allows HttpsPort, policy.allows HttpPort) := by
  unfold NetworkPolicy.tcpFacets
  rw [scanRules_of_readable policy.ingress _ h]
  simp [NetworkPolicy.allows]

theorem targetJavaOptionsLiteral_entries :
    targetJavaOptionsLiteral.entries =
      [⟨"-Dquarkus.http.ssl.certificate.file", "/certs/tls.crt"⟩,
       ⟨"-Dquarkus.http.ssl.certificate.key-file", "/certs/tls.key"⟩] := by
  decide

/-- The loop of Observation #5, in either visiting order, finds whether both target keys
have their expected values. -/
theorem HttpsCF.Sense.javaOptionsLoop_eq (flip : Bool) (javaOptions : StrMap) :
    HttpsCF.Sense.javaOptionsLoop (some javaOptions) (visit flip targetJavaOptionsLiteral) true =
      hasTargetJavaOptions javaOptions := by
  have hidx : ∀ k v : String,
      ((GoMap.index (some javaOptions) k).2 && v == (GoMap.index (some javaOptions) k).1) =
        (javaOptions.lookup k == some v) := by
    intro k v
    rw [GoMap.index_fst, GoMap.index_snd]
    simp only [GoMap.get?]
    cases javaOptions.lookup k with
    | none => simp
    | some w =>
      simp only [Option.isSome_some, Bool.true_and, Option.getD_some]
      by_cases hw : v = w
      · subst hw; simp
      · have : ¬ w = v := fun h => hw h.symm
        simp [hw, this]
  cases flip <;>
    simp only [visit, targetJavaOptionsLiteral_entries, List.reverse_cons, List.reverse_nil,
      List.nil_append, List.cons_append, HttpsCF.Sense.javaOptionsLoop, Bool.true_and,
      Bool.and_assoc, hidx, hasTargetJavaOptions, ↓reduceIte, Bool.false_eq_true]
  exact Bool.and_comm _ _

/-- Observation #2, in terms of the declared secret name. -/
theorem HttpsCF.Sense.observation2_eq (kube : Kube) (ctx : LoopContext) (this : HttpsCF) :
    HttpsCF.Sense.observation2 kube ctx this =
      ({ this with
          secretExists := this.targetSecretName != "" && secretUsable kube this.targetSecretName },
       { ctx with effects := ctx.effects ++ secretEffects kube this.targetSecretName }) := by
  unfold HttpsCF.Sense.observation2 secretEffects secretUsable HttpsCF.Sense.secretFailure
  by_cases hn : this.targetSecretName = ""
  · simp [hn]
  · have hne : (this.targetSecretName != "") = true := by simpa [bne_iff_ne] using hn
    simp only [hne, ↓reduceIte, Bool.true_and]
    cases hk : kube this.targetSecretName with
    | none => simp
    | some secret =>
      by_cases h1 : SecretHasField secret "tls.crt" = true <;>
        by_cases h2 : SecretHasField secret "tls.key" = true <;>
        simp [h1, h2]

/-- Observation #6 on a cache whose network policy, if any, is readable. -/
theorem HttpsCF.Sense.observation6_eq (cache : ResourceCache) (this : HttpsCF)
    (h : cache.readable = true) :
    HttpsCF.Sense.observation6 cache this =
      .ok { this with
        networkPolicyExists := cache.networkPolicy.isSome
        networkPolicyHttpsPortExists := cache.policyAllows HttpsPort
        networkPolicyHttpPortExists := cache.policyAllows HttpPort } := by
  simp only [ResourceCache.readable, ResourceCache.deploymentReadable,
    ResourceCache.policyReadable, Bool.and_eq_true] at h
  unfold HttpsCF.Sense.observation6 ResourceCache.policyAllows
  cases hnp : cache.networkPolicy with
  | none => rfl
  | some entry =>
    have hp : entry.value.readable = true := by simpa [hnp] using h.2
    simp only [ResourceCacheEntry.GetValue, NetworkPolicy.tcpFacets_of_readable entry.value hp,
      Option.isSome_some]

/-- Observation #4 on a cache whose deployment, if any, has a first container. -/
theorem HttpsCF.Sense.observation4_eq (cache : ResourceCache) (this : HttpsCF)
    (h : cache.readable = true) :
    HttpsCF.Sense.observation4 cache this =
      .ok { this with
        secretVolumeExists :=
          this.targetSecretName != "" && cache.hasVolume this.targetSecretName
        secretVolumeMountExists :=
          this.targetSecretName != "" && cache.hasVolumeMount this.targetSecretName
        containerHttpsPortExists := cache.containerHasPort HttpsPort
        containerHttpPortExists := cache.containerHasPort HttpPort } := by
  simp only [ResourceCache.readable, ResourceCache.deploymentReadable,
    ResourceCache.policyReadable, Bool.and_eq_true] at h
  unfold HttpsCF.Sense.observation4 ResourceCache.hasVolume ResourceCache.hasVolumeMount
    ResourceCache.containerHasPort ResourceCache.firstContainer
  cases hd : cache.deployment with
  | none => simp
  | some entry =>
    have hc : entry.value.containers.isEmpty = false := by simpa [hd] using h.1
    cases hcs : entry.value.containers with
    | nil => simp [hcs] at hc
    | cons container0 rest =>
      by_cases hn : this.targetSecretName = "" <;>
        simp [ResourceCacheEntry.GetValue, hcs, hn]

/-- Observation #3, in terms of the cache. -/
theorem HttpsCF.Sense.observation3_eq (cache : ResourceCache) (this : HttpsCF) :
    HttpsCF.Sense.observation3 cache this =
      { this with
        serviceHttpsPortExists := cache.serviceHasPort HttpsPort
        serviceHttpPortExists := cache.serviceHasPort HttpPort } := by
  unfold HttpsCF.Sense.observation3 ResourceCache.serviceHasPort
  cases cache.service <;> rfl

/-- Observation #1, in terms of the cache. -/
theorem HttpsCF.Sense.observation1_eq (cache : ResourceCache) (this : HttpsCF) :
    HttpsCF.Sense.observation1 cache this =
      { this with
        targetSecretName := cache.declaredSecretName
        httpEnabled := cache.declaredHttpEnabled } := by
  unfold HttpsCF.Sense.observation1 ResourceCache.declaredSecretName
    ResourceCache.declaredHttpEnabled
  cases cache.spec <;> rfl

/-- On a readable cache `Sense` returns: the receiver holds what the cache, the secret and
the launch options show, and the loop context has recorded the calls of Observation #2. -/
theorem HttpsCF.Sense_eq (kube : Kube) (flip : Bool) (ctx : LoopContext) (this : HttpsCF)
    (h : ctx.resourceCache.readable = true) :
    HttpsCF.Sense kube flip ctx this =
      .ok (HttpsCF.observed kube ctx this,
           { ctx with
             effects := ctx.effects ++ secretEffects kube ctx.resourceCache.declaredSecretName }) := by
  simp only [HttpsCF.Sense, HttpsCF.Sense.observation1_eq, HttpsCF.Sense.observation2_eq,
    HttpsCF.Sense.observation3_eq, HttpsCF.Sense.observation4_eq _ _ h,
    HttpsCF.Sense.observation5, HttpsCF.Sense.javaOptionsLoop_eq, ParseJavaOptionsMap,
    HttpsCF.Sense.observation6_eq _ _ h, HttpsCF.observed]

theorem scanPorts_of_not_readable (ports : List NetworkPolicyPort) (flags : Bool × Bool)
    (h : ports.all NetworkPolicyPort.readable = false) :
    scanPorts ports flags = .error .nilDereference := by
  induction ports generalizing flags with
  | nil => simp at h
  | cons port rest ih =>
    cases hp : port.readable with
    | false => simp only [scanPorts, NetworkPolicyPort.isTcp_of_not_readable port _ hp]
    | true =>
      have hrest : rest.all NetworkPolicyPort.readable = false := by
        simpa [List.all_cons, hp] using h
      simp only [scanPorts, NetworkPolicyPort.isTcp_of_readable port _ hp, ih _ hrest]

theorem scanRules_of_not_readable (rules : List NetworkPolicyIngressRule) (flags : Bool × Bool)
    (h : rules.all (fun rule => rule.ports.all NetworkPolicyPort.readable) = false) :
    scanRules rules flags = .error .nilDereference := by
  induction rules generalizing flags with
  | nil => simp at h
  | cons rule rest ih =>
    cases hp : rule.ports.all NetworkPolicyPort.readable with
    | false => simp only [scanRules, scanPorts_of_not_readable rule.ports _ hp]
    | true =>
      have hrest : rest.all (fun rule => rule.ports.all NetworkPolicyPort.readable) = false := by
        simpa [List.all_cons, hp] using h
      simp only [scanRules, scanPorts_of_readable rule.ports _ hp, ih _ hrest]

/-- On a cache that is not readable `Sense` panics: with an index out of range on a cached
deployment without containers, else with a nil dereference on a port of the cached network
policy. -/
theorem HttpsCF.Sense_panics (kube : Kube) (flip : Bool) (ctx : LoopContext) (this : HttpsCF)
    (h : ctx.resourceCache.readable = false) :
    HttpsCF.Sense kube flip ctx this =
      .error (if ctx.resourceCache.deploymentReadable then .nilDereference
              else .indexOutOfRange) := by
  cases hd : ctx.resourceCache.deploymentReadable with
  | false =>
    have h4 : ∀ t, HttpsCF.Sense.observation4 ctx.resourceCache t = .error .indexOutOfRange := by
      intro t
      unfold ResourceCache.deploymentReadable at hd
      unfold HttpsCF.Sense.observation4
      cases hde : ctx.resourceCache.deployment with
      | none => simp [hde] at hd
      | some entry =>
        cases hcs : entry.value.containers with
        | nil => simp [ResourceCacheEntry.GetValue, hcs]
        | cons c cs => simp [hde, hcs] at hd
    simp only [HttpsCF.Sense, HttpsCF.Sense.observation2_eq, h4, Bool.false_eq_true, ↓reduceIte]
  | true =>
    have hp : ctx.resourceCache.policyReadable = false := by
      simpa [ResourceCache.readable, hd] using h
    have h4 : ∀ t, ∃ t', HttpsCF.Sense.observation4 ctx.resourceCache t = .ok t' := by
      intro t
      unfold ResourceCache.deploymentReadable at hd
      unfold HttpsCF.Sense.observation4
      cases hde : ctx.resourceCache.deployment with
      | none => exact ⟨_, rfl⟩
      | some entry =>
        cases hcs : entry.value.containers with
        | nil => simp [hde, hcs] at hd
        | cons c cs => simp [ResourceCacheEntry.GetValue, hcs]
    have h6 : ∀ t, HttpsCF.Sense.observation6 ctx.resourceCache t = .error .nilDereference := by
      intro t
      unfold ResourceCache.policyReadable at hp
      unfold HttpsCF.Sense.observation6
      cases hnp : ctx.resourceCache.networkPolicy with
      | none => simp [hnp] at hp
      | some entry =>
        have hr : entry.value.readable = false := by simpa [hnp] using hp
        unfold NetworkPolicy.readable at hr
        simp only [ResourceCacheEntry.GetValue, NetworkPolicy.tcpFacets,
          scanRules_of_not_readable _ _ hr]
    simp only [HttpsCF.Sense, HttpsCF.Sense.observation2_eq, ↓reduceIte]
    obtain ⟨t', ht'⟩ := h4 (HttpsCF.Sense.observation3 ctx.resourceCache
      { HttpsCF.Sense.observation1 ctx.resourceCache this with
        secretExists :=
          (HttpsCF.Sense.observation1 ctx.resourceCache this).targetSecretName != "" &&
            secretUsable kube
              (HttpsCF.Sense.observation1 ctx.resourceCache this).targetSecretName })
    simp only [ht', h6]

/-- C9: when `Sense` returns (the cache is readable), `targetSecretName` is the declared
secret name.  For a non-empty name `secretExists` is true exactly when the fetch succeeds
and the secret has both the `tls.crt` and the `tls.key` field, and then the fetch is the
only call made; otherwise `secretExists` is false, the fetch is followed by the
configuration-error condition marked invalid for that name, the ready condition set to
error and the requeue delay set to 10 seconds, and `Compare` derives `httpsEnabled = false`.
For the empty name `secretExists` is false and no call is made. -/
theorem HttpsCF.Sense_secret (kube : Kube) (flip : Bool) (ctx : LoopContext) (this : HttpsCF)
    (h : ctx.resourceCache.readable = true) :
    ∃ this' ctx', HttpsCF.Sense kube flip ctx this = .ok (this', ctx') ∧
      this'.targetSecretName = ctx.resourceCache.declaredSecretName ∧
      (this'.targetSecretName ≠ "" →
        (this'.secretExists = true ↔
          ∃ secret, kube this'.targetSecretName = some secret ∧
            SecretHasField secret "tls.crt" = true ∧ SecretHasField secret "tls.key" = true) ∧
        (this'.secretExists = true →
          ctx'.effects = ctx.effects ++ [.getSecret this'.targetSecretName]) ∧
        (this'.secretExists = false →
          ctx'.effects = ctx.effects ++
            [.getSecret this'.targetSecretName,
             .transitionInvalid this'.targetSecretName
               "spec.configuration.security.https.secretName",
             .transitionError,
             .setRequeueDelaySec 10] ∧
          (HttpsCF.Compare this').1.httpsEnabled = false)) ∧
      (this'.targetSecretName = "" → this'.secretExists = false ∧ ctx'.effects = ctx.effects) := by
  refine ⟨_, _, HttpsCF.Sense_eq kube flip ctx this h, rfl, fun hne => ?_, fun he => ?_⟩
  · simp only [HttpsCF.observed] at hne
    have hb : (ctx.resourceCache.declaredSecretName != "") = true := by
      simpa [bne_iff_ne] using hne
    simp only [HttpsCF.observed, hb, Bool.true_and, secretEffects, ↓reduceIte,
      HttpsCF.Compare]
    refine ⟨?_, fun hu => ?_, fun hu => ?_⟩
    · unfold secretUsable
      cases kube ctx.resourceCache.declaredSecretName with
      | none => simp
      | some secret => simp
    · simp [hu]
    · simp [hu]
  · simp only [HttpsCF.observed] at he
    simp [HttpsCF.observed, secretEffects, he]

/-- C10: when `Sense` returns, `javaOptions` holds the parsed launch options, and
`javaOptionsExists` is true exactly when that map has the certificate-file key with the
value `/certs/tls.crt` and the key-file key with the value `/certs/tls.key`, in whichever
order (`flip`) the loop visits the two target keys. -/
theorem HttpsCF.Sense_javaOptionsExists (kube : Kube) (flip : Bool) (ctx : LoopContext)
    (this : HttpsCF) (h : ctx.resourceCache.readable = true) :
    ∃ this' ctx', HttpsCF.Sense kube flip ctx this = .ok (this', ctx') ∧
      this'.javaOptions = ParseJavaOptionsMap ctx ∧
      (this'.javaOptionsExists = true ↔
        (this'.javaOptions.lookup "-Dquarkus.http.ssl.certificate.file" = some "/certs/tls.crt" ∧
         this'.javaOptions.lookup "-Dquarkus.http.ssl.certificate.key-file" =
           some "/certs/tls.key")) := by
  refine ⟨_, _, HttpsCF.Sense_eq kube flip ctx this h, rfl, ?_⟩
  simp [HttpsCF.observed, hasTargetJavaOptions]

/-! ## Theorems: the patches of `HttpsCF.Respond` -/

theorem Deployment.edit_ite (name : String) (labels templateLabels : GoMap)
    (volumes : List Volume) (c : Container) (cs : List Container) (b : Bool)
    (f : Container → Container) :
    (if b = true then
        (Deployment.mk name labels templateLabels volumes (c :: cs)).editFirstContainer f
      else Deployment.mk name labels templateLabels volumes (c :: cs)) =
      Deployment.mk name labels templateLabels volumes ((if b = true then f c else c) :: cs) := by
  cases b <;> rfl

/-- The six edits made through the pointer to the first container amount to the mount edits
followed by the port edits on that container. -/
theorem HttpsCF.Respond.containerEdits_eq (H : Common) (this : HttpsCF) (X : Deployment)
    (c0 : Container) (cs : List Container) (hX : X.containers = c0 :: cs) :
    (let volumeMount : VolumeMount :=
        { name := this.targetSecretName, mountPath := TlsCertMountPath, readOnly := true }
      let httpsPort : ContainerPort := { containerPort := HttpsPort }
      let httpPort : ContainerPort := { containerPort := HttpPort }
      let deployment := X
      let deployment :=
        if this.httpsEnabled && !this.secretVolumeMountExists then
          deployment.editFirstContainer fun c => H.AddVolumeMountToContainer c volumeMount
        else deployment
      let deployment :=
        if !this.httpsEnabled && this.secretVolumeMountExists then
          deployment.editFirstContainer fun c => H.RemoveVolumeMountFromContainer c volumeMount
        else deployment
      let deployment :=
        if this.httpsEnabled && !this.containerHttpsPortExists then
          deployment.editFirstContainer fun c => H.AddPortToContainer c httpsPort
        else deployment
      let deployment :=
        if !this.httpsEnabled && this.containerHttpsPortExists then
          deployment.editFirstContainer fun c => H.RemovePortFromContainer c httpsPort
        else deployment
      let deployment :=
        if (!this.httpsEnabled || this.httpEnabled) && !this.containerHttpPortExists then
          deployment.editFirstContainer fun c => H.AddPortToContainer c httpPort
        else deployment
      let deployment :=
        if this.httpsEnabled && !this.httpEnabled && this.containerHttpPortExists then
          deployment.editFirstContainer fun c => H.RemovePortFromContainer c httpPort
        else deployment
      deployment) =
      { X with
        containers :=
          HttpsCF.Respond.editPorts H this (HttpsCF.Respond.editMounts H this c0) :: cs } := by
  obtain ⟨name, labels, templateLabels, volumes, containers⟩ := X
  simp only at hX
  subst hX
  simp only [HttpsCF.Respond.editPorts, HttpsCF.Respond.editMounts, Deployment.edit_ite]

/-- The deployment patch of `Respond` returns on a deployment with a first container: it
edits the volumes, then the mounts and the ports of the first container. -/
theorem HttpsCF.Respond.deploymentPatch_eq (H : Common) (hH : H.Lawful) (this : HttpsCF)
    (d : Deployment) (c0 : Container) (cs : List Container) (hc : d.containers = c0 :: cs) :
    HttpsCF.Respond.deploymentPatch H this d =
      .ok { HttpsCF.Respond.editVolumes H this d with
            containers :=
              HttpsCF.Respond.editPorts H this (HttpsCF.Respond.editMounts H this c0) :: cs } := by
  have hv : (HttpsCF.Respond.editVolumes H this d).containers = c0 :: cs := by
    unfold HttpsCF.Respond.editVolumes
    simp only
    split_ifs <;>
      simp [hH.setVolume_containers, hH.removeVolume_containers, hc]
  unfold HttpsCF.Respond.deploymentPatch
  simp only [hc]
  exact congrArg Except.ok
    (HttpsCF.Respond.containerEdits_eq H this (HttpsCF.Respond.editVolumes H this d) c0 cs hv)

theorem HttpPort_ne_HttpsPort : HttpPort ≠ HttpsPort := by decide

theorem HttpsPort_ne_HttpPort : HttpsPort ≠ HttpPort := by decide

/-- After the volume edits `Sense` finds the secret volume exactly when HTTPS is enabled. -/
theorem HttpsCF.Respond.editVolumes_converges (H : Common) (hH : H.Lawful) (this : HttpsCF)
    (d : Deployment) (hs : this.secretVolumeExists = d.hasVolume this.targetSecretName) :
    (HttpsCF.Respond.editVolumes H this d).hasVolume this.targetSecretName =
      this.httpsEnabled := by
  unfold HttpsCF.Respond.editVolumes
  cases he : this.httpsEnabled <;> cases hsv : this.secretVolumeExists <;>
    simp [hH.setVolume_hasVolume, hH.removeVolume_hasVolume, ← hs, hsv]

/-- The volume edits leave the volumes of every other name as `Sense` would find them. -/
theorem HttpsCF.Respond.editVolumes_other (H : Common) (hH : H.Lawful) (this : HttpsCF)
    (d : Deployment) (n : String) (hn : n ≠ this.targetSecretName) :
    (HttpsCF.Respond.editVolumes H this d).hasVolume n = d.hasVolume n := by
  unfold HttpsCF.Respond.editVolumes
  cases this.httpsEnabled <;> cases this.secretVolumeExists <;>
    simp [hH.setVolume_hasVolume, hH.removeVolume_hasVolume, hn]

theorem HttpsCF.Respond.editMounts_ports (H : Common) (hH : H.Lawful) (this : HttpsCF)
    (c : Container) : (HttpsCF.Respond.editMounts H this c).ports = c.ports := by
  unfold HttpsCF.Respond.editMounts
  simp only
  split_ifs <;> simp [hH.addMount_ports, hH.removeMount_ports]

theorem HttpsCF.Respond.editPorts_volumeMounts (H : Common) (hH : H.Lawful) (this : HttpsCF)
    (c : Container) : (HttpsCF.Respond.editPorts H this c).volumeMounts = c.volumeMounts := by
  unfold HttpsCF.Respond.editPorts
  simp only
  split_ifs <;> simp [hH.addPort_volumeMounts, hH.removePort_volumeMounts]

/-- After the mount edits `Sense` finds the secret mount exactly when HTTPS is enabled. -/
theorem HttpsCF.Respond.editMounts_converges (H : Common) (hH : H.Lawful) (this : HttpsCF)
    (c : Container) (hs : this.secretVolumeMountExists = c.hasVolumeMount this.targetSecretName) :
    (HttpsCF.Respond.editMounts H this c).hasVolumeMount this.targetSecretName =
      this.httpsEnabled := by
  unfold HttpsCF.Respond.editMounts
  cases he : this.httpsEnabled <;> cases hsv : this.secretVolumeMountExists <;>
    simp [hH.addMount_hasVolumeMount, hH.removeMount_hasVolumeMount, ← hs, hsv]

/-- The mount edits leave the mounts of every other name as `Sense` would find them. -/
theorem HttpsCF.Respond.editMounts_other (H : Common) (hH : H.Lawful) (this : HttpsCF)
    (c : Container) (n : String) (hn : n ≠ this.targetSecretName) :
    (HttpsCF.Respond.editMounts H this c).hasVolumeMount n = c.hasVolumeMount n := by
  unfold HttpsCF.Respond.editMounts
  cases this.httpsEnabled <;> cases this.secretVolumeMountExists <;>
    simp [hH.addMount_hasVolumeMount, hH.removeMount_hasVolumeMount, hn]

/-- After the port edits `Sense` finds the container HTTPS port exactly when HTTPS is
enabled. -/
theorem HttpsCF.Respond.editPorts_https (H : Common) (hH : H.Lawful) (this : HttpsCF)
    (c : Container) (hs : this.containerHttpsPortExists = c.hasPort HttpsPort) :
    (HttpsCF.Respond.editPorts H this c).hasPort HttpsPort = this.httpsEnabled := by
  unfold HttpsCF.Respond.editPorts
  cases he : this.httpsEnabled <;> cases hsv : this.containerHttpsPortExists <;>
    cases this.httpEnabled <;> cases this.containerHttpPortExists <;>
    simp [hH.addPort_hasPort, hH.removePort_hasPort, ← hs, hsv, HttpsPort_ne_HttpPort]

/-- After the port edits `Sense` finds the container HTTP port exactly when HTTP is
effective. -/
theorem HttpsCF.Respond.editPorts_http (H : Common) (hH : H.Lawful) (this : HttpsCF)
    (c : Container) (hs : this.containerHttpPortExists = c.hasPort HttpPort) :
    (HttpsCF.Respond.editPorts H this c).hasPort HttpPort = this.effectiveHttp := by
  unfold HttpsCF.Respond.editPorts HttpsCF.effectiveHttp
  cases he : this.httpsEnabled <;> cases this.containerHttpsPortExists <;>
    cases hh : this.httpEnabled <;> cases hsv : this.containerHttpPortExists <;>
    simp [hH.addPort_hasPort, hH.removePort_hasPort, ← hs, hsv, HttpPort_ne_HttpsPort]

/-- The service patch of `Respond` returns, and `Sense` then finds the service ports as
`httpsEnabled` and the effective-HTTP value require. -/
theorem HttpsCF.Respond.servicePatch_converges (H : Common) (hH : H.Lawful) (this : HttpsCF)
    (s : Service) (h1 : this.serviceHttpsPortExists = s.hasPort HttpsPort)
    (h2 : this.serviceHttpPortExists = s.hasPort HttpPort) :
    ∃ s', HttpsCF.Respond.servicePatch H this s = .ok s' ∧
      s'.hasPort HttpsPort = this.httpsEnabled ∧ s'.hasPort HttpPort = this.effectiveHttp := by
  refine ⟨_, rfl, ?_, ?_⟩
  · cases he : this.httpsEnabled <;> cases hs1 : this.serviceHttpsPortExists <;>
      cases this.httpEnabled <;> cases this.serviceHttpPortExists <;>
      simp [hH.addServicePort_hasPort, hH.removeServicePort_hasPort, ← h1, hs1,
        HttpsPort_ne_HttpPort]
  · unfold HttpsCF.effectiveHttp
    cases he : this.httpsEnabled <;> cases this.serviceHttpsPortExists <;>
      cases hh : this.httpEnabled <;> cases hs2 : this.serviceHttpPortExists <;>
      simp [hH.addServicePort_hasPort, hH.removeServicePort_hasPort, ← h2, hs2,
        HttpPort_ne_HttpsPort]

/-- The network policy patch of `Respond` returns a readable policy, and `Sense` then finds
its rules as `httpsEnabled` and the effective-HTTP value require. -/
theorem HttpsCF.Respond.networkPolicyPatch_converges (H : Common) (hH : H.Lawful)
    (this : HttpsCF) (policy : NetworkPolicy) (hr : policy.readable = true)
    (h1 : this.networkPolicyHttpsPortExists = policy.allows HttpsPort)
    (h2 : this.networkPolicyHttpPortExists = policy.allows HttpPort) :
    ∃ policy', HttpsCF.Respond.networkPolicyPatch H this policy = .ok policy' ∧
      policy'.readable = true ∧
      policy'.allows HttpsPort = this.httpsEnabled ∧
      policy'.allows HttpPort = this.effectiveHttp := by
  refine ⟨_, rfl, ?_, ?_, ?_⟩
  · have add : ∀ (p : NetworkPolicy) (n : Int) (b : Bool), p.readable = true →
        (if b = true then H.AddRuleToNetworkPolicy p (tcpRule n) else p).readable = true := by
      intro p n b hp
      cases b
      · exact hp
      · exact hH.addRule_readable p n hp
    have remove : ∀ (p : NetworkPolicy) (n : Int) (b : Bool), p.readable = true →
        (if b = true then H.RemoveRuleFromNetworkPolicy p (tcpRule n) else p).readable = true := by
      intro p n b hp
      cases b
      · exact hp
      · exact hH.removeRule_readable p n hp
    exact remove _ _ _ (add _ _ _ (remove _ _ _ (add _ _ _ hr)))
  · cases he : this.httpsEnabled <;> cases hs1 : this.networkPolicyHttpsPortExists <;>
      cases this.httpEnabled <;> cases this.networkPolicyHttpPortExists <;>
      simp [hH.addRule_allows, hH.removeRule_allows, ← h1, hs1, HttpsPort_ne_HttpPort]
  · unfold HttpsCF.effectiveHttp
    cases he : this.httpsEnabled <;> cases this.networkPolicyHttpsPortExists <;>
      cases hh : this.httpEnabled <;> cases hs2 : this.networkPolicyHttpPortExists <;>
      simp [hH.addRule_allows, hH.removeRule_allows, ← h2, hs2, HttpPort_ne_HttpsPort]

/-! ## Theorems: the launch options in `HttpsCF.Respond` -/

theorem hasTargetJavaOptions_eq_true (m : StrMap) :
    hasTargetJavaOptions m = true ↔
      m.lookup "-Dquarkus.http.ssl.certificate.file" = some "/certs/tls.crt" ∧
      m.lookup "-Dquarkus.http.ssl.certificate.key-file" = some "/certs/tls.key" := by
  simp [hasTargetJavaOptions]

theorem targetKeys_ne :
    "-Dquarkus.http.ssl.certificate.file" ≠ "-Dquarkus.http.ssl.certificate.key-file" := by
  decide

/-- After the add loop, in either visiting order, both target options are set. -/
theorem HttpsCF.Respond.addOptions_hasTarget (flip : Bool) (m : StrMap) :
    hasTargetJavaOptions
      (HttpsCF.Respond.addOptions (visit flip targetJavaOptionsLiteral) m) = true := by
  rw [hasTargetJavaOptions_eq_true]
  cases flip
  · simp only [visit, targetJavaOptionsLiteral_entries, Bool.false_eq_true, ↓reduceIte,
      HttpsCF.Respond.addOptions]
    exact ⟨by rw [AList.lookup_insert_ne targetKeys_ne]; exact AList.lookup_insert _,
      AList.lookup_insert _⟩
  · simp only [visit, targetJavaOptionsLiteral_entries, ↓reduceIte, List.reverse_cons,
      List.reverse_nil, List.nil_append, List.cons_append, HttpsCF.Respond.addOptions]
    exact ⟨AList.lookup_insert _,
      by rw [AList.lookup_insert_ne targetKeys_ne.symm]; exact AList.lookup_insert _⟩

/-- After the delete loop, in either visiting order, on a map that has both target options:
something changed, and the target options are gone. -/
theorem HttpsCF.Respond.deleteOptions_hasTarget (flip : Bool) (m : StrMap)
    (h : hasTargetJavaOptions m = true) :
    (HttpsCF.Respond.deleteOptions (visit flip targetJavaOptionsLiteral) (m, false)).2 = true ∧
    hasTargetJavaOptions
      (HttpsCF.Respond.deleteOptions (visit flip targetJavaOptionsLiteral) (m, false)).1 =
        false := by
  obtain ⟨h1, h2⟩ := (hasTargetJavaOptions_eq_true m).1 h
  have hfalse : ∀ m' : StrMap, m'.lookup "-Dquarkus.http.ssl.certificate.file" = none →
      hasTargetJavaOptions m' = false := by
    intro m' hm
    simp [hasTargetJavaOptions, hm]
  cases flip
  · simp only [visit, targetJavaOptionsLiteral_entries, Bool.false_eq_true, ↓reduceIte,
      HttpsCF.Respond.deleteOptions, h1, Option.isSome_some,
      AList.lookup_erase_ne targetKeys_ne.symm, h2, true_and]
    apply hfalse
    rw [AList.lookup_erase_ne targetKeys_ne]
    exact AList.lookup_erase _ _
  · simp only [visit, targetJavaOptionsLiteral_entries, ↓reduceIte, List.reverse_cons,
      List.reverse_nil, List.nil_append, List.cons_append, HttpsCF.Respond.deleteOptions, h2,
      Option.isSome_some, AList.lookup_erase_ne targetKeys_ne, h1, true_and]
    apply hfalse
    exact AList.lookup_erase _ _

/-- The launch-options part of `Respond`, run on what `Sense` stored: it leaves the resource
cache and the recorded calls alone, touches no field but `javaOptions`, and the saved launch
options have the target options exactly when HTTPS is enabled. -/
theorem HttpsCF.Respond.javaOptionsStep_converges (flipAdd flipDelete : Bool) (ctx : LoopContext)
    (this : HttpsCF) (h1 : this.javaOptions = ctx.javaOptions)
    (h2 : this.targetJavaOptions = targetJavaOptionsLiteral)
    (h3 : this.javaOptionsExists = hasTargetJavaOptions ctx.javaOptions) :
    (HttpsCF.Respond.javaOptionsStep flipAdd flipDelete ctx this).2.resourceCache =
        ctx.resourceCache ∧
    (HttpsCF.Respond.javaOptionsStep flipAdd flipDelete ctx this).2.effects = ctx.effects ∧
    hasTargetJavaOptions
        (HttpsCF.Respond.javaOptionsStep flipAdd flipDelete ctx this).2.javaOptions =
      this.httpsEnabled ∧
    (HttpsCF.Respond.javaOptionsStep flipAdd flipDelete ctx this).1 =
      { this with
        javaOptions := (HttpsCF.Respond.javaOptionsStep flipAdd flipDelete ctx this).1.javaOptions } := by
  obtain ⟨httpsEnabled, secretExists, targetSecretName, previousSecretName, nph, javaOptions,
    targetJavaOptions, javaOptionsExists, shs, sv, sm, chs, npe, httpEnabled, shp, chp, nphp⟩ := this
  simp only at h1 h2 h3
  subst h1 h2
  cases httpsEnabled <;> cases javaOptionsExists
  · simp [HttpsCF.Respond.javaOptionsStep, ← h3]
  · have hd := HttpsCF.Respond.deleteOptions_hasTarget flipDelete _ h3.symm
    simp [HttpsCF.Respond.javaOptionsStep, SaveJavaOptionsMap, hd.1, hd.2]
  · have ha := HttpsCF.Respond.addOptions_hasTarget flipAdd ctx.javaOptions
    simp [HttpsCF.Respond.javaOptionsStep, SaveJavaOptionsMap, ha]
  · simp [HttpsCF.Respond.javaOptionsStep, ← h3]

theorem HttpsCF.Respond.javaOptionsStep_frame (flipAdd flipDelete : Bool) (ctx : LoopContext)
    (this : HttpsCF) :
    (HttpsCF.Respond.javaOptionsStep flipAdd flipDelete ctx this).2.resourceCache =
        ctx.resourceCache ∧
    (HttpsCF.Respond.javaOptionsStep flipAdd flipDelete ctx this).1.targetSecretName =
        this.targetSecretName := by
  unfold HttpsCF.Respond.javaOptionsStep
  simp only [SaveJavaOptionsMap]
  split_ifs <;> simp

/-- The method `Compare` returns false when the secret name is the previous one and every facet agrees
with `httpsEnabled` or the effective-HTTP value, the network-policy facets only for a cached
policy. -/
theorem HttpsCF.Compare_eq_false (this : HttpsCF)
    (h0 : this.targetSecretName = this.previousSecretName)
    (h1 : this.serviceHttpsPortExists = (this.targetSecretName != "" && this.secretExists))
    (h2 : this.secretVolumeExists = (this.targetSecretName != "" && this.secretExists))
    (h3 : this.secretVolumeMountExists = (this.targetSecretName != "" && this.secretExists))
    (h4 : this.containerHttpsPortExists = (this.targetSecretName != "" && this.secretExists))
    (h5 : this.javaOptionsExists = (this.targetSecretName != "" && this.secretExists))
    (h6 : this.networkPolicyExists = true →
      this.networkPolicyHttpsPortExists = (this.targetSecretName != "" && this.secretExists))
    (h7 : this.serviceHttpPortExists =
      (!(this.targetSecretName != "" && this.secretExists) || this.httpEnabled))
    (h8 : this.containerHttpPortExists =
      (!(this.targetSecretName != "" && this.secretExists) || this.httpEnabled))
    (h9 : this.networkPolicyExists = true →
      this.networkPolicyHttpPortExists =
        (!(this.targetSecretName != "" && this.secretExists) || this.httpEnabled)) :
    (HttpsCF.Compare this).2 = false := by
  rw [← Bool.not_eq_true, HttpsCF.Compare_snd_iff this]
  simp only [HttpsCF.Compare, HttpsCF.effectiveHttp, not_or, not_and, ne_eq, not_not]
  exact ⟨h0, h1.symm, h2.symm, h3.symm, h4.symm, h5.symm, fun hp => (h6 hp).symm, h7.symm,
    h8.symm, fun hp => (h9 hp).symm⟩

/-! ## Theorems: one round of `HttpsCF` -/

/-- What `Respond` leaves in the loop context and in the receiver. -/
theorem HttpsCF.Respond_eq (H : Common) (flipAdd flipDelete : Bool) (ctx : LoopContext)
    (this : HttpsCF) :
    (HttpsCF.Respond H flipAdd flipDelete ctx this).2.resourceCache =
      { ctx.resourceCache with
        deployment :=
          HttpsCF.Respond.queue (HttpsCF.Respond.deploymentPatch H this) ctx.resourceCache.deployment
        service :=
          HttpsCF.Respond.queue (HttpsCF.Respond.servicePatch H this) ctx.resourceCache.service
        networkPolicy :=
          HttpsCF.Respond.queue (HttpsCF.Respond.networkPolicyPatch H this)
            ctx.resourceCache.networkPolicy } ∧
    (HttpsCF.Respond H flipAdd flipDelete ctx this).2.javaOptions =
      (HttpsCF.Respond.javaOptionsStep flipAdd flipDelete ctx this).2.javaOptions ∧
    (HttpsCF.Respond H flipAdd flipDelete ctx this).1.previousSecretName =
      this.targetSecretName := by
  have hframe : ∀ c : LoopContext, c.javaOptions = ctx.javaOptions →
      (HttpsCF.Respond.javaOptionsStep flipAdd flipDelete c this).2.resourceCache =
        c.resourceCache ∧
      (HttpsCF.Respond.javaOptionsStep flipAdd flipDelete c this).2.javaOptions =
        (HttpsCF.Respond.javaOptionsStep flipAdd flipDelete ctx this).2.javaOptions ∧
      (HttpsCF.Respond.javaOptionsStep flipAdd flipDelete c this).1.targetSecretName =
        this.targetSecretName := by
    intro c hc
    unfold HttpsCF.Respond.javaOptionsStep
    simp only [SaveJavaOptionsMap]
    split_ifs <;> simp [hc]
  have hc := hframe
    { ctx with
      resourceCache :=
        { ctx.resourceCache with
          deployment :=
            HttpsCF.Respond.queue (HttpsCF.Respond.deploymentPatch H this)
              ctx.resourceCache.deployment } } rfl
  unfold HttpsCF.Respond
  simp only [hc.1, hc.2.1, hc.2.2, and_self]

/-- Applying the patches that `Respond` queued on a committed cache. -/
theorem ResourceCache.flush_queued (cache : ResourceCache) (hc : cache.committed = true)
    (de : ResourceCacheEntry Deployment) (se : ResourceCacheEntry Service)
    (hde : cache.deployment = some de) (hse : cache.service = some se)
    (fd : Deployment → Go Deployment) (fs : Service → Go Service)
    (fn : NetworkPolicy → Go NetworkPolicy) (D : Deployment) (S : Service)
    (N : Option (ResourceCacheEntry NetworkPolicy))
    (hD : fd de.value = .ok D) (hS : fs se.value = .ok S)
    (hN : flushSlot (HttpsCF.Respond.queue fn cache.networkPolicy) = .ok N) :
    ResourceCache.flush
        { cache with
          deployment := HttpsCF.Respond.queue fd cache.deployment
          service := HttpsCF.Respond.queue fs cache.service
          networkPolicy := HttpsCF.Respond.queue fn cache.networkPolicy } =
      .ok { cache with
            deployment := some { de with value := D }
            service := some { se with value := S }
            networkPolicy := N } := by
  obtain ⟨h1, h2, h3, _, h5, h6, h7⟩ := (ResourceCache.committed_iff cache).1 hc
  rw [hde] at h2
  rw [hse] at h3
  unfold ResourceCache.flush
  simp only [flushSlot_clean _ h1, flushSlot_clean _ h5, flushSlot_clean _ h6,
    flushSlot_clean _ h7, hN, hde, hse, flushSlot_queue de fd D h2 hD,
    flushSlot_queue se fs S h3 hS, Except.bind]

/-- The network policy slot once the patch of `Respond` is applied: an absent policy stays
absent, a readable policy stays readable and has its rules as required. -/
theorem HttpsCF.Respond.flush_networkPolicy (H : Common) (hH : H.Lawful) (this : HttpsCF)
    (cache : ResourceCache) (hc : cache.committed = true) (hr : cache.readable = true)
    (h1 : this.networkPolicyHttpsPortExists = cache.policyAllows HttpsPort)
    (h2 : this.networkPolicyHttpPortExists = cache.policyAllows HttpPort) :
    ∃ N : Option (ResourceCacheEntry NetworkPolicy),
      flushSlot (HttpsCF.Respond.queue (HttpsCF.Respond.networkPolicyPatch H this)
        cache.networkPolicy) = .ok N ∧
      N.isSome = cache.networkPolicy.isSome ∧
      (match N with
        | some entry =>
          entry.value.readable = true ∧ entry.value.allows HttpsPort = this.httpsEnabled ∧
            entry.value.allows HttpPort = this.effectiveHttp
        | none => True) := by
  obtain ⟨_, _, _, h4, _, _, _⟩ := (ResourceCache.committed_iff cache).1 hc
  simp only [ResourceCache.readable, ResourceCache.deploymentReadable,
    ResourceCache.policyReadable, Bool.and_eq_true] at hr
  unfold ResourceCache.policyAllows at h1 h2
  cases hnp : cache.networkPolicy with
  | none => exact ⟨none, rfl, rfl, trivial⟩
  | some entry =>
    rw [hnp] at h4 h1 h2
    have hre : entry.value.readable = true := by simpa [hnp] using hr.2
    obtain ⟨p', hp', hr', ha1, ha2⟩ :=
      HttpsCF.Respond.networkPolicyPatch_converges H hH this entry.value hre h1 h2
    exact ⟨some { entry with value := p' }, flushSlot_queue entry _ p' h4 hp', rfl, hr', ha1, ha2⟩

/-- HTTPS facet consistency after one round.  With lawful helpers, on a committed and
readable cache that holds the deployment and the service, `Sense`, `Compare` and `Respond`
run once and the queued patches apply; afterwards the spec entry is as it was, the cache is
committed and readable, and every facet that `Sense` reads equals the derived `httpsEnabled`
or effective-HTTP value (the network-policy facets when the policy is cached). -/
theorem HttpsCF.round_post (H : Common) (hH : H.Lawful) (kube : Kube) (o : RangeOrders)
    (ctx : LoopContext) (this : HttpsCF)
    (hc : ctx.resourceCache.committed = true) (hr : ctx.resourceCache.readable = true)
    (hd : ctx.resourceCache.deployment.isSome = true)
    (hs : ctx.resourceCache.service.isSome = true) :
    ∃ this' ctx', HttpsCF.round H kube o ctx this = .ok (this', ctx') ∧
      this'.previousSecretName = ctx.resourceCache.declaredSecretName ∧
      ctx'.resourceCache.spec = ctx.resourceCache.spec ∧
      ctx'.resourceCache.readable = true ∧
      ctx'.resourceCache.networkPolicy.isSome = ctx.resourceCache.networkPolicy.isSome ∧
      (HttpsCF.Compare (HttpsCF.observed kube ctx' this')).1 =
        { HttpsCF.observed kube ctx' this' with
          httpsEnabled := (HttpsCF.Compare (HttpsCF.observed kube ctx this)).1.httpsEnabled } ∧
      ctx'.resourceCache.serviceHasPort HttpsPort =
        (HttpsCF.Compare (HttpsCF.observed kube ctx this)).1.httpsEnabled ∧
      ctx'.resourceCache.serviceHasPort HttpPort =
        (HttpsCF.Compare (HttpsCF.observed kube ctx this)).1.effectiveHttp ∧
      (ctx.resourceCache.declaredSecretName ≠ "" →
        ctx'.resourceCache.hasVolume ctx.resourceCache.declaredSecretName =
          (HttpsCF.Compare (HttpsCF.observed kube ctx this)).1.httpsEnabled) ∧
      (ctx.resourceCache.declaredSecretName ≠ "" →
        ctx'.resourceCache.hasVolumeMount ctx.resourceCache.declaredSecretName =
          (HttpsCF.Compare (HttpsCF.observed kube ctx this)).1.httpsEnabled) ∧
      ctx'.resourceCache.containerHasPort HttpsPort =
        (HttpsCF.Compare (HttpsCF.observed kube ctx this)).1.httpsEnabled ∧
      ctx'.resourceCache.containerHasPort HttpPort =
        (HttpsCF.Compare (HttpsCF.observed kube ctx this)).1.effectiveHttp ∧
      (ctx'.resourceCache.networkPolicy.isSome = true →
        ctx'.resourceCache.policyAllows HttpsPort =
          (HttpsCF.Compare (HttpsCF.observed kube ctx this)).1.httpsEnabled ∧
        ctx'.resourceCache.policyAllows HttpPort =
          (HttpsCF.Compare (HttpsCF.observed kube ctx this)).1.effectiveHttp) ∧
      hasTargetJavaOptions ctx'.javaOptions =
        (HttpsCF.Compare (HttpsCF.observed kube ctx this)).1.httpsEnabled := by
  obtain ⟨de, hde⟩ := Option.isSome_iff_exists.1 hd
  obtain ⟨se, hse⟩ := Option.isSome_iff_exists.1 hs
  have hne : de.value.containers.isEmpty = false := by
    have := hr
    simp only [ResourceCache.readable, ResourceCache.deploymentReadable,
      ResourceCache.policyReadable, Bool.and_eq_true, hde] at this
    simpa using this.1
  obtain ⟨c0, cs, hcs⟩ : ∃ c0 cs, de.value.containers = c0 :: cs := by
    cases hl : de.value.containers with
    | nil => simp [hl] at hne
    | cons c0 cs => exact ⟨c0, cs, rfl⟩
  -- the state that Respond reads
  generalize hC : (HttpsCF.Compare (HttpsCF.observed kube ctx this)).1 = C
  have hCname : C.targetSecretName = ctx.resourceCache.declaredSecretName := by
    rw [← hC]; rfl
  have hCsv : C.secretVolumeExists =
      (ctx.resourceCache.declaredSecretName != "" &&
        de.value.hasVolume ctx.resourceCache.declaredSecretName) := by
    rw [← hC]; simp [HttpsCF.Compare, HttpsCF.observed, ResourceCache.hasVolume, hde]
  have hCsm : C.secretVolumeMountExists =
      (ctx.resourceCache.declaredSecretName != "" &&
        c0.hasVolumeMount ctx.resourceCache.declaredSecretName) := by
    rw [← hC]
    simp [HttpsCF.Compare, HttpsCF.observed, ResourceCache.hasVolumeMount,
      ResourceCache.firstContainer, hde, hcs]
  have hCp1 : C.containerHttpsPortExists = c0.hasPort HttpsPort := by
    rw [← hC]
    simp [HttpsCF.Compare, HttpsCF.observed, ResourceCache.containerHasPort,
      ResourceCache.firstContainer, hde, hcs]
  have hCp2 : C.containerHttpPortExists = c0.hasPort HttpPort := by
    rw [← hC]
    simp [HttpsCF.Compare, HttpsCF.observed, ResourceCache.containerHasPort,
      ResourceCache.firstContainer, hde, hcs]
  have hCs1 : C.serviceHttpsPortExists = se.value.hasPort HttpsPort := by
    rw [← hC]; simp [HttpsCF.Compare, HttpsCF.observed, ResourceCache.serviceHasPort, hse]
  have hCs2 : C.serviceHttpPortExists = se.value.hasPort HttpPort := by
    rw [← hC]; simp [HttpsCF.Compare, HttpsCF.observed, ResourceCache.serviceHasPort, hse]
  have hCn1 : C.networkPolicyHttpsPortExists = ctx.resourceCache.policyAllows HttpsPort := by
    rw [← hC]; rfl
  have hCn2 : C.networkPolicyHttpPortExists = ctx.resourceCache.policyAllows HttpPort := by
    rw [← hC]; rfl
  have hCj1 : C.javaOptions = ctx.javaOptions := by rw [← hC]; rfl
  have hCj2 : C.targetJavaOptions = targetJavaOptionsLiteral := by rw [← hC]; rfl
  have hCj3 : C.javaOptionsExists = hasTargetJavaOptions ctx.javaOptions := by rw [← hC]; rfl
  have hChe : C.httpsEnabled =
      (ctx.resourceCache.declaredSecretName != "" &&
        (ctx.resourceCache.declaredSecretName != "" &&
          secretUsable kube ctx.resourceCache.declaredSecretName)) := by
    rw [← hC]; rfl
  -- the patches
  have hdp := HttpsCF.Respond.deploymentPatch_eq H hH C de.value c0 cs hcs
  obtain ⟨S, hsp, hS1, hS2⟩ := HttpsCF.Respond.servicePatch_converges H hH C se.value hCs1 hCs2
  obtain ⟨N, hN, hNsome, hNfacets⟩ :=
    HttpsCF.Respond.flush_networkPolicy H hH C ctx.resourceCache hc hr hCn1 hCn2
  have hflush := ResourceCache.flush_queued ctx.resourceCache hc de se hde hse
    (HttpsCF.Respond.deploymentPatch H C) (HttpsCF.Respond.servicePatch H C)
    (HttpsCF.Respond.networkPolicyPatch H C) _ S N hdp hsp hN
  -- the launch options
  obtain ⟨_, _, hj, _⟩ := HttpsCF.Respond.javaOptionsStep_converges o.respondAdd o.respondDelete
    { ctx with effects := ctx.effects ++ secretEffects kube ctx.resourceCache.declaredSecretName }
    C hCj1 hCj2 hCj3
  obtain ⟨hR1, hR2, hR3⟩ := HttpsCF.Respond_eq H o.respondAdd o.respondDelete
    { ctx with effects := ctx.effects ++ secretEffects kube ctx.resourceCache.declaredSecretName }
    C
  simp only at hR1
  have hround : HttpsCF.round H kube o ctx this =
      .ok ((HttpsCF.Respond H o.respondAdd o.respondDelete
              { ctx with
                effects := ctx.effects ++ secretEffects kube ctx.resourceCache.declaredSecretName }
              C).1,
           { (HttpsCF.Respond H o.respondAdd o.respondDelete
              { ctx with
                effects := ctx.effects ++ secretEffects kube ctx.resourceCache.declaredSecretName }
              C).2 with
             resourceCache :=
              { ctx.resourceCache with
                deployment := some { de with value :=
                  { HttpsCF.Respond.editVolumes H C de.value with
                    containers :=
                      HttpsCF.Respond.editPorts H C (HttpsCF.Respond.editMounts H C c0) :: cs } }
                service := some { se with value := S }
                networkPolicy := N } }) := by
    unfold HttpsCF.round
    simp only [HttpsCF.Sense_eq kube o.sense ctx this hr, hC, hR1, hflush]
  refine ⟨_, _, hround, ?_, rfl, ?_, ?_, ?_, ?_, ?_, ?_, ?_, ?_, ?_, ?_, ?_⟩
  · rw [hR3, hCname]
  · simp only [ResourceCache.readable, ResourceCache.deploymentReadable,
      ResourceCache.policyReadable, List.isEmpty_cons, Bool.not_false, Bool.true_and]
    cases N with
    | none => rfl
    | some entry => exact hNfacets.1
  · exact hNsome
  · simp only [HttpsCF.Compare, HttpsCF.observed, ResourceCache.declaredSecretName, hChe]
  · simpa [ResourceCache.serviceHasPort] using hS1
  · simpa [ResourceCache.serviceHasPort] using hS2
  · intro hn
    have hb : (ctx.resourceCache.declaredSecretName != "") = true := by
      simpa [bne_iff_ne] using hn
    have := HttpsCF.Respond.editVolumes_converges H hH C de.value
      (by rw [hCsv, hCname, hb, Bool.true_and])
    rw [hCname] at this
    simpa [ResourceCache.hasVolume, Deployment.hasVolume] using this
  · intro hn
    have hb : (ctx.resourceCache.declaredSecretName != "") = true := by
      simpa [bne_iff_ne] using hn
    have := HttpsCF.Respond.editMounts_converges H hH C c0
      (by rw [hCsm, hCname, hb, Bool.true_and])
    rw [hCname] at this
    simpa [ResourceCache.hasVolumeMount, ResourceCache.firstContainer, Container.hasVolumeMount,
      HttpsCF.Respond.editPorts_volumeMounts H hH] using this
  · have := HttpsCF.Respond.editPorts_https H hH C (HttpsCF.Respond.editMounts H C c0)
      (by rw [hCp1, Container.hasPort, Container.hasPort, HttpsCF.Respond.editMounts_ports H hH])
    simpa [ResourceCache.containerHasPort, ResourceCache.firstContainer] using this
  · have := HttpsCF.Respond.editPorts_http H hH C (HttpsCF.Respond.editMounts H C c0)
      (by rw [hCp2, Container.hasPort, Container.hasPort, HttpsCF.Respond.editMounts_ports H hH])
    simpa [ResourceCache.containerHasPort, ResourceCache.firstContainer] using this
  · intro hsome
    cases N with
    | none => simp at hsome
    | some entry => exact ⟨hNfacets.2.1, hNfacets.2.2⟩
  · rw [hR2]
    exact hj

/-! ## Theorems: the modelled helpers keep the contract -/

theorem any_name_map_replace {α : Type} (key : α → String) (v : α) (n : String) (l : List α) :
    (l.map fun w => if key w == key v then v else w).any (fun w => key w == n) =
      l.any (fun w => key w == n) := by
  induction l with
  | nil => rfl
  | cons w rest ih =>
    rw [List.map_cons, List.any_cons, List.any_cons, ih]
    by_cases h : key w = key v
    · have hb : (key w == key v) = true := by simpa using h
      rw [if_pos hb, h]
    · have hb : ¬ (key w == key v) = true := by simpa using h
      rw [if_neg hb]

theorem any_filter_ne {α β : Type} [DecidableEq β] (key : α → β) (k n : β) (l : List α) :
    (l.filter fun w => key w != k).any (fun w => key w == n) =
      (l.any (fun w => key w == n) && n != k) := by
  induction l with
  | nil => rfl
  | cons w rest ih =>
    rw [List.filter_cons]
    by_cases hw : key w = k
    · have hb : ¬ (key w != k) = true := by simp [hw]
      rw [if_neg hb, ih, List.any_cons]
      by_cases hn : n = k
      · simp [hn]
      · have hkn : (k == n) = false := by simpa using fun h : k = n => hn h.symm
        rw [hw, hkn, Bool.false_or]
    · have hb : (key w != k) = true := by simpa [bne_iff_ne] using hw
      rw [if_pos hb, List.any_cons, ih, List.any_cons, Bool.and_or_distrib_right]
      congr 1
      by_cases hn : key w = n
      · have : (n != k) = true := by simpa [bne_iff_ne, ← hn] using hw
        simp [hn, this]
      · simp [hn]

theorem any_append_singleton {α β : Type} [DecidableEq β] (key : α → β) (v : α) (n : β)
    (l : List α) :
    (l ++ [v]).any (fun w => key w == n) = (l.any (fun w => key w == n) || n == key v) := by
  rw [List.any_append, List.any_cons, List.any_nil, Bool.or_false]
  congr 1
  by_cases hn : n = key v
  · simp [hn]
  · have h1 : (key v == n) = false := by simpa using fun h : key v = n => hn h.symm
    have h2 : (n == key v) = false := by simpa using hn
    rw [h1, h2]

theorem SetVolumeInDeployment_hasVolume (d : Deployment) (v : Volume) (n : String) :
    (SetVolumeInDeployment d v).hasVolume n = (d.hasVolume n || n == v.name) := by
  unfold SetVolumeInDeployment
  by_cases h : d.hasVolume v.name = true
  · rw [if_pos h]
    simp only [Deployment.hasVolume]
    rw [any_name_map_replace Volume.name v n d.volumes]
    by_cases hn : n = v.name
    · subst hn
      simpa [Deployment.hasVolume] using h
    · simp [hn]
  · rw [if_neg h]
    exact any_append_singleton Volume.name v n d.volumes

theorem AddVolumeMountToContainer_hasVolumeMount (c : Container) (m : VolumeMount) (n : String) :
    (AddVolumeMountToContainer c m).hasVolumeMount n = (c.hasVolumeMount n || n == m.name) := by
  unfold AddVolumeMountToContainer
  by_cases h : c.hasVolumeMount m.name = true
  · rw [if_pos h]
    simp only [Container.hasVolumeMount]
    rw [any_name_map_replace VolumeMount.name m n c.volumeMounts]
    by_cases hn : n = m.name
    · subst hn
      simpa [Container.hasVolumeMount] using h
    · simp [hn]
  · rw [if_neg h]
    exact any_append_singleton VolumeMount.name m n c.volumeMounts

theorem AddPortToContainer_hasPort (c : Container) (p : ContainerPort) (n : Int) :
    (AddPortToContainer c p).hasPort n = (c.hasPort n || n == p.containerPort) := by
  unfold AddPortToContainer
  by_cases h : c.hasPort p.containerPort = true
  · rw [if_pos h]
    by_cases hn : n = p.containerPort
    · subst hn
      simp [h]
    · simp [hn]
  · rw [if_neg h]
    exact any_append_singleton ContainerPort.containerPort p n c.ports

theorem AddPortToService_hasPort (s : Service) (p : ServicePort) (n : Int) :
    (AddPortToService s p).hasPort n = (s.hasPort n || n == p.port) := by
  unfold AddPortToService
  by_cases h : s.hasPort p.port = true
  · rw [if_pos h]
    by_cases hn : n = p.port
    · subst hn
      simp [h]
    · simp [hn]
  · rw [if_neg h]
    exact any_append_singleton ServicePort.port p n s.ports

theorem SetVolumeInDeployment_mem (d : Deployment) (v : Volume)
    (h : d.hasVolume v.name = false) : v ∈ (SetVolumeInDeployment d v).volumes := by
  unfold SetVolumeInDeployment
  rw [if_neg (by simp [h])]
  simp

theorem AddVolumeMountToContainer_mem (c : Container) (m : VolumeMount)
    (h : c.hasVolumeMount m.name = false) : m ∈ (AddVolumeMountToContainer c m).volumeMounts := by
  unfold AddVolumeMountToContainer
  rw [if_neg (by simp [h])]
  simp

theorem portOf_tcpRule (n : Int) (port : NetworkPolicyPort) :
    portOf (tcpRule n) port = port.isTcpPort n := by
  obtain ⟨protocol, p⟩ := port
  simp only [portOf, tcpRule, List.any_cons, List.any_nil, Bool.or_false, Option.isSome_some,
    Bool.true_and, Bool.and_true, Option.map_some', IntOrString.IntValue,
    NetworkPolicyPort.isTcpPort]
  rw [Bool.eq_iff_iff]
  simp only [Bool.and_eq_true, beq_iff_eq]
  constructor
  · rintro ⟨h1, h2⟩
    exact ⟨h1.symm, h2.symm⟩
  · rintro ⟨h1, h2⟩
    exact ⟨h1.symm, h2.symm⟩

theorem tcpRule_readable (n : Int) :
    (tcpRule n).ports.all NetworkPolicyPort.readable = true := by
  simp [tcpRule, NetworkPolicyPort.readable]

theorem tcpRule_isTcpPort (n m : Int) :
    ((tcpRule n).ports.any fun port => port.isTcpPort m) = (m == n) := by
  simp only [tcpRule, NetworkPolicyPort.isTcpPort, List.any_cons, List.any_nil, Bool.or_false,
    Option.map_some', IntOrString.IntValue, beq_self_eq_true, Bool.true_and]
  by_cases h : m = n
  · simp [h]
  · have h1 : (m == n) = false := by simpa using h
    have h2 : (some n == some m) = false := by simpa using fun h' : n = m => h h'.symm
    rw [h1, h2]

/-- The ports of one rule once the ports for TCP port `n` are deleted. -/
theorem filter_isTcpPort_any (ports : List NetworkPolicyPort) (n m : Int) :
    ((ports.filter fun port => !port.isTcpPort n).any fun port => port.isTcpPort m) =
      ((ports.any fun port => port.isTcpPort m) && m != n) := by
  induction ports with
  | nil => rfl
  | cons port rest ih =>
    rw [List.filter_cons, List.any_cons, Bool.and_or_distrib_right, ← ih]
    by_cases hp : port.isTcpPort n = true
    · have hb : ¬ (!port.isTcpPort n) = true := by simp [hp]
      rw [if_neg hb]
      by_cases hmn : m = n
      · subst hmn
        simp
      · have : port.isTcpPort m = false := by
          simp only [NetworkPolicyPort.isTcpPort, Bool.and_eq_true, beq_iff_eq] at hp
          simp only [NetworkPolicyPort.isTcpPort, hp.1, hp.2, beq_self_eq_true, Bool.true_and,
            beq_eq_false_iff_ne, ne_eq, Option.some.injEq]
          exact fun h => hmn h.symm
        rw [this, Bool.false_and, Bool.false_or]
    · have hb : (!port.isTcpPort n) = true := by simpa using hp
      rw [if_pos hb, List.any_cons]
      congr 1
      by_cases hmn : m = n
      · subst hmn
        have : port.isTcpPort m = false := by simpa using hp
        rw [this, Bool.false_and]
      · have : (m != n) = true := by simpa [bne_iff_ne] using hmn
        rw [this, Bool.and_true]

theorem RemoveRule_readable (policy : NetworkPolicy) (n : Int) (h : policy.readable = true) :
    (RemoveRuleFromNetworkPolicy policy (tcpRule n)).readable = true := by
  unfold NetworkPolicy.readable at h ⊢
  unfold RemoveRuleFromNetworkPolicy
  rw [List.all_eq_true] at h ⊢
  intro r hr
  obtain ⟨r0, hr0, hr1⟩ := List.mem_filterMap.1 hr
  split_ifs at hr1
  have hr2 : { r0 with ports := r0.ports.filter fun port => !portOf (tcpRule n) port } = r := by
    simpa using hr1
  subst hr2
  have h0 := h r0 hr0
  rw [List.all_eq_true] at h0 ⊢
  intro port hport
  exact h0 port (List.mem_filter.1 hport).1

theorem RemoveRule_allows (policy : NetworkPolicy) (n m : Int) :
    (RemoveRuleFromNetworkPolicy policy (tcpRule n)).allows m = (policy.allows m && m != n) := by
  unfold NetworkPolicy.allows RemoveRuleFromNetworkPolicy
  simp only [portOf_tcpRule]
  generalize policy.ingress = rules
  induction rules with
  | nil => rfl
  | cons r rest ih =>
    rw [List.filterMap_cons, List.any_cons, Bool.and_or_distrib_right, ← ih,
      ← filter_isTcpPort_any r.ports n m]
    by_cases hdrop :
        (!r.ports.isEmpty && (r.ports.filter fun port => !port.isTcpPort n).isEmpty) = true
    · have hempty : (r.ports.filter fun port => !port.isTcpPort n) = [] := by
        have := (Bool.and_eq_true_iff.1 hdrop).2
        exact List.isEmpty_iff.1 this
      simp only [hdrop, ↓reduceIte]
      simp only [hempty, List.any_nil, Bool.false_or]
    · simp only [hdrop, Bool.false_eq_true, ↓reduceIte, List.any_cons]

theorem RemoveVolumeFromDeployment_hasVolume (d : Deployment) (v : Volume) (n : String) :
    (RemoveVolumeFromDeployment d v).hasVolume n = (d.hasVolume n && n != v.name) :=
  any_filter_ne Volume.name v.name n d.volumes

theorem RemoveVolumeMountFromContainer_hasVolumeMount (c : Container) (m : VolumeMount)
    (n : String) :
    (RemoveVolumeMountFromContainer c m).hasVolumeMount n =
      (c.hasVolumeMount n && n != m.name) :=
  any_filter_ne VolumeMount.name m.name n c.volumeMounts

theorem RemovePortFromContainer_hasPort (c : Container) (p : ContainerPort) (n : Int) :
    (RemovePortFromContainer c p).hasPort n = (c.hasPort n && n != p.containerPort) :=
  any_filter_ne ContainerPort.containerPort p.containerPort n c.ports

theorem RemovePortFromService_hasPort (s : Service) (p : ServicePort) (n : Int) :
    (RemovePortFromService s p).hasPort n = (s.hasPort n && n != p.port) :=
  any_filter_ne ServicePort.port p.port n s.ports

theorem AddRule_readable (policy : NetworkPolicy) (n : Int) (h : policy.readable = true) :
    (AddRuleToNetworkPolicy policy (tcpRule n)).readable = true := by
  simp only [AddRuleToNetworkPolicy, NetworkPolicy.readable, List.all_append,
    List.all_cons, List.all_nil, Bool.and_true, Bool.and_eq_true]
  exact ⟨h, tcpRule_readable n⟩

theorem AddRule_allows (policy : NetworkPolicy) (n m : Int) :
    (AddRuleToNetworkPolicy policy (tcpRule n)).allows m = (policy.allows m || m == n) := by
  simp only [AddRuleToNetworkPolicy, NetworkPolicy.allows, List.any_append,
    List.any_cons, List.any_nil, Bool.or_false, tcpRule_isTcpPort]

theorem SetVolumeInDeployment_containers (d : Deployment) (v : Volume) :
    (SetVolumeInDeployment d v).containers = d.containers := by
  unfold SetVolumeInDeployment
  split_ifs <;> rfl

theorem AddVolumeMountToContainer_ports (c : Container) (m : VolumeMount) :
    (AddVolumeMountToContainer c m).ports = c.ports := by
  unfold AddVolumeMountToContainer
  split_ifs <;> rfl

theorem AddPortToContainer_volumeMounts (c : Container) (p : ContainerPort) :
    (AddPortToContainer c p).volumeMounts = c.volumeMounts := by
  unfold AddPortToContainer
  split_ifs <;> rfl

/-- The modelled helpers satisfy the contract of the spec. -/
theorem Common.model_lawful : Common.model.Lawful where
  setVolume_containers := SetVolumeInDeployment_containers
  setVolume_mem := SetVolumeInDeployment_mem
  setVolume_hasVolume := SetVolumeInDeployment_hasVolume
  removeVolume_containers := fun _ _ => rfl
  removeVolume_hasVolume := RemoveVolumeFromDeployment_hasVolume
  addMount_ports := AddVolumeMountToContainer_ports
  addMount_mem := AddVolumeMountToContainer_mem
  addMount_hasVolumeMount := AddVolumeMountToContainer_hasVolumeMount
  removeMount_ports := fun _ _ => rfl
  removeMount_hasVolumeMount := RemoveVolumeMountFromContainer_hasVolumeMount
  addPort_volumeMounts := AddPortToContainer_volumeMounts
  addPort_hasPort := AddPortToContainer_hasPort
  removePort_volumeMounts := fun _ _ => rfl
  removePort_hasPort := RemovePortFromContainer_hasPort
  addServicePort_hasPort := AddPortToService_hasPort
  removeServicePort_hasPort := RemovePortFromService_hasPort
  addRule_readable := AddRule_readable
  addRule_allows := AddRule_allows
  removeRule_readable := RemoveRule_readable
  removeRule_allows := RemoveRule_allows

/-! ## Theorems: convergence of `HttpsCF` -/

/-- C7, as amended: with edit helpers that keep the contract of the spec, on a cache without
queued patches that `Sense` can read and that holds the Deployment and the Service (the
NetworkPolicy may be absent), `Sense`, `Compare` and `Respond` run once and the queued
patches apply, and `Sense` then `Compare` on the resulting state returns false; the same
holds when `Respond` runs only if `Compare` returned true.  The visiting orders of the
`range` loops are arbitrary. -/
theorem HttpsCF.round_converges (H : Common) (hH : H.Lawful) (kube : Kube) (o : RangeOrders)
    (flip : Bool) (ctx : LoopContext) (this : HttpsCF)
    (hc : ctx.resourceCache.committed = true) (hr : ctx.resourceCache.readable = true)
    (hd : ctx.resourceCache.deployment.isSome = true)
    (hs : ctx.resourceCache.service.isSome = true) :
    (∃ this' ctx', HttpsCF.round H kube o ctx this = .ok (this', ctx') ∧
      HttpsCF.senseCompare kube flip ctx' this' = .ok false) ∧
    (∃ this' ctx', HttpsCF.tick H kube o ctx this = .ok (this', ctx') ∧
      HttpsCF.senseCompare kube flip ctx' this' = .ok false) := by
  have hround : ∃ this' ctx', HttpsCF.round H kube o ctx this = .ok (this', ctx') ∧
      HttpsCF.senseCompare kube flip ctx' this' = .ok false := by
    obtain ⟨this', ctx', hround, hprev, hspec, hr', hnp, _, hs1, hs2, hv, hm, hp1, hp2, hn, hj⟩ :=
      HttpsCF.round_post H hH kube o ctx this hc hr hd hs
    refine ⟨this', ctx', hround, ?_⟩
    have hname : ctx'.resourceCache.declaredSecretName =
        ctx.resourceCache.declaredSecretName := by
      simp only [ResourceCache.declaredSecretName, hspec]
    have hhttp : ctx'.resourceCache.declaredHttpEnabled =
        ctx.resourceCache.declaredHttpEnabled := by
      simp only [ResourceCache.declaredHttpEnabled, hspec]
    simp only [HttpsCF.Compare, HttpsCF.observed, HttpsCF.effectiveHttp] at hs1 hs2 hv hm hp1 hp2 hn hj
    unfold HttpsCF.senseCompare
    rw [HttpsCF.Sense_eq kube flip ctx' this' hr']
    simp only
    congr 1
    by_cases hempty : ctx.resourceCache.declaredSecretName = ""
    · apply HttpsCF.Compare_eq_false <;>
        simp only [HttpsCF.observed, hname, hhttp, hprev, hs1, hs2, hp1, hp2, hj, hempty] <;>
        first
          | rfl
          | (intro h'; first | exact (hn h').1.trans (by simp [hempty])
                             | exact (hn h').2.trans (by simp [hempty]))
    · have hb : (ctx.resourceCache.declaredSecretName != "") = true := by
        simpa [bne_iff_ne] using hempty
      have hv' := hv hempty
      have hm' := hm hempty
      apply HttpsCF.Compare_eq_false <;>
        simp only [HttpsCF.observed, hname, hhttp, hprev, hs1, hs2, hp1, hp2, hj, hv', hm', hb,
          Bool.true_and] <;>
        first
          | rfl
          | (intro h'; first | exact (hn h').1.trans (by simp [hb])
                             | exact (hn h').2.trans (by simp [hb]))
  refine ⟨hround, ?_⟩
  by_cases hcmp : (HttpsCF.Compare (HttpsCF.observed kube ctx this)).2 = true
  · have : HttpsCF.tick H kube o ctx this = HttpsCF.round H kube o ctx this := by
      unfold HttpsCF.tick HttpsCF.round
      simp only [HttpsCF.Sense_eq kube o.sense ctx this hr, hcmp, ↓reduceIte]
    rw [this]
    exact hround
  · have hfalse : (HttpsCF.Compare (HttpsCF.observed kube ctx this)).2 = false := by
      simpa using hcmp
    refine ⟨(HttpsCF.Compare (HttpsCF.observed kube ctx this)).1,
      { ctx with effects := ctx.effects ++ secretEffects kube ctx.resourceCache.declaredSecretName },
      ?_, ?_⟩
    · unfold HttpsCF.tick
      simp only [HttpsCF.Sense_eq kube o.sense ctx this hr, hfalse, Bool.false_eq_true, ↓reduceIte]
    · unfold HttpsCF.senseCompare
      rw [HttpsCF.Sense_eq kube flip
        { ctx with
          effects := ctx.effects ++ secretEffects kube ctx.resourceCache.declaredSecretName }
        _ hr]
      exact congrArg Except.ok hfalse

/-- The Deployment patch of `Respond` while HTTPS is enabled asks for no removal of a
volume or a volume mount: whatever `RemoveVolumeFromDeployment` and
`RemoveVolumeMountFromContainer` do, the patch is the same; and it does not read
`previousSecretName`. -/
theorem HttpsCF.Respond.deploymentPatch_no_removal (H : Common) (this : HttpsCF)
    (d : Deployment) (removeVolume : Deployment → Volume → Deployment)
    (removeMount : Container → VolumeMount → Container) (previous : String)
    (he : this.httpsEnabled = true) :
    HttpsCF.Respond.deploymentPatch
        { H with RemoveVolumeFromDeployment := removeVolume,
                 RemoveVolumeMountFromContainer := removeMount }
        { this with previousSecretName := previous } d =
      HttpsCF.Respond.deploymentPatch H this d := by
  cases h : d.containers with
  | nil => simp [HttpsCF.Respond.deploymentPatch, h]
  | cons c cs => simp [HttpsCF.Respond.deploymentPatch, h, he]

/-- The volume and mount edits of a rename: when HTTPS is enabled and `Sense` found neither
a volume nor a mount under the new name, the only volume edit is `SetVolumeInDeployment`
and the only mount edit is `AddVolumeMountToContainer`, both with the new name, for every
implementation of the helpers. -/
theorem HttpsCF.Respond.rename_edits (H : Common) (this : HttpsCF) (d : Deployment)
    (c : Container) (he : this.httpsEnabled = true)
    (hv : this.secretVolumeExists = false) (hm : this.secretVolumeMountExists = false) :
    HttpsCF.Respond.editVolumes H this d =
      H.SetVolumeInDeployment d
        { name := this.targetSecretName, volumeSource := .secret this.targetSecretName } ∧
    HttpsCF.Respond.editMounts H this c =
      H.AddVolumeMountToContainer c
        { name := this.targetSecretName, mountPath := TlsCertMountPath, readOnly := true } := by
  simp [HttpsCF.Respond.editVolumes, HttpsCF.Respond.editMounts, he, hv, hm]

/-- C8, the divergence.  The spec names the secret `new` (usable, not empty), the previous
secret name is `old`, different from `new`, and the cached Deployment carries a volume and
a first-container mount named `old`.  Then `Compare` returns true and derives
`httpsEnabled = true` for the name `new`.  For every implementation of the edit helpers,
the Deployment patch of `Respond` asks for no removal and does not read the previous name:
it is the same whatever `RemoveVolumeFromDeployment` and `RemoveVolumeMountFromContainer`
do and whatever `previousSecretName` holds.  With helpers that edit by name, as the
contract `Common.Lawful` says, the patched pod spec has a volume and a first-container
mount named `new` (the secret volume and the `/certs` mount that `Respond` builds, when
none of that name was there) and still has the volume and the mount named `old`: the
references are not swapped. -/
theorem HttpsCF.rename_adds_new_keeps_old (H : Common) (kube : Kube)
    (flip : Bool) (ctx : LoopContext) (this : HttpsCF) (old new : String)
    (de : ResourceCacheEntry Deployment) (c0 : Container) (cs : List Container)
    (hr : ctx.resourceCache.readable = true)
    (hspec : ctx.resourceCache.declaredSecretName = new)
    (hnew : new ≠ "") (hne : old ≠ new) (hvalid : secretUsable kube new = true)
    (hprev : this.previousSecretName = old)
    (hde : ctx.resourceCache.deployment = some de) (hcs : de.value.containers = c0 :: cs)
    (hv : de.value.hasVolume old = true) (hm : c0.hasVolumeMount old = true) :
    ∃ sensed ctx', HttpsCF.Sense kube flip ctx this = .ok (sensed, ctx') ∧
      (HttpsCF.Compare sensed).2 = true ∧
      (HttpsCF.Compare sensed).1.httpsEnabled = true ∧
      (HttpsCF.Compare sensed).1.targetSecretName = new ∧
      (∀ (removeVolume : Deployment → Volume → Deployment)
          (removeMount : Container → VolumeMount → Container) (previous : String),
        HttpsCF.Respond.deploymentPatch
            { H with RemoveVolumeFromDeployment := removeVolume,
                     RemoveVolumeMountFromContainer := removeMount }
            { (HttpsCF.Compare sensed).1 with previousSecretName := previous } de.value =
          HttpsCF.Respond.deploymentPatch H (HttpsCF.Compare sensed).1 de.value) ∧
      (H.Lawful →
        ∃ d' c0', HttpsCF.Respond.deploymentPatch H (HttpsCF.Compare sensed).1 de.value = .ok d' ∧
          d'.containers = c0' :: cs ∧
          d'.hasVolume new = true ∧ c0'.hasVolumeMount new = true ∧
          (de.value.hasVolume new = false →
            { name := new, volumeSource := .secret new } ∈ d'.volumes) ∧
          (c0.hasVolumeMount new = false →
            { name := new, mountPath := TlsCertMountPath, readOnly := true } ∈
              c0'.volumeMounts) ∧
          d'.hasVolume old = true ∧ c0'.hasVolumeMount old = true) := by
  have hb : (new != "") = true := by simpa [bne_iff_ne] using hnew
  have hon : (HttpsCF.Compare (HttpsCF.observed kube ctx this)).1.httpsEnabled = true := by
    simp [HttpsCF.Compare, HttpsCF.observed, hspec, hb, hvalid]
  refine ⟨_, _, HttpsCF.Sense_eq kube flip ctx this hr, ?_, hon, hspec, ?_, ?_⟩
  · rw [HttpsCF.Compare_snd_iff]
    left
    show ctx.resourceCache.declaredSecretName ≠ this.previousSecretName
    rw [hspec, hprev]
    exact fun h => hne h.symm
  · intro removeVolume removeMount previous
    exact HttpsCF.Respond.deploymentPatch_no_removal H _ de.value removeVolume removeMount
      previous hon
  · intro hH
    generalize hC : (HttpsCF.Compare (HttpsCF.observed kube ctx this)).1 = C
    have hCname : C.targetSecretName = new := by rw [← hC]; exact hspec
    have hChe : C.httpsEnabled = true := by rw [← hC]; exact hon
    have hCsv : C.secretVolumeExists = de.value.hasVolume new := by
      rw [← hC]
      simp [HttpsCF.Compare, HttpsCF.observed, ResourceCache.hasVolume, hde, hspec, hb]
    have hCsm : C.secretVolumeMountExists = c0.hasVolumeMount new := by
      rw [← hC]
      simp [HttpsCF.Compare, HttpsCF.observed, ResourceCache.hasVolumeMount,
        ResourceCache.firstContainer, hde, hcs, hspec, hb]
    refine ⟨_, _, HttpsCF.Respond.deploymentPatch_eq H hH C de.value c0 cs hcs, rfl,
      ?_, ?_, ?_, ?_, ?_, ?_⟩
    · have := HttpsCF.Respond.editVolumes_converges H hH C de.value (by rw [hCsv, hCname])
      rw [hCname, hChe] at this
      exact this
    · have := HttpsCF.Respond.editMounts_converges H hH C c0 (by rw [hCsm, hCname])
      rw [hCname, hChe] at this
      simpa [Container.hasVolumeMount, HttpsCF.Respond.editPorts_volumeMounts H hH] using this
    · intro habsent
      have hsv : C.secretVolumeExists = false := by rw [hCsv, habsent]
      have : HttpsCF.Respond.editVolumes H C de.value =
          H.SetVolumeInDeployment de.value
            { name := new, volumeSource := .secret new } := by
        simp [HttpsCF.Respond.editVolumes, hChe, hsv, hCname]
      show _ ∈ (HttpsCF.Respond.editVolumes H C de.value).volumes
      rw [this]
      exact hH.setVolume_mem de.value _ habsent
    · intro habsent
      have hsm : C.secretVolumeMountExists = false := by rw [hCsm, habsent]
      have : HttpsCF.Respond.editMounts H C c0 =
          H.AddVolumeMountToContainer c0
            { name := new, mountPath := TlsCertMountPath, readOnly := true } := by
        simp [HttpsCF.Respond.editMounts, hChe, hsm, hCname]
      rw [HttpsCF.Respond.editPorts_volumeMounts H hH, this]
      exact hH.addMount_mem c0 _ habsent
    · have := HttpsCF.Respond.editVolumes_other H hH C de.value old (by rw [hCname]; exact hne)
      rw [hv] at this
      exact this
    · have := HttpsCF.Respond.editMounts_other H hH C c0 old (by rw [hCname]; exact hne)
      rw [hm] at this
      simpa [Container.hasVolumeMount, HttpsCF.Respond.editPorts_volumeMounts H hH] using this

/-! ## Witnesses and counterexamples -/

/-- C6 as stated fails: with an HTTP-only deployment and service, no secret declared and the
network policy not yet in the cache, `Compare` returns false on what `Sense` observed, yet
the network-policy HTTP facet is false while the effective-HTTP value is true. -/
theorem HttpsCF.Compare_false_policy_absent :
    ∃ this ctx', HttpsCF.Sense noSecrets false httpOnlyContext HttpsCF.new = .ok (this, ctx') ∧
      (HttpsCF.Compare this).2 = false ∧
      (HttpsCF.Compare this).1.networkPolicyExists = false ∧
      (HttpsCF.Compare this).1.networkPolicyHttpPortExists = false ∧
      (HttpsCF.Compare this).1.effectiveHttp = true :=
  ⟨_, _, HttpsCF.Sense_eq noSecrets false httpOnlyContext HttpsCF.new (by decide),
    by decide, by decide, by decide, by decide⟩

/-- Witness for C6: an HTTP-only state on which `Compare` returns false. -/
theorem HttpsCF.Compare_false_facets_witness :
    (HttpsCF.Compare httpOnlyState).2 = false ∧
    ((HttpsCF.Compare httpOnlyState).1.serviceHttpsPortExists =
        (HttpsCF.Compare httpOnlyState).1.httpsEnabled ∧
      (HttpsCF.Compare httpOnlyState).1.secretVolumeExists =
        (HttpsCF.Compare httpOnlyState).1.httpsEnabled ∧
      (HttpsCF.Compare httpOnlyState).1.secretVolumeMountExists =
        (HttpsCF.Compare httpOnlyState).1.httpsEnabled ∧
      (HttpsCF.Compare httpOnlyState).1.containerHttpsPortExists =
        (HttpsCF.Compare httpOnlyState).1.httpsEnabled ∧
      (HttpsCF.Compare httpOnlyState).1.javaOptionsExists =
        (HttpsCF.Compare httpOnlyState).1.httpsEnabled ∧
      (HttpsCF.Compare httpOnlyState).1.serviceHttpPortExists =
        (HttpsCF.Compare httpOnlyState).1.effectiveHttp ∧
      (HttpsCF.Compare httpOnlyState).1.containerHttpPortExists =
        (HttpsCF.Compare httpOnlyState).1.effectiveHttp ∧
      ((HttpsCF.Compare httpOnlyState).1.networkPolicyExists = true →
        (HttpsCF.Compare httpOnlyState).1.networkPolicyHttpsPortExists =
            (HttpsCF.Compare httpOnlyState).1.httpsEnabled ∧
          (HttpsCF.Compare httpOnlyState).1.networkPolicyHttpPortExists =
            (HttpsCF.Compare httpOnlyState).1.effectiveHttp)) :=
  ⟨by decide, HttpsCF.Compare_false_facets httpOnlyState (by decide)⟩

/-- C7 as stated fails: with the Deployment not in the cache (HTTP-only service and network
policy, no secret declared), one round of `Sense`, `Compare`, `Respond` with the patches
applied returns, and `Sense` then `Compare` on the resulting state still returns true. -/
theorem HttpsCF.round_deployment_absent :
    ∃ this' ctx',
      HttpsCF.round Common.model noSecrets {} noDeploymentContext HttpsCF.new =
        .ok (this', ctx') ∧
      HttpsCF.senseCompare noSecrets false ctx' this' = .ok true :=
  ⟨_, _, rfl, rfl⟩

/-- Witness for C7: the modelled helpers on the HTTP-only deployment and service, without a
network policy. -/
theorem HttpsCF.round_converges_witness :
    Common.model.Lawful ∧
    httpOnlyContext.resourceCache.committed = true ∧
    httpOnlyContext.resourceCache.readable = true ∧
    httpOnlyContext.resourceCache.deployment.isSome = true ∧
    httpOnlyContext.resourceCache.service.isSome = true ∧
    ((∃ this' ctx',
        HttpsCF.round Common.model validSecrets {} httpOnlyContext HttpsCF.new =
          .ok (this', ctx') ∧
        HttpsCF.senseCompare validSecrets false ctx' this' = .ok false) ∧
      (∃ this' ctx',
        HttpsCF.tick Common.model validSecrets {} httpOnlyContext HttpsCF.new =
          .ok (this', ctx') ∧
        HttpsCF.senseCompare validSecrets false ctx' this' = .ok false)) :=
  ⟨Common.model_lawful, by decide, by decide, by decide, by decide,
    HttpsCF.round_converges Common.model Common.model_lawful validSecrets {} false
      httpOnlyContext HttpsCF.new (by decide) (by decide) (by decide) (by decide)⟩

/-- The rename, evaluated with the modelled helpers, which edit by name: after the rename
from `old` to `new`, `Compare` returns true and the patched Deployment has the volume and
the mount named `new`, and it still has the volume and the first-container mount named
`old`. -/
theorem HttpsCF.rename_leaves_old :
    (HttpsCF.senseCompare validSecrets false renameContext afterOld = .ok true) ∧
    ∃ this' ctx',
      HttpsCF.round Common.model validSecrets {} renameContext afterOld = .ok (this', ctx') ∧
      ctx'.resourceCache.hasVolume "new" = true ∧
      ctx'.resourceCache.hasVolumeMount "new" = true ∧
      ctx'.resourceCache.hasVolume "old" = true ∧
      ctx'.resourceCache.hasVolumeMount "old" = true :=
  ⟨rfl, _, _, rfl, by decide, by decide, by decide, by decide⟩

/-- Witness for C8: the modelled helpers on the deployment that carries the volume and the
mount of the secret `old`. -/
theorem HttpsCF.rename_adds_new_keeps_old_witness :
    Common.model.Lawful ∧
    renameContext.resourceCache.readable = true ∧
    renameContext.resourceCache.declaredSecretName = "new" ∧
    "new" ≠ "" ∧ "old" ≠ "new" ∧ secretUsable validSecrets "new" = true ∧
    afterOld.previousSecretName = "old" ∧
    renameContext.resourceCache.deployment =
      some (entryOf "registry-deployment" oldSecretDeployment) ∧
    (entryOf "registry-deployment" oldSecretDeployment).value.containers =
      oldSecretContainer :: [] ∧
    (entryOf "registry-deployment" oldSecretDeployment).value.hasVolume "old" = true ∧
    oldSecretContainer.hasVolumeMount "old" = true ∧
    ∃ sensed ctx', HttpsCF.Sense validSecrets false renameContext afterOld = .ok (sensed, ctx') ∧
      (HttpsCF.Compare sensed).2 = true ∧
      ∃ d' c0',
        HttpsCF.Respond.deploymentPatch Common.model (HttpsCF.Compare sensed).1
          (entryOf "registry-deployment" oldSecretDeployment).value = .ok d' ∧
        d'.containers = c0' :: [] ∧
        d'.hasVolume "new" = true ∧ c0'.hasVolumeMount "new" = true ∧
        ((entryOf "registry-deployment" oldSecretDeployment).value.hasVolume "new" = false →
          { name := "new", volumeSource := .secret "new" } ∈ d'.volumes) ∧
        (oldSecretContainer.hasVolumeMount "new" = false →
          { name := "new", mountPath := TlsCertMountPath, readOnly := true } ∈
            c0'.volumeMounts) ∧
        d'.hasVolume "old" = true ∧ c0'.hasVolumeMount "old" = true :=
  by
  obtain ⟨sensed, ctx', h1, h2, _, _, _, h6⟩ :=
    HttpsCF.rename_adds_new_keeps_old Common.model validSecrets false
      renameContext afterOld "old" "new" (entryOf "registry-deployment" oldSecretDeployment)
      oldSecretContainer [] (by decide) (by decide) (by decide) (by decide) (by decide) rfl rfl
      rfl (by decide) (by decide)
  exact ⟨Common.model_lawful, by decide, by decide, by decide, by decide, by decide, rfl, rfl,
    rfl, by decide, by decide, sensed, ctx', h1, h2, h6 Common.model_lawful⟩

/-- Witness for C9 (Scenario 1): the secret `tls-secret` is declared and absent from the
cluster. -/
theorem HttpsCF.Sense_secret_witness :
    declaredSecretContext.resourceCache.readable = true ∧
    ∃ this' ctx',
      HttpsCF.Sense noSecrets false declaredSecretContext HttpsCF.new = .ok (this', ctx') ∧
      this'.targetSecretName = declaredSecretContext.resourceCache.declaredSecretName ∧
      (this'.targetSecretName ≠ "" →
        (this'.secretExists = true ↔
          ∃ secret, noSecrets this'.targetSecretName = some secret ∧
            SecretHasField secret "tls.crt" = true ∧ SecretHasField secret "tls.key" = true) ∧
        (this'.secretExists = true →
          ctx'.effects = declaredSecretContext.effects ++ [.getSecret this'.targetSecretName]) ∧
        (this'.secretExists = false →
          ctx'.effects = declaredSecretContext.effects ++
            [.getSecret this'.targetSecretName,
             .transitionInvalid this'.targetSecretName
               "spec.configuration.security.https.secretName",
             .transitionError,
             .setRequeueDelaySec 10] ∧
          (HttpsCF.Compare this').1.httpsEnabled = false)) ∧
      (this'.targetSecretName = "" →
        this'.secretExists = false ∧ ctx'.effects = declaredSecretContext.effects) :=
  ⟨by decide, HttpsCF.Sense_secret noSecrets false declaredSecretContext HttpsCF.new (by decide)⟩

/-- Scenario 1, evaluated: the declared secret `tls-secret` is absent, so `secretExists` is
false, the configuration error is raised for that name, the requeue delay is 10 seconds, and
`Compare` derives `httpsEnabled = false`; a secret without the key field gives the same. -/
theorem HttpsCF.Sense_scenario1 :
    (∃ this' ctx',
      HttpsCF.Sense noSecrets false declaredSecretContext HttpsCF.new = .ok (this', ctx') ∧
      this'.secretExists = false ∧ (HttpsCF.Compare this').1.httpsEnabled = false ∧
      ctx'.effects =
        [.getSecret "tls-secret",
         .transitionInvalid "tls-secret" "spec.configuration.security.https.secretName",
         .transitionError, .setRequeueDelaySec 10]) ∧
    (∃ this' ctx',
      HttpsCF.Sense keylessSecrets false declaredSecretContext HttpsCF.new = .ok (this', ctx') ∧
      this'.secretExists = false ∧
      ctx'.effects =
        [.getSecret "tls-secret",
         .transitionInvalid "tls-secret" "spec.configuration.security.https.secretName",
         .transitionError, .setRequeueDelaySec 10]) ∧
    (∃ this' ctx',
      HttpsCF.Sense validSecrets false declaredSecretContext HttpsCF.new = .ok (this', ctx') ∧
      this'.secretExists = true ∧ ctx'.effects = [.getSecret "tls-secret"]) :=
  ⟨⟨_, _, rfl, by decide, by decide, by decide⟩, ⟨_, _, rfl, by decide, by decide⟩,
    ⟨_, _, rfl, by decide, by decide⟩⟩

/-- Witness for C10: a context without launch options, the key-file key visited first. -/
theorem HttpsCF.Sense_javaOptionsExists_witness :
    httpOnlyContext.resourceCache.readable = true ∧
    ∃ this' ctx',
      HttpsCF.Sense noSecrets true httpOnlyContext HttpsCF.new = .ok (this', ctx') ∧
      this'.javaOptions = ParseJavaOptionsMap httpOnlyContext ∧
      (this'.javaOptionsExists = true ↔
        (this'.javaOptions.lookup "-Dquarkus.http.ssl.certificate.file" = some "/certs/tls.crt" ∧
         this'.javaOptions.lookup "-Dquarkus.http.ssl.certificate.key-file" =
           some "/certs/tls.key")) :=
  ⟨by decide, HttpsCF.Sense_javaOptionsExists noSecrets true httpOnlyContext HttpsCF.new
    (by decide)⟩

/-- Observation #5, evaluated: launch options with both target keys give true in either
visiting order; a missing key-file key, or a certificate file at another path, gives
false. -/
theorem HttpsCF.Sense_javaOptions_examples :
    (∀ flip, (HttpsCF.Sense.observation5 flip
        { javaOptions := targetJavaOptionsLiteral } HttpsCF.new).javaOptionsExists = true) ∧
    (∀ flip, (HttpsCF.Sense.observation5 flip
        { javaOptions := List.toAList
            [⟨"-Dquarkus.http.ssl.certificate.file", "/certs/tls.crt"⟩] }
        HttpsCF.new).javaOptionsExists = false) ∧
    (∀ flip, (HttpsCF.Sense.observation5 flip
        { javaOptions := List.toAList
            [⟨"-Dquarkus.http.ssl.certificate.file", "/etc/tls.crt"⟩,
             ⟨"-Dquarkus.http.ssl.certificate.key-file", "/certs/tls.key"⟩] }
        HttpsCF.new).javaOptionsExists = false) := by
  refine ⟨fun flip => ?_, fun flip => ?_, fun flip => ?_⟩ <;> cases flip <;> decide

/-! ## The Env Cache -/

namespace Apicurioregistry

/-- Looking a name up in a list whose first entry has that name. -/
theorem EnvCache.find_cons_pos (n : String) (x : EnvCacheEntry) (xs : List EnvCacheEntry)
    (h : (x.GetName == n) = true) :
    (x :: xs).find? (fun y => y.GetName == n) = some x :=
  List.find?_cons_of_pos xs h

/-- Looking a name up in a list whose first entry has another name. -/
theorem EnvCache.find_cons_neg (n : String) (x : EnvCacheEntry) (xs : List EnvCacheEntry)
    (h : ¬ (x.GetName == n) = true) :
    (x :: xs).find? (fun y => y.GetName == n) = xs.find? (fun y => y.GetName == n) :=
  List.find?_cons_of_neg xs h

/-- Looking a name up after `store`: the stored entry under its own name, the former answer
under every other name. -/
theorem EnvCache.find_store (entry : EnvCacheEntry) (n : String) (l : List EnvCacheEntry) :
    (EnvCache.store entry l).find? (fun x => x.GetName == n) =
      if entry.GetName == n then some entry else l.find? (fun x => x.GetName == n) := by
  induction l with
  | nil =>
    by_cases hn : (entry.GetName == n) = true
    · rw [if_pos hn]; exact EnvCache.find_cons_pos n entry [] hn
    · rw [if_neg hn]; exact EnvCache.find_cons_neg n entry [] hn
  | cons x xs ih =>
    by_cases hx : (x.GetName == entry.GetName) = true
    · have hxe : x.GetName = entry.GetName := by simpa using hx
      rw [EnvCache.store, if_pos hx]
      by_cases hn : (entry.GetName == n) = true
      · rw [if_pos hn]; exact EnvCache.find_cons_pos n entry xs hn
      · have hxn : ¬ (x.GetName == n) = true := by rw [hxe]; exact hn
        rw [if_neg hn, EnvCache.find_cons_neg n entry xs hn, EnvCache.find_cons_neg n x xs hxn]
    · have hxe : ¬ x.GetName = entry.GetName := by simpa using hx
      rw [EnvCache.store, if_neg hx]
      by_cases hxn : (x.GetName == n) = true
      · have hn : ¬ (entry.GetName == n) = true := by
          intro h
          exact hxe ((eq_of_beq hxn).trans (eq_of_beq h).symm)
        rw [if_neg hn, EnvCache.find_cons_pos n x _ hxn, EnvCache.find_cons_pos n x _ hxn]
      · rw [EnvCache.find_cons_neg n x _ hxn, EnvCache.find_cons_neg n x _ hxn, ih]

/-- The method `Get` after `Set`. -/
theorem EnvCache.Get_Set (c : EnvCache) (entry : EnvCacheEntry) (n : String) :
    (c.Set entry).Get n = if entry.GetName == n then some entry else c.Get n :=
  EnvCache.find_store entry n c.entries

/-- An entry with a new name is stored in the last place. -/
theorem EnvCache.store_new (entry : EnvCacheEntry) (l : List EnvCacheEntry)
    (h : l.find? (fun x => x.GetName == entry.GetName) = none) :
    EnvCache.store entry l = l ++ [entry] := by
  induction l with
  | nil => rfl
  | cons x xs ih =>
    by_cases hx : (x.GetName == entry.GetName) = true
    · rw [EnvCache.find_cons_pos _ x xs hx] at h
      exact absurd h (by simp)
    · rw [EnvCache.find_cons_neg _ x xs hx] at h
      rw [EnvCache.store, if_neg hx, ih h]
      rfl

/-- The method `Set` with an unmanaged entry under a name that is not managed leaves the
managed names and their entries as they were. -/
theorem EnvCache.managed_Set (c : EnvCache) (e : EnvVar) (h : c.managed e.name = false)
    (n : String) : (c.Set (NewEnvCacheEntryUnmanaged e)).managed n = c.managed n := by
  unfold EnvCache.managed
  rw [EnvCache.Get_Set]
  by_cases hn : e.name = n
  · subst hn
    have : (NewEnvCacheEntryUnmanaged e).GetName = e.name := rfl
    simp only [this, beq_self_eq_true, if_true]
    exact h.symm
  · have : ((NewEnvCacheEntryUnmanaged e).GetName == n) = false := by
      simpa [NewEnvCacheEntryUnmanaged, EnvCacheEntry.GetName] using hn
    simp [this]

/-- One step of the inner loop, by the managed flag of the name. -/
theorem EnvCF.Respond.readEnv_cons (c : EnvCache) (e : EnvVar) (rest : List EnvVar) :
    EnvCF.Respond.readEnv c (e :: rest) =
      if c.managed e.name then EnvCF.Respond.readEnv c rest
      else EnvCF.Respond.readEnv (c.Set (NewEnvCacheEntryUnmanaged e)) rest := by
  unfold EnvCache.managed
  rw [EnvCF.Respond.readEnv]
  cases h : c.Get e.name with
  | none => simp
  | some v => cases hv : v.IsManaged <;> simp [hv]

/-- The inner loop over a concatenation. -/
theorem EnvCF.Respond.readEnv_append (c : EnvCache) (l1 l2 : List EnvVar) :
    EnvCF.Respond.readEnv c (l1 ++ l2) =
      EnvCF.Respond.readEnv (EnvCF.Respond.readEnv c l1) l2 := by
  induction l1 generalizing c with
  | nil => rfl
  | cons e rest ih =>
    rw [List.cons_append, EnvCF.Respond.readEnv_cons, EnvCF.Respond.readEnv_cons]
    split <;> exact ih _

/-- The outer loop reads the variables of the containers named `appName`, and no other. -/
theorem EnvCF.Respond.readContainers_eq (appName : String) (c : EnvCache)
    (cs : List Container) :
    EnvCF.Respond.readContainers appName c cs =
      EnvCF.Respond.readEnv c (liveEnv appName cs) := by
  induction cs generalizing c with
  | nil => rfl
  | cons x xs ih =>
    by_cases hx : (x.name == appName) = true
    · simp only [EnvCF.Respond.readContainers, liveEnv, hx, if_true]
      rw [EnvCF.Respond.readEnv_append, ih]
    · simp only [EnvCF.Respond.readContainers, liveEnv, hx]
      exact ih _

/-- The variables read are those of the containers named `appName`. -/
theorem mem_liveEnv (appName : String) (cs : List Container) (e : EnvVar) :
    e ∈ liveEnv appName cs ↔ ∃ c ∈ cs, c.name = appName ∧ e ∈ c.env := by
  induction cs with
  | nil => simp [liveEnv]
  | cons x xs ih =>
    by_cases hx : x.name = appName
    · simp [liveEnv, hx, ih]
    · simp [liveEnv, hx, ih]

/-- No container named `appName`, no variable read. -/
theorem liveEnv_eq_nil (appName : String) (cs : List Container)
    (h : ∀ c ∈ cs, c.name ≠ appName) : liveEnv appName cs = [] := by
  apply List.eq_nil_iff_forall_not_mem.mpr
  intro e he
  obtain ⟨c, hc, hn, _⟩ := (mem_liveEnv appName cs e).mp he
  exact h c hc hn

/-- The inner loop leaves the managed names as they were. -/
theorem EnvCF.Respond.readEnv_managed (c : EnvCache) (l : List EnvVar) (n : String) :
    (EnvCF.Respond.readEnv c l).managed n = c.managed n := by
  induction l generalizing c with
  | nil => rfl
  | cons e rest ih =>
    rw [EnvCF.Respond.readEnv_cons]
    cases h : c.managed e.name with
    | true => simpa using ih c
    | false =>
      simp only [Bool.false_eq_true, if_false]
      rw [ih, EnvCache.managed_Set c e h]

/-- The calls of `Set` that the inner loop makes: one per variable whose name is not
managed, in the order of the list, each with the unmanaged copy of the variable. -/
theorem EnvCF.Respond.readEnv_setCalls (c : EnvCache) (l : List EnvVar) :
    (EnvCF.Respond.readEnv c l).setCalls =
      c.setCalls ++ (l.filter fun e => !c.managed e.name).map NewEnvCacheEntryUnmanaged := by
  induction l generalizing c with
  | nil => simp [EnvCF.Respond.readEnv]
  | cons e rest ih =>
    rw [EnvCF.Respond.readEnv_cons]
    cases h : c.managed e.name with
    | true => simp [ih, h]
    | false =>
      have hm : (c.Set (NewEnvCacheEntryUnmanaged e)).managed = c.managed :=
        funext (EnvCache.managed_Set c e h)
      have hs : (c.Set (NewEnvCacheEntryUnmanaged e)).setCalls =
          c.setCalls ++ [NewEnvCacheEntryUnmanaged e] := rfl
      simp only [Bool.false_eq_true, if_false]
      rw [ih, hm, hs, List.filter_cons_of_pos (by simp [h]), List.map_cons,
        List.append_assoc]
      rfl

/-- The inner loop leaves every entry flagged managed as it was. -/
theorem EnvCF.Respond.readEnv_Get_managed (c : EnvCache) (l : List EnvVar) (n : String)
    (v : EnvCacheEntry) (hg : c.Get n = some v) (hv : v.IsManaged = true) :
    (EnvCF.Respond.readEnv c l).Get n = some v := by
  induction l generalizing c with
  | nil => exact hg
  | cons e rest ih =>
    rw [EnvCF.Respond.readEnv_cons]
    cases h : c.managed e.name with
    | true => simpa using ih c hg
    | false =>
      simp only [Bool.false_eq_true, if_false]
      apply ih
      rw [EnvCache.Get_Set]
      have hne : ¬ e.name = n := by
        intro he
        subst he
        simp [EnvCache.managed, hg, hv] at h
      have : ((NewEnvCacheEntryUnmanaged e).GetName == n) = false := by
        simpa [NewEnvCacheEntryUnmanaged, EnvCacheEntry.GetName] using hne
      simp [this, hg]

/-- The inner loop on variables with distinct names of which none is in the cache: the
entries of the cache stay in their order and the unmanaged copies follow in the order of
the list. -/
theorem EnvCF.Respond.readEnv_entries_new (c : EnvCache) (l : List EnvVar)
    (hd : (l.map fun e => e.name).Nodup) (hn : ∀ e ∈ l, c.Get e.name = none) :
    (EnvCF.Respond.readEnv c l).entries = c.entries ++ l.map NewEnvCacheEntryUnmanaged := by
  induction l generalizing c with
  | nil => simp [EnvCF.Respond.readEnv]
  | cons e rest ih =>
    have he : c.Get e.name = none := hn e (List.mem_cons_self _ _)
    have hm : c.managed e.name = false := by simp [EnvCache.managed, he]
    rw [EnvCF.Respond.readEnv_cons, hm]
    simp only [Bool.false_eq_true, if_false]
    rw [List.map_cons, List.nodup_cons] at hd
    rw [ih _ hd.2]
    · have : (c.Set (NewEnvCacheEntryUnmanaged e)).entries =
          c.entries ++ [NewEnvCacheEntryUnmanaged e] :=
        EnvCache.store_new _ _ he
      rw [this]
      simp
    · intro x hx
      rw [EnvCache.Get_Set]
      have hne : ¬ e.name = x.name := fun h => hd.1 (h ▸ List.mem_map_of_mem _ hx)
      have : ((NewEnvCacheEntryUnmanaged e).GetName == x.name) = false := by
        simpa [NewEnvCacheEntryUnmanaged, EnvCacheEntry.GetName] using hne
      simp [this, hn x (List.mem_cons_of_mem _ hx)]

/-- The method `Respond` on a cached Deployment returns, with the Env Cache that the two
loops leave, the dirty flag cleared, and one more patch in the queue. -/
theorem EnvCF.Respond_cached (ctx : ControlLoopContext) (this : EnvCF)
    (entry : ResourceCacheEntry) (d : Deployment)
    (he : ctx.resourceCache.deployment = some entry) (hv : entry.value = some d) :
    EnvCF.Respond ctx this =
      .ok ({ this with lastDeploymentName := this.deploymentName },
           { ctx with
             resourceCache :=
               { ctx.resourceCache with
                 deployment :=
                   some (entry.ApplyPatch (EnvCF.Respond.patch ctx.appName ctx.sorted)) }
             envCache :=
               (EnvCF.Respond.readEnv ctx.envCache
                 (liveEnv ctx.appName d.containers)).ResetChanged }) := by
  unfold EnvCF.Respond
  simp only [ResourceCache.Get, he, ResourceCacheEntry.GetValue, hv, Option.map_some',
    EnvCF.Respond.readContainers_eq]

/-- The snapshot of an entry with one more patch queued. -/
theorem ResourceCacheEntry.patched_ApplyPatch (entry : ResourceCacheEntry)
    (fn : EnvCache → Deployment → Deployment) (envCache : EnvCache) :
    (entry.ApplyPatch fn).patched envCache = (entry.patched envCache).map (fn envCache) := by
  unfold ResourceCacheEntry.patched ResourceCacheEntry.ApplyPatch
  cases entry.value <;> simp [List.foldl_append]

/-- C12. For every cached Deployment and every Env Cache content, `EnvCF.Respond` returns
and the calls of `Set` it makes are, in order, one per variable of the containers named
as the application whose name is not in the cache or whose cache entry is not flagged
managed, each with the unmanaged copy of that variable; every cache entry flagged managed
is the same entry afterwards; and when no container has the application name, no `Set` is
called and the entries of the cache are as before. -/
theorem EnvCF.Respond_reads_unmanaged (ctx : ControlLoopContext) (this : EnvCF)
    (entry : ResourceCacheEntry) (d : Deployment)
    (he : ctx.resourceCache.deployment = some entry) (hv : entry.value = some d) :
    ∃ this' ctx',
      EnvCF.Respond ctx this = .ok (this', ctx') ∧
      ctx'.envCache.setCalls =
        ctx.envCache.setCalls ++
          ((liveEnv ctx.appName d.containers).filter fun e =>
            match ctx.envCache.Get e.name with
            | none => true
            | some v => !v.IsManaged).map NewEnvCacheEntryUnmanaged ∧
      (∀ e, e ∈ liveEnv ctx.appName d.containers ↔
        ∃ c ∈ d.containers, c.name = ctx.appName ∧ e ∈ c.env) ∧
      (∀ n v, ctx.envCache.Get n = some v → v.IsManaged = true →
        ctx'.envCache.Get n = some v) ∧
      ((∀ c ∈ d.containers, c.name ≠ ctx.appName) →
        ctx'.envCache.setCalls = ctx.envCache.setCalls ∧
        ctx'.envCache.entries = ctx.envCache.entries) := by
  refine ⟨_, _, EnvCF.Respond_cached ctx this entry d he hv, ?_, ?_, ?_, ?_⟩
  · show (EnvCF.Respond.readEnv ctx.envCache (liveEnv ctx.appName d.containers)).setCalls = _
    rw [EnvCF.Respond.readEnv_setCalls]
    congr 2
    apply List.filter_congr
    intro e _
    unfold EnvCache.managed
    cases ctx.envCache.Get e.name <;> rfl
  · exact mem_liveEnv ctx.appName d.containers
  · intro n v hg hm
    exact EnvCF.Respond.readEnv_Get_managed ctx.envCache _ n v hg hm
  · intro h
    show (EnvCF.Respond.readEnv ctx.envCache (liveEnv ctx.appName d.containers)).setCalls = _ ∧
      (EnvCF.Respond.readEnv ctx.envCache (liveEnv ctx.appName d.containers)).entries = _
    rw [liveEnv_eq_nil ctx.appName d.containers h]
    exact ⟨rfl, rfl⟩

/-- Witness for C12: the managed `D` edited by hand, the unmanaged `U` with a new value and
the new `N`, with a side container. -/
theorem EnvCF.Respond_reads_unmanaged_witness :
    mergeContext.resourceCache.deployment = some mergeEntry ∧
    mergeEntry.value = some (deploymentWith
      [{ name := "D", value := "edited" }, { name := "U", value := "new" }, var "N"]) ∧
    ∃ this' ctx',
      EnvCF.Respond mergeContext EnvCF.new = .ok (this', ctx') ∧
      ctx'.envCache.setCalls =
        mergeContext.envCache.setCalls ++
          ((liveEnv mergeContext.appName (deploymentWith
              [{ name := "D", value := "edited" }, { name := "U", value := "new" },
               var "N"]).containers).filter fun e =>
            match mergeContext.envCache.Get e.name with
            | none => true
            | some v => !v.IsManaged).map NewEnvCacheEntryUnmanaged ∧
      (∀ e, e ∈ liveEnv mergeContext.appName (deploymentWith
              [{ name := "D", value := "edited" }, { name := "U", value := "new" },
               var "N"]).containers ↔
        ∃ c ∈ (deploymentWith
              [{ name := "D", value := "edited" }, { name := "U", value := "new" },
               var "N"]).containers, c.name = mergeContext.appName ∧ e ∈ c.env) ∧
      (∀ n v, mergeContext.envCache.Get n = some v → v.IsManaged = true →
        ctx'.envCache.Get n = some v) ∧
      ((∀ c ∈ (deploymentWith
              [{ name := "D", value := "edited" }, { name := "U", value := "new" },
               var "N"]).containers, c.name ≠ mergeContext.appName) →
        ctx'.envCache.setCalls = mergeContext.envCache.setCalls ∧
        ctx'.envCache.entries = mergeContext.envCache.entries) :=
  ⟨rfl, rfl, EnvCF.Respond_reads_unmanaged mergeContext EnvCF.new mergeEntry _ rfl rfl⟩

/-- The merge, evaluated: `Set` is called for `U` and for `N` with their live values and not
for the managed `D`, whose entry keeps its value; the variable of the side container is not
read; the dirty flag is cleared. -/
theorem EnvCF.Respond_merge_example :
    ∃ this' ctx',
      EnvCF.Respond mergeContext EnvCF.new = .ok (this', ctx') ∧
      ctx'.envCache.setCalls =
        [NewEnvCacheEntryUnmanaged { name := "U", value := "new" },
         NewEnvCacheEntryUnmanaged (var "N")] ∧
      ctx'.envCache.entries =
        [NewSimpleEnvCacheEntry "D" "D",
         NewEnvCacheEntryUnmanaged { name := "U", value := "new" },
         NewEnvCacheEntryUnmanaged (var "N")] ∧
      ctx'.envCache.changed = false :=
  ⟨_, _, rfl, by decide, by decide, by decide⟩

/-- What `Respond` writes, for every order of the Env Cache.  On a cached Deployment
`Respond` returns, and the patch it queued, run after the patches queued before it with the
Env Cache as `Respond` left it, writes the result of `GetSorted` on that cache as the
variable list of every container named as the application and leaves the other containers
as they are.  When the live variables have distinct names of which none is in the cache,
the cache then stores the entries it held before followed by the unmanaged copies of the
live variables, in the order of the `Set` calls. -/
theorem EnvCF.Respond_writes_sorted (ctx : ControlLoopContext) (this : EnvCF)
    (entry : ResourceCacheEntry) (d : Deployment)
    (he : ctx.resourceCache.deployment = some entry) (hv : entry.value = some d) :
    ∃ this' ctx' entry',
      EnvCF.Respond ctx this = .ok (this', ctx') ∧
      ctx'.resourceCache.deployment = some entry' ∧
      entry'.patched ctx'.envCache =
        (entry.patched ctx'.envCache).map (fun d0 =>
          { d0 with
            containers := d0.containers.map fun c =>
              if c.name == ctx.appName then
                { c with env := ctx'.envCache.GetSorted ctx.sorted }
              else c }) ∧
      (((liveEnv ctx.appName d.containers).map fun e => e.name).Nodup →
        (∀ e ∈ liveEnv ctx.appName d.containers, ctx.envCache.Get e.name = none) →
        ctx'.envCache.entries =
          ctx.envCache.entries ++
            (liveEnv ctx.appName d.containers).map NewEnvCacheEntryUnmanaged) := by
  refine ⟨_, _, _, EnvCF.Respond_cached ctx this entry d he hv, rfl, ?_, ?_⟩
  · rw [ResourceCacheEntry.patched_ApplyPatch]
    rfl
  · intro hd hn
    exact EnvCF.Respond.readEnv_entries_new ctx.envCache _ hd hn

/-- The order scenario, evaluated for two orders of the Env Cache: the live application
container has `[A, B, C]`, none of them in the cache, and the cache holds the one managed
entry `D`.  `Respond` stores `A`, `B`, `C` after `D`.  When `GetSorted` lists the names as
first stored the patch writes `[D, A, B, C]`; when it lists the unmanaged entries before
the managed ones the patch writes `[A, B, C, D]`.  The side container keeps its
variable. -/
theorem EnvCF.Respond_order_examples :
    (∃ this' ctx' entry',
      EnvCF.Respond (orderContext storedOrder) EnvCF.new = .ok (this', ctx') ∧
      ctx'.resourceCache.deployment = some entry' ∧
      ctx'.envCache.entries =
        [NewSimpleEnvCacheEntry "D" "D", NewEnvCacheEntryUnmanaged (var "A"),
         NewEnvCacheEntryUnmanaged (var "B"), NewEnvCacheEntryUnmanaged (var "C")] ∧
      (entry'.patched ctx'.envCache).map (fun d => d.containers.map fun c => c.env) =
        some [[var "D", var "A", var "B", var "C"], [var "P"]]) ∧
    (∃ this' ctx' entry',
      EnvCF.Respond (orderContext unmanagedFirst) EnvCF.new = .ok (this', ctx') ∧
      ctx'.resourceCache.deployment = some entry' ∧
      ctx'.envCache.entries =
        [NewSimpleEnvCacheEntry "D" "D", NewEnvCacheEntryUnmanaged (var "A"),
         NewEnvCacheEntryUnmanaged (var "B"), NewEnvCacheEntryUnmanaged (var "C")] ∧
      (entry'.patched ctx'.envCache).map (fun d => d.containers.map fun c => c.env) =
        some [[var "A", var "B", var "C", var "D"], [var "P"]]) :=
  ⟨⟨_, _, _, rfl, rfl, by decide, by decide⟩, ⟨_, _, _, rfl, rfl, by decide, by decide⟩⟩

/-- The method `EnvCF.Sense` on a miss that `Get` answers with the nil entry: the call of
`GetName()` panics. -/
theorem EnvCF.Sense_miss_nil (ctx : ControlLoopContext) (this : EnvCF)
    (hd : ctx.resourceCache.deployment = none) (hm : ctx.resourceCache.miss = none) :
    EnvCF.Sense ctx this = .error .nilDereference := by
  simp [EnvCF.Sense, ResourceCache.Get, hd, hm]

/-- The method `EnvCF.Sense` on a miss that `Get` answers with an entry: `Sense` returns
with `deploymentExists = false` and the name of that entry, and `Compare` is then false. -/
theorem EnvCF.Sense_miss_entry (ctx : ControlLoopContext) (this : EnvCF)
    (entry : ResourceCacheEntry)
    (hd : ctx.resourceCache.deployment = none) (hm : ctx.resourceCache.miss = some entry) :
    ∃ this', EnvCF.Sense ctx this = .ok this' ∧
      this'.deploymentExists = false ∧ this'.deploymentName = entry.name ∧
      this'.Compare = false := by
  refine ⟨{ this with deploymentExists := false, deploymentName := entry.GetName,
                      envCacheUpdated := ctx.envCache.IsChanged }, ?_, rfl, rfl, ?_⟩
  · simp only [EnvCF.Sense, ResourceCache.Get, hd, hm]
  · simp [EnvCF.Compare]

/-- The method `EnvCF.Sense` on a cached Deployment returns with `deploymentExists = true`
and the name of the entry. -/
theorem EnvCF.Sense_found (ctx : ControlLoopContext) (this : EnvCF)
    (entry : ResourceCacheEntry) (hd : ctx.resourceCache.deployment = some entry) :
    ∃ this', EnvCF.Sense ctx this = .ok this' ∧
      this'.deploymentExists = true ∧ this'.deploymentName = entry.name := by
  refine ⟨{ this with deploymentExists := true, deploymentName := entry.GetName,
                      envCacheUpdated := ctx.envCache.IsChanged }, ?_, rfl, rfl⟩
  simp only [EnvCF.Sense, ResourceCache.Get, hd]

/-- The miss of `EnvCF`, evaluated for a fresh receiver: with the nil entry `Sense` panics;
with the entry named `RC_EMPTY_NAME` it returns with `deploymentExists = false`. -/
theorem EnvCF.Sense_miss_examples :
    EnvCF.Sense (missContext none) EnvCF.new = .error .nilDereference ∧
    EnvCF.Sense (missContext (some emptyEntry)) EnvCF.new =
      .ok { deploymentExists := false, deploymentName := RC_EMPTY_NAME,
            envCacheUpdated := false, lastDeploymentName := RC_EMPTY_NAME } :=
  ⟨rfl, rfl⟩

end Apicurioregistry

/-! ## Cache misses -/

/-- A cache is readable when its cached Deployment, if any, has a container and its cached
NetworkPolicy, if any, is readable; an absent entry asks for nothing. -/
theorem ResourceCache.readable_of_present (cache : ResourceCache)
    (hd : ∀ e, cache.deployment = some e → e.value.containers ≠ [])
    (hp : ∀ e, cache.networkPolicy = some e → e.value.readable = true) :
    cache.readable = true := by
  unfold ResourceCache.readable ResourceCache.deploymentReadable ResourceCache.policyReadable
  rw [Bool.and_eq_true_iff]
  constructor
  · cases h : cache.deployment with
    | none => rfl
    | some e =>
      have := hd e h
      cases hc : e.value.containers with
      | nil => exact absurd hc this
      | cons c cs => simp [hc]
  · cases h : cache.networkPolicy with
    | none => rfl
    | some e => exact hp e h

/-- The cached flags that `LabelsCF.Sense` leaves: each tells whether the entry is in the
cache. -/
theorem LabelsCF.Sense_cached (cache : ResourceCache) (this : LabelsCF) :
    (LabelsCF.Sense cache this).deploymentIsCached = cache.deployment.isSome ∧
    (LabelsCF.Sense cache this).serviceIsCached = cache.service.isSome ∧
    (LabelsCF.Sense cache this).ingressIsCached = cache.ingress.isSome ∧
    (LabelsCF.Sense cache this).pdbV1beta1IsCached = cache.pdbV1beta1.isSome ∧
    (LabelsCF.Sense cache this).pdbV1IsCached = cache.pdbV1.isSome := by
  unfold LabelsCF.Sense
  cases cache.spec <;> cases cache.deployment <;> cases cache.service <;> cases cache.ingress <;>
    cases cache.pdbV1beta1 <;> cases cache.pdbV1 <;>
    exact ⟨rfl, rfl, rfl, rfl, rfl⟩

/-- What `Sense` records for absent entries.  `HttpsCF.Sense` returns on every cache whose
cached Deployment, if any, has a first container and whose cached NetworkPolicy, if any,
has protocol and port set on its ports, whichever entries are absent: without the spec the
secret name is empty, HTTP is enabled and no call is made; without the Service, the
Deployment or the NetworkPolicy the facets read from it are false, and
`networkPolicyExists` is false.  `LabelsCF.Sense` records every absent resource as not
cached.  `ProfileCF.Sense` does not read the resource cache. -/
theorem Sense_records_misses (kube : Kube) (flip : Bool) (ctx : LoopContext)
    (https : HttpsCF) (labels : LabelsCF) (ectx : Apicurioregistry.ControlLoopContext)
    (profile : Apicurioregistry.ProfileCF)
    (hd : ∀ e, ctx.resourceCache.deployment = some e → e.value.containers ≠ [])
    (hp : ∀ e, ctx.resourceCache.networkPolicy = some e → e.value.readable = true) :
    (∃ https' ctx',
      HttpsCF.Sense kube flip ctx https = .ok (https', ctx') ∧
      (ctx.resourceCache.spec = none →
        https'.targetSecretName = "" ∧ https'.httpEnabled = true ∧
        https'.secretExists = false ∧ ctx'.effects = ctx.effects) ∧
      (ctx.resourceCache.service = none →
        https'.serviceHttpsPortExists = false ∧ https'.serviceHttpPortExists = false) ∧
      (ctx.resourceCache.deployment = none →
        https'.secretVolumeExists = false ∧ https'.secretVolumeMountExists = false ∧
        https'.containerHttpsPortExists = false ∧ https'.containerHttpPortExists = false) ∧
      (ctx.resourceCache.networkPolicy = none →
        https'.networkPolicyExists = false ∧ https'.networkPolicyHttpsPortExists = false ∧
        https'.networkPolicyHttpPortExists = false)) ∧
    ((ctx.resourceCache.deployment = none →
        (LabelsCF.Sense ctx.resourceCache labels).deploymentIsCached = false) ∧
     (ctx.resourceCache.service = none →
        (LabelsCF.Sense ctx.resourceCache labels).serviceIsCached = false) ∧
     (ctx.resourceCache.ingress = none →
        (LabelsCF.Sense ctx.resourceCache labels).ingressIsCached = false) ∧
     (ctx.resourceCache.pdbV1beta1 = none →
        (LabelsCF.Sense ctx.resourceCache labels).pdbV1beta1IsCached = false) ∧
     (ctx.resourceCache.pdbV1 = none →
        (LabelsCF.Sense ctx.resourceCache labels).pdbV1IsCached = false)) ∧
    (∀ resourceCache,
      Apicurioregistry.ProfileCF.Sense { ectx with resourceCache := resourceCache } profile =
        Apicurioregistry.ProfileCF.Sense ectx profile) := by
  refine ⟨⟨_, _, HttpsCF.Sense_eq kube flip ctx https
      (ResourceCache.readable_of_present _ hd hp), ?_, ?_, ?_, ?_⟩, ?_, ?_⟩
  · intro h
    simp [HttpsCF.observed, ResourceCache.declaredSecretName, ResourceCache.declaredHttpEnabled,
      secretEffects, h]
  · intro h
    simp [HttpsCF.observed, ResourceCache.serviceHasPort, h]
  · intro h
    simp [HttpsCF.observed, ResourceCache.hasVolume, ResourceCache.hasVolumeMount,
      ResourceCache.containerHasPort, ResourceCache.firstContainer, h]
  · intro h
    simp [HttpsCF.observed, ResourceCache.policyAllows, h]
  · obtain ⟨h1, h2, h3, h4, h5⟩ := LabelsCF.Sense_cached ctx.resourceCache labels
    refine ⟨?_, ?_, ?_, ?_, ?_⟩
    · intro h; rw [h1, h]; rfl
    · intro h; rw [h2, h]; rfl
    · intro h; rw [h3, h]; rfl
    · intro h; rw [h4, h]; rfl
    · intro h; rw [h5, h]; rfl
  · intro resourceCache
    rfl

/-- Without the spec in the cache `LabelsCF.Sense` does not reset the extra pod labels: the
receiver keeps those of the run before. -/
theorem LabelsCF.Sense_spec_absent (cache : ResourceCache) (this : LabelsCF)
    (h : cache.spec = none) :
    (LabelsCF.Sense cache this).additionalDeploymentPodLabels =
      this.additionalDeploymentPodLabels := by
  rw [(LabelsCF.Sense_fields cache this none none).1, h]

/-- C13, the failing input.  The cache holds one entry, a NetworkPolicy with a rule for all
TCP ports (the protocol is set, the port is not); the Deployment, the Service, the spec,
the Ingress and both PodDisruptionBudget variants are absent.  For every cluster, every
visiting order and every receiver `HttpsCF.Sense` does not complete: Observation #6 calls
`port.Port.IntValue()` on the nil port and panics. -/
theorem HttpsCF.Sense_all_tcp_policy_panics (kube : Kube) (flip : Bool) (this : HttpsCF) :
    allTcpPolicyContext.resourceCache.deployment.isNone = true ∧
    allTcpPolicyContext.resourceCache.service.isNone = true ∧
    allTcpPolicyContext.resourceCache.spec.isNone = true ∧
    allTcpPolicyContext.resourceCache.ingress.isNone = true ∧
    allTcpPolicyContext.resourceCache.pdbV1beta1.isNone = true ∧
    allTcpPolicyContext.resourceCache.pdbV1.isNone = true ∧
    HttpsCF.Sense kube flip allTcpPolicyContext this = .error .nilDereference := by
  refine ⟨rfl, rfl, rfl, rfl, rfl, rfl, ?_⟩
  rw [HttpsCF.Sense_panics kube flip allTcpPolicyContext this (by decide)]
  rfl

/-! ## The HTTP toggle -/

/-- The container port edits on the HTTP port, by the flags of the receiver. -/
theorem HttpsCF.Respond.editPorts_http_eq (H : Common) (hH : H.Lawful) (this : HttpsCF)
    (c : Container) :
    (HttpsCF.Respond.editPorts H this c).hasPort HttpPort =
      if this.effectiveHttp then c.hasPort HttpPort || !this.containerHttpPortExists
      else c.hasPort HttpPort && !this.containerHttpPortExists := by
  unfold HttpsCF.Respond.editPorts HttpsCF.effectiveHttp
  cases this.httpsEnabled <;> cases this.containerHttpsPortExists <;>
    cases this.httpEnabled <;> cases this.containerHttpPortExists <;>
    simp [hH.addPort_hasPort, hH.removePort_hasPort, HttpPort_ne_HttpsPort]

/-- The service patch on the HTTP port, by the flags of the receiver. -/
theorem HttpsCF.Respond.servicePatch_http_eq (H : Common) (hH : H.Lawful) (this : HttpsCF)
    (s : Service) :
    ∃ s', HttpsCF.Respond.servicePatch H this s = .ok s' ∧
      s'.hasPort HttpPort =
        if this.effectiveHttp then s.hasPort HttpPort || !this.serviceHttpPortExists
        else s.hasPort HttpPort && !this.serviceHttpPortExists := by
  refine ⟨_, rfl, ?_⟩
  unfold HttpsCF.effectiveHttp
  cases this.httpsEnabled <;> cases this.serviceHttpsPortExists <;>
    cases this.httpEnabled <;> cases this.serviceHttpPortExists <;>
    simp [hH.addServicePort_hasPort, hH.removeServicePort_hasPort, HttpPort_ne_HttpsPort]

/-- The network policy patch on the HTTP rule, by the flags of the receiver. -/
theorem HttpsCF.Respond.networkPolicyPatch_http_eq (H : Common) (hH : H.Lawful)
    (this : HttpsCF) (policy : NetworkPolicy) :
    ∃ policy', HttpsCF.Respond.networkPolicyPatch H this policy = .ok policy' ∧
      policy'.allows HttpPort =
        if this.effectiveHttp then policy.allows HttpPort || !this.networkPolicyHttpPortExists
        else policy.allows HttpPort && !this.networkPolicyHttpPortExists := by
  refine ⟨_, rfl, ?_⟩
  unfold HttpsCF.effectiveHttp
  cases this.httpsEnabled <;> cases this.networkPolicyHttpsPortExists <;>
    cases this.httpEnabled <;> cases this.networkPolicyHttpPortExists <;>
    simp [hH.addRule_allows, hH.removeRule_allows, HttpPort_ne_HttpsPort]

/-- C14. HTTP is always on if HTTPS is off.  `Respond` queues the Deployment, Service and
NetworkPolicy patches on the cached entries.  With edit helpers that keep the contract of
the spec, and for every receiver with `httpsEnabled = false`, whatever `httpEnabled` is,
each patch leaves the HTTP facet present when it was present and adds it when `Sense` had
found it missing: container port 8080, service port 8080, rule for TCP 8080.  For every
receiver, an HTTP facet that was present and is absent after the patch implies
`httpsEnabled = true` and `httpEnabled = false`. -/
theorem HttpsCF.Respond_http_on_without_https (H : Common) (hH : H.Lawful)
    (flipAdd flipDelete : Bool) (ctx : LoopContext) (this : HttpsCF)
    (d : Deployment) (c0 : Container) (cs : List Container) (s : Service)
    (policy : NetworkPolicy) (hc : d.containers = c0 :: cs) :
    (HttpsCF.Respond H flipAdd flipDelete ctx this).2.resourceCache =
      { ctx.resourceCache with
        deployment :=
          HttpsCF.Respond.queue (HttpsCF.Respond.deploymentPatch H this)
            ctx.resourceCache.deployment
        service :=
          HttpsCF.Respond.queue (HttpsCF.Respond.servicePatch H this) ctx.resourceCache.service
        networkPolicy :=
          HttpsCF.Respond.queue (HttpsCF.Respond.networkPolicyPatch H this)
            ctx.resourceCache.networkPolicy } ∧
    ∃ d' c0' s' policy',
      HttpsCF.Respond.deploymentPatch H this d = .ok d' ∧ d'.containers = c0' :: cs ∧
      HttpsCF.Respond.servicePatch H this s = .ok s' ∧
      HttpsCF.Respond.networkPolicyPatch H this policy = .ok policy' ∧
      (this.httpsEnabled = false →
        c0'.hasPort HttpPort = (c0.hasPort HttpPort || !this.containerHttpPortExists) ∧
        s'.hasPort HttpPort = (s.hasPort HttpPort || !this.serviceHttpPortExists) ∧
        policy'.allows HttpPort =
          (policy.allows HttpPort || !this.networkPolicyHttpPortExists)) ∧
      (c0.hasPort HttpPort = true → c0'.hasPort HttpPort = false →
        this.httpsEnabled = true ∧ this.httpEnabled = false) ∧
      (s.hasPort HttpPort = true → s'.hasPort HttpPort = false →
        this.httpsEnabled = true ∧ this.httpEnabled = false) ∧
      (policy.allows HttpPort = true → policy'.allows HttpPort = false →
        this.httpsEnabled = true ∧ this.httpEnabled = false) := by
  obtain ⟨s', hs', hsp⟩ := HttpsCF.Respond.servicePatch_http_eq H hH this s
  obtain ⟨policy', hp', hpp⟩ := HttpsCF.Respond.networkPolicyPatch_http_eq H hH this policy
  have hcp := HttpsCF.Respond.editPorts_http_eq H hH this (HttpsCF.Respond.editMounts H this c0)
  have hports : (HttpsCF.Respond.editMounts H this c0).hasPort HttpPort = c0.hasPort HttpPort := by
    unfold Container.hasPort
    rw [HttpsCF.Respond.editMounts_ports H hH]
  rw [hports] at hcp
  have off : ∀ a b : Bool, (if this.effectiveHttp = true then (a || !b) else (a && !b)) = false →
      a = true → this.httpsEnabled = true ∧ this.httpEnabled = false := by
    intro a b h ha
    subst ha
    unfold HttpsCF.effectiveHttp at h
    cases he : this.httpsEnabled <;> cases hh : this.httpEnabled <;> simp [he, hh] at h ⊢
  refine ⟨(HttpsCF.Respond_eq H flipAdd flipDelete ctx this).1, _, _, s', policy',
    HttpsCF.Respond.deploymentPatch_eq H hH this d c0 cs hc, rfl, hs', hp', ?_, ?_, ?_, ?_⟩
  · intro he
    have heff : this.effectiveHttp = true := by simp [HttpsCF.effectiveHttp, he]
    rw [heff] at hcp hsp hpp
    exact ⟨hcp, hsp, hpp⟩
  · intro h1 h2
    exact off _ _ (hcp ▸ h2) h1
  · intro h1 h2
    exact off _ _ (hsp ▸ h2) h1
  · intro h1 h2
    exact off _ _ (hpp ▸ h2) h1

/-- Witness for C14: the modelled helpers, HTTP disabled in the spec while HTTPS is off, on
resources without the HTTP facet. -/
theorem HttpsCF.Respond_http_on_without_https_witness :
    Common.model.Lawful ∧
    bareDeployment.containers =
      { name := "registry", ports := [], volumeMounts := [], env := [] } :: [] ∧
    ∃ d' c0' s' policy',
      HttpsCF.Respond.deploymentPatch Common.model httpDisabledState bareDeployment = .ok d' ∧
      d'.containers = c0' :: [] ∧
      HttpsCF.Respond.servicePatch Common.model httpDisabledState bareService = .ok s' ∧
      HttpsCF.Respond.networkPolicyPatch Common.model httpDisabledState barePolicy =
        .ok policy' ∧
      c0'.hasPort HttpPort = true ∧ s'.hasPort HttpPort = true ∧
      policy'.allows HttpPort = true := by
  obtain ⟨_, d', c0', s', policy', h1, h2, h3, h4, hoff, _⟩ :=
    HttpsCF.Respond_http_on_without_https Common.model Common.model_lawful false false {}
      httpDisabledState bareDeployment _ [] bareService barePolicy rfl
  obtain ⟨hc, hs, hp⟩ := hoff rfl
  exact ⟨Common.model_lawful, rfl, d', c0', s', policy', h1, h2, h3, h4,
    by rw [hc]; rfl, by rw [hs]; rfl, by rw [hp]; rfl⟩

/-- The HTTP toggle, evaluated with the modelled helpers: with HTTPS off and HTTP disabled
in the spec the patches add port 8080 to a container, a service and a policy that lack it;
with HTTPS on and HTTP disabled they remove it. -/
theorem HttpsCF.Respond_http_examples :
    ((HttpsCF.Respond.deploymentPatch Common.model httpDisabledState bareDeployment).toOption.map
        fun d => d.containers.map fun c => c.hasPort HttpPort) = some [true] ∧
    ((HttpsCF.Respond.servicePatch Common.model httpDisabledState bareService).toOption.map
        fun s => s.hasPort HttpPort) = some true ∧
    ((HttpsCF.Respond.networkPolicyPatch Common.model httpDisabledState barePolicy).toOption.map
        fun p => p.allows HttpPort) = some true ∧
    ((HttpsCF.Respond.deploymentPatch Common.model
        { httpDisabledState with httpsEnabled := true, containerHttpPortExists := true }
        httpDeployment).toOption.map
        fun d => d.containers.map fun c => c.hasPort HttpPort) = some [false] := by
  refine ⟨by decide, by decide, by decide, by decide⟩

/-! ## The secret volume under an empty secret name -/

/-- C15. When the spec names no secret, `Sense` returns on a readable cache with
`secretVolumeExists` and `secretVolumeMountExists` false, whatever volumes and mounts the
cached Deployment has; `Compare` derives `httpsEnabled = false`, equal to both facets; and
the Deployment patch of `Respond` (with edit helpers that keep the contract of the spec)
returns a Deployment with the same volumes and a first container with the same volume
mounts, the other containers untouched. -/
theorem HttpsCF.empty_secret_name_keeps_volume (H : Common) (hH : H.Lawful) (kube : Kube)
    (flip : Bool) (ctx : LoopContext) (this : HttpsCF)
    (hr : ctx.resourceCache.readable = true)
    (hn : ctx.resourceCache.declaredSecretName = "") :
    ∃ sensed ctx', HttpsCF.Sense kube flip ctx this = .ok (sensed, ctx') ∧
      sensed.targetSecretName = "" ∧
      sensed.secretVolumeExists = false ∧ sensed.secretVolumeMountExists = false ∧
      (HttpsCF.Compare sensed).1.httpsEnabled = false ∧
      (HttpsCF.Compare sensed).1.httpsEnabled = (HttpsCF.Compare sensed).1.secretVolumeExists ∧
      (HttpsCF.Compare sensed).1.httpsEnabled =
        (HttpsCF.Compare sensed).1.secretVolumeMountExists ∧
      ∀ (d : Deployment) (c0 : Container) (cs : List Container), d.containers = c0 :: cs →
        ∃ d' c0', HttpsCF.Respond.deploymentPatch H (HttpsCF.Compare sensed).1 d = .ok d' ∧
          d'.containers = c0' :: cs ∧
          d'.volumes = d.volumes ∧ c0'.volumeMounts = c0.volumeMounts := by
  refine ⟨_, _, HttpsCF.Sense_eq kube flip ctx this hr, hn, ?_, ?_, ?_, ?_, ?_, ?_⟩
  · simp [HttpsCF.observed, hn]
  · simp [HttpsCF.observed, hn]
  · simp [HttpsCF.Compare, HttpsCF.observed, hn]
  · simp [HttpsCF.Compare, HttpsCF.observed, hn]
  · simp [HttpsCF.Compare, HttpsCF.observed, hn]
  · intro d c0 cs hc
    generalize hC : (HttpsCF.Compare (HttpsCF.observed kube ctx this)).1 = C
    have he : C.httpsEnabled = false := by
      rw [← hC]; simp [HttpsCF.Compare, HttpsCF.observed, hn]
    have hv : C.secretVolumeExists = false := by
      rw [← hC]; simp [HttpsCF.Compare, HttpsCF.observed, hn]
    have hm : C.secretVolumeMountExists = false := by
      rw [← hC]; simp [HttpsCF.Compare, HttpsCF.observed, hn]
    refine ⟨_, _, HttpsCF.Respond.deploymentPatch_eq H hH C d c0 cs hc, rfl, ?_, ?_⟩
    · show (HttpsCF.Respond.editVolumes H C d).volumes = d.volumes
      simp [HttpsCF.Respond.editVolumes, he, hv]
    · rw [HttpsCF.Respond.editPorts_volumeMounts H hH]
      simp [HttpsCF.Respond.editMounts, he, hm]

/-- Witness for C15: the spec names no secret and the Deployment carries the volume and the
mount of the secret `old`. -/
theorem HttpsCF.empty_secret_name_keeps_volume_witness :
    Common.model.Lawful ∧
    removedSecretContext.resourceCache.readable = true ∧
    removedSecretContext.resourceCache.declaredSecretName = "" ∧
    ∃ sensed ctx',
      HttpsCF.Sense noSecrets false removedSecretContext afterOld = .ok (sensed, ctx') ∧
      sensed.secretVolumeExists = false ∧ sensed.secretVolumeMountExists = false ∧
      (HttpsCF.Compare sensed).1.httpsEnabled = false ∧
      ∃ d' c0',
        HttpsCF.Respond.deploymentPatch Common.model (HttpsCF.Compare sensed).1
          oldSecretDeployment = .ok d' ∧
        d'.containers = c0' :: [] ∧
        d'.volumes = oldSecretDeployment.volumes ∧
        c0'.volumeMounts = oldSecretContainer.volumeMounts := by
  obtain ⟨sensed, ctx', h1, _, h3, h4, h5, _, _, h8⟩ :=
    HttpsCF.empty_secret_name_keeps_volume Common.model Common.model_lawful noSecrets false
      removedSecretContext afterOld (by decide) (by decide)
  exact ⟨Common.model_lawful, by decide, by decide, sensed, ctx', h1, h3, h4, h5,
    h8 oldSecretDeployment oldSecretContainer [] rfl⟩

/-- The removed secret, evaluated with the modelled helpers: after the secret `old` is
taken out of the spec, one round of `HttpsCF` leaves the volume and the mount named `old`
in the Deployment and removes the HTTPS port.  `Respond` runs because the secret name differs
from the previous one. -/
theorem HttpsCF.removed_secret_example :
    HttpsCF.senseCompare noSecrets false removedSecretContext afterOld = .ok true ∧
    ∃ this' ctx',
      HttpsCF.round Common.model noSecrets {} removedSecretContext afterOld =
        .ok (this', ctx') ∧
      ctx'.resourceCache.hasVolume "old" = true ∧
      ctx'.resourceCache.hasVolumeMount "old" = true ∧
      ctx'.resourceCache.containerHasPort HttpsPort = false ∧
      ctx'.resourceCache.containerHasPort HttpPort = true :=
  ⟨rfl, _, _, rfl, by decide, by decide, by decide, by decide⟩

end Operator
